import Mathlib

/-!
# go-degiro: accounting engine and entity caches

A shallow embedding of the transaction accountant (`historicalposition.go`,
`transaction_cache.go`), of the order, position and balance caches with the
update cycle (`order.go`, `position.go`, `balance.go`, `update.go`) and of the
quote client (`streaming/streaming.go`, `streaming/concurrentmaps.go`) and
of the relogin wrapper of `degiro.go`, followed by theorems about them.

Modelling conventions.

* Go `int` and `int64` are 64 bits wide, as on the amd64 and arm64 targets. A
  value of these types is the integer it denotes; an addition wraps around
  modulo `2^64` (`wrapInt64`), and the conversion of a `float64` out of the
  range gives what the amd64 instruction gives (`float64ToInt`).
* `decimal.Decimal` (shopspring) is an arbitrary-precision decimal. It is
  modelled by the rational number it denotes. `Add`, `Sub`, `Mul`, `Abs`
  and `Equal` are exact on values. `Div` is not: it rounds the quotient half
  away from zero at `DivisionPrecision = 16` fractional digits, and panics on
  a zero divisor.
* A JSON number reaches the code as a `float64`: a number is carried as the
  rational its literal denotes and read through `roundFloat64`, the nearest
  `float64`. `decimal.NewFromFloat`, `time.Parse` and `strconv.Atoi` belong to
  libraries outside the repository: the functions that call them take them as
  arguments (`NewFromFloat`, `parseDate`, `atoi`), and a statement about such
  a function holds for every value of the argument. The examples take
  `NewFromFloat` at floats that are small integers, where the library returns
  the decimal of the same value, and pass the identity for it.
* `time.Time` is an instant on the integer time line; `Before` is `<`.
  Where a duration is measured (`Sub`), instants are counted in nanoseconds.
* A Go runtime panic and a returned `error` are both explicit outcomes
  (`Fault`) of the embedded functions.
* The iteration order of a Go map is unspecified. Functions that range over
  a map take that order as an explicit argument (`MapOrder`).
* What a network request gives is an argument of the function that makes it.
  A method that changes its receiver before it can fail returns the receiver
  as the call leaves it together with what the call returns.
-/

namespace Degiro

/-! ## Outcomes -/

/-- The ways a call can end without a value: a returned Go `error`, or a
runtime panic (division by zero in the decimal library, a failed type
assertion, an index out of range). -/
inductive Fault where
  | error (msg : String)
  | divisionByZero
  | typeAssertion
  | indexOutOfRange
deriving DecidableEq, Repr

deriving instance DecidableEq for Except

/-! ## Machine integers -/

/-- The value an `int64` (or an `int`) holds after an operation whose exact
result is `x`: the integer of `[-2^63, 2^63)` that differs from `x` by a
multiple of `2^64`. -/
def wrapInt64 (x : Int) : Int :=
  (x + 9223372036854775808) % 18446744073709551616 - 9223372036854775808

/-! ## Decimals -/

/-- The value of a `decimal.Decimal`. -/
abbrev Decimal := ℚ

/-- The package variable `decimal.DivisionPrecision`. -/
def DivisionPrecision : Nat := 16

/-- The value-level behaviour of `Decimal.QuoRem`: the quotient truncated
toward zero at `precision` fractional digits, and the matching remainder. -/
def Decimal.QuoRem (d d2 : Decimal) (precision : Nat) : Decimal × Decimal :=
  let scaled : ℚ := d / d2 * 10 ^ precision
  let q : Decimal := ((Int.tdiv scaled.num scaled.den : Int) : ℚ) / 10 ^ precision
  (q, d - d2 * q)

/-- The value-level behaviour of `Decimal.DivRound`: compare twice the
remainder with the divisor and move the truncated quotient one unit in the
last place away from zero when the remainder is at least half a unit. -/
def Decimal.DivRound (d d2 : Decimal) (precision : Nat) : Decimal :=
  let qr := Decimal.QuoRem d d2 precision
  if 2 * |qr.2| * 10 ^ precision < |d2| then qr.1
  else if d.num.sign * d2.num.sign < 0 then qr.1 - 1 / 10 ^ precision
  else qr.1 + 1 / 10 ^ precision

/-- The method `Decimal.Div`: panics on a zero divisor, otherwise rounds the
quotient to `DivisionPrecision` digits. -/
def Decimal.Div (d d2 : Decimal) : Except Fault Decimal :=
  if d2 = 0 then throw Fault.divisionByZero
  else pure (Decimal.DivRound d d2 DivisionPrecision)

/-! ## Transactions -/

/-- The struct `Transaction` of `transaction.go`. -/
structure Transaction where
  BuySell : String
  Quantity : Int
  OrderType : Int
  CounterParty : String
  TotalInBaseCurrency : Decimal
  FeeInBaseCurrency : Decimal
  TotalPlusFeeInBaseCurrency : Decimal
  Transfered : Bool
  ProductId : Int
  Price : Decimal
  Date : Int
  Total : Decimal
  Id : Int
deriving DecidableEq

/-- The zero value of `Transaction`. -/
def Transaction.zero : Transaction :=
  { BuySell := "", Quantity := 0, OrderType := 0, CounterParty := "",
    TotalInBaseCurrency := 0, FeeInBaseCurrency := 0,
    TotalPlusFeeInBaseCurrency := 0, Transfered := false, ProductId := 0,
    Price := 0, Date := 0, Total := 0, Id := 0 }

/-- The result of `sort.SliceStable(s, less)`: the stable sort of `s`, given
here through the relation "`less b a` is false". -/
def sliceStable {α : Type} (notAfter : α → α → Prop) [DecidableRel notAfter]
    (s : List α) : List α :=
  List.insertionSort notAfter s

/-- The comparison `!transactions[j].Date.Before(transactions[i].Date)`. -/
def Transaction.notAfter (a b : Transaction) : Prop := ¬ b.Date < a.Date

instance : DecidableRel Transaction.notAfter := fun a b =>
  inferInstanceAs (Decidable (¬ b.Date < a.Date))

/-- The function `sortTransactionsByDateAscending`. -/
def sortTransactionsByDateAscending (transactions : List Transaction) :
    List Transaction :=
  sliceStable Transaction.notAfter transactions

/-! ## Historical positions -/

/-- The struct `HistoricalPosition`. -/
structure HistoricalPosition where
  ProductId : Int
  transactions : List Transaction
deriving DecidableEq

/-- The method `AddTransaction`: append, then sort the lot by date. -/
def HistoricalPosition.AddTransaction (p : HistoricalPosition)
    (transaction : Transaction) : HistoricalPosition :=
  { p with
    transactions := sortTransactionsByDateAscending (p.transactions ++ [transaction]) }

/-- The method `GetTransactionCount`. -/
def HistoricalPosition.GetTransactionCount (p : HistoricalPosition) : Nat :=
  p.transactions.length

/-- The method `GetSize`; `res += t.Quantity` is an addition of `int`s. -/
def HistoricalPosition.GetSize (p : HistoricalPosition) : Int :=
  p.transactions.foldl (fun res t => wrapInt64 (res + t.Quantity)) 0

/-- One iteration of the loop of `GetPru` on the pair
`(totalSize, totalPrice)`; `totalSize += int64(t.Quantity)` is an addition of
`int64`s. -/
def pruStep (acc : Int × Decimal) (t : Transaction) : Int × Decimal :=
  if t.Quantity ≤ 0 then acc
  else (wrapInt64 (acc.1 + t.Quantity), acc.2 - t.TotalPlusFeeInBaseCurrency)

/-- The function `GetPru`; `decimal.NewFromFloat(0)` is the zero decimal and
`decimal.New(totalSize, 0)` the decimal of value `totalSize`. -/
def GetPru (transactions : List Transaction) : Except Fault Decimal :=
  let acc := transactions.foldl pruStep (0, 0)
  if acc.1 = 0 then pure 0
  else Decimal.Div acc.2 (acc.1 : ℚ)

/-- The method `HistoricalPosition.GetPru`. -/
def HistoricalPosition.GetPru (p : HistoricalPosition) : Except Fault Decimal :=
  Degiro.GetPru p.transactions

/-- One iteration of the loop of `GetPastPerformance` on the pair
`(res, tmpTrans)`. -/
def pastPerformanceStep (acc : Decimal × List Transaction) (t : Transaction) :
    Except Fault (Decimal × List Transaction) :=
  if t.Quantity < 0 then do
    let currentPru ← GetPru acc.2
    pure (acc.1 + ((t.Price - currentPru) * |(t.Quantity : ℚ)| + t.FeeInBaseCurrency),
      acc.2 ++ [t])
  else pure (acc.1, acc.2 ++ [t])

/-- The method `GetPastPerformance`. -/
def HistoricalPosition.GetPastPerformance (p : HistoricalPosition) :
    Except Fault Decimal := do
  let acc ← p.transactions.foldlM pastPerformanceStep (0, [])
  pure acc.1

/-- The struct `streaming.ProductQuote`. -/
structure ProductQuote where
  IssueId : String
  FullName : String
  LastPrice : Decimal
  BidPrice : Decimal
  AskPrice : Decimal
  OpenPrice : Decimal
  LowPrice : Decimal
  HighPrice : Decimal
  BidVolume : Decimal
  AskVolume : Decimal
deriving DecidableEq

/-- The method `GetCurrentPerformance`; `decimal.NewFromFloat(0)` is the zero
decimal. -/
def HistoricalPosition.GetCurrentPerformance (p : HistoricalPosition)
    (quote : ProductQuote) : Except Fault Decimal :=
  if quote.BidPrice = 0 ∨ quote.AskPrice = 0 then pure 0
  else do
    let mid ← Decimal.Div (quote.AskPrice + quote.BidPrice) 2
    let pru ← p.GetPru
    pure ((mid - pru) * (p.GetSize : ℚ))

/-- The zero value `time.Time{}`, the origin of the time line. -/
def zeroTime : Int := 0

/-- The method `GetFirstTransactionDate`. -/
def HistoricalPosition.GetFirstTransactionDate (p : HistoricalPosition) : Int :=
  match p.transactions with
  | [] => zeroTime
  | t :: _ => t.Date

/-- The comparison used by `sortHistoricalPositionByFirstTransactionDateAscending`:
`hpositions[j]`'s first date is not before `hpositions[i]`'s. -/
def HistoricalPosition.notAfter (a b : HistoricalPosition) : Prop :=
  ¬ b.GetFirstTransactionDate < a.GetFirstTransactionDate

instance : DecidableRel HistoricalPosition.notAfter := fun a b =>
  inferInstanceAs (Decidable (¬ b.GetFirstTransactionDate < a.GetFirstTransactionDate))

/-- The function `sortHistoricalPositionByFirstTransactionDateAscending`. -/
def sortHistoricalPositionByFirstTransactionDateAscending
    (hpositions : List HistoricalPosition) : List HistoricalPosition :=
  sliceStable HistoricalPosition.notAfter hpositions

/-- One iteration of the loop of `GetPastPerformanceSince` on the pair
`(res, tmpTrans)`. -/
def pastPerformanceSinceStep (since : Int) (acc : Decimal × List Transaction)
    (t : Transaction) : Except Fault (Decimal × List Transaction) :=
  if t.Quantity < 0 ∧ since < t.Date then do
    let currentPru ← GetPru acc.2
    pure (acc.1 + ((t.Price - currentPru) * |(t.Quantity : ℚ)| + t.FeeInBaseCurrency),
      acc.2 ++ [t])
  else pure (acc.1, acc.2 ++ [t])

/-- The method `GetPastPerformanceSince`. -/
def HistoricalPosition.GetPastPerformanceSince (p : HistoricalPosition) (since : Int) :
    Except Fault Decimal := do
  let acc ← p.transactions.foldlM (pastPerformanceSinceStep since) (0, [])
  pure acc.1

/-- The zero value `HistoricalPosition{}`. -/
def HistoricalPosition.zero : HistoricalPosition := { ProductId := 0, transactions := [] }

/-- The method `GetTotalBuyAmount`. -/
def HistoricalPosition.GetTotalBuyAmount (p : HistoricalPosition) : Decimal :=
  p.transactions.foldl (fun res transaction =>
    if transaction.Quantity > 0 then res + (transaction.Quantity : ℚ) * transaction.Price
    else res) 0

/-- The method `GetPastPerformanceInPercent`. -/
def HistoricalPosition.GetPastPerformanceInPercent (p : HistoricalPosition) :
    Except Fault Decimal := do
  let performance ← p.GetPastPerformance
  Decimal.Div (performance * 100) p.GetTotalBuyAmount

/-! ## Lots from transactions -/

/-- The statement `tmap[t.ProductId] = append(tmap[t.ProductId], t)` on the
map `tmap`, kept as the list of its entries in insertion order. -/
def tmapAppend (tmap : List (Int × List Transaction)) (t : Transaction) :
    List (Int × List Transaction) :=
  match tmap with
  | [] => [(t.ProductId, [t])]
  | (k, l) :: rest =>
    if k = t.ProductId then (k, l ++ [t]) :: rest else (k, l) :: tmapAppend rest t

/-- An iteration order for `for pid, translist := range tmap`: Go visits every
entry of the map exactly once, in an order it does not specify. -/
structure MapOrder where
  iter : List (Int × List Transaction) → List (Int × List Transaction)
  perm : ∀ m, (iter m).Perm m

/-- The iteration order that visits the entries in insertion order. -/
def MapOrder.insertion : MapOrder := ⟨id, fun _ => List.Perm.refl _⟩

/-- The iteration order that visits the entries in reverse insertion order. -/
def MapOrder.reversed : MapOrder := ⟨List.reverse, fun m => List.reverse_perm m⟩

/-- One iteration of the inner loop `for _, t := range translist`. The state is
the pair of `tmp` without its last element and the lot `p` that last element
points to: `p.AddTransaction(t)` changes the lot in place, and when its size
is zero a fresh lot for `pid` is appended to `tmp` and becomes `p`. -/
def lotStep (pid : Int) (acc : List HistoricalPosition × HistoricalPosition)
    (t : Transaction) : List HistoricalPosition × HistoricalPosition :=
  let p := acc.2.AddTransaction t
  if p.GetSize ≠ 0 then (acc.1, p)
  else (acc.1 ++ [p], { ProductId := pid, transactions := [] })

/-- One iteration of the outer loop `for pid, translist := range tmap`: a fresh
lot is appended to `tmp`, then the inner loop runs. -/
def productStep (tmp : List HistoricalPosition) (entry : Int × List Transaction) :
    List HistoricalPosition :=
  let acc := entry.2.foldl (lotStep entry.1)
    (tmp, { ProductId := entry.1, transactions := [] })
  acc.1 ++ [acc.2]

/-- The function `getHistoricalPositionsFromTransactions`. The first component
is the argument slice after the call (it is sorted in place), the second the
returned lots. -/
def getHistoricalPositionsFromTransactions (order : MapOrder)
    (transactions : List Transaction) : List Transaction × List HistoricalPosition :=
  let sorted := sortTransactionsByDateAscending transactions
  let tmap := sorted.foldl tmapAppend []
  let tmp := (order.iter tmap).foldl productStep []
  let res := tmp.filter (fun p => decide (p.GetTransactionCount > 0))
  (sorted, sortHistoricalPositionByFirstTransactionDateAscending res)

/-! ## The transaction ledger -/

/-- The struct `TransactionCache` (the lock left out). -/
structure TransactionCache where
  transactions : List Transaction
  positions : List HistoricalPosition
deriving DecidableEq

/-- The function `newTransactionCache`. -/
def newTransactionCache : TransactionCache := { transactions := [], positions := [] }

/-- One iteration of the outer loop of `Merge`: the incoming transaction is
appended unless a stored transaction has its id. -/
def mergeStep (ledger : List Transaction) (transaction : Transaction) : List Transaction :=
  if ledger.any (fun t => decide (t.Id = transaction.Id)) then ledger
  else ledger ++ [transaction]

/-- The method `TransactionCache.Merge`. The call that derives the positions
sorts `c.transactions` in place. -/
def TransactionCache.Merge (order : MapOrder) (c : TransactionCache)
    (transactions : List Transaction) : TransactionCache :=
  let appended := transactions.foldl mergeStep c.transactions
  let r := getHistoricalPositionsFromTransactions order appended
  { transactions := r.1, positions := r.2 }

/-- The method `TransactionCache.GetOpenedHistoricalPositionForProduct`. `atoi`
stands for `strconv.Atoi`; it returns `none` when the string is not an
integer. -/
def TransactionCache.GetOpenedHistoricalPositionForProduct (atoi : String → Option Int)
    (c : TransactionCache) (productid : String) : HistoricalPosition × Bool :=
  match atoi productid with
  | none => (HistoricalPosition.zero, false)
  | some productidInt =>
    match c.positions.find? (fun position =>
        decide (position.ProductId = productidInt) && decide (position.GetSize > 0)) with
    | some position => (position, true)
    | none => (HistoricalPosition.zero, false)

/-- The method `TransactionCache.GetHistoricalPositionsForProduct`. -/
def TransactionCache.GetHistoricalPositionsForProduct (atoi : String → Option Int)
    (c : TransactionCache) (productid : String) : List HistoricalPosition :=
  match atoi productid with
  | none => []
  | some productidInt =>
    c.positions.filter (fun position => decide (position.ProductId = productidInt))

/-- The method `TransactionCache.GetAllHistoricalPositions`. -/
def TransactionCache.GetAllHistoricalPositions (c : TransactionCache) :
    List HistoricalPosition :=
  [] ++ c.positions

/-! ## Orders and positions -/

/-- The struct `Order`; `ActionType`, `OrderType` and `TimeType` are the
string and integers they are defined as. -/
structure Order where
  Id : String
  Date : Int
  ProductId : Int
  ProductName : String
  ContractType : Int
  ContractSize : Decimal
  Currency : String
  BuySell : String
  Size : Int
  Quantity : Int
  Price : Decimal
  StopPrice : Decimal
  TotalOrderValue : Decimal
  OrderType : Int
  TimeType : Int
  IsModifiable : Bool
  IsDeletable : Bool
deriving DecidableEq

/-- The zero value `Order{}`. -/
def Order.zero : Order :=
  { Id := "", Date := zeroTime, ProductId := 0, ProductName := "", ContractType := 0,
    ContractSize := 0, Currency := "", BuySell := "", Size := 0, Quantity := 0,
    Price := 0, StopPrice := 0, TotalOrderValue := 0, OrderType := 0, TimeType := 0,
    IsModifiable := false, IsDeletable := false }

/-- The struct `Position`. -/
structure Position where
  ProductId : String
  Size : Int
deriving DecidableEq

/-- The zero value `Position{}`. -/
def Position.zero : Position := { ProductId := "", Size := 0 }

/-- The struct `OrderCache` (the lock left out). -/
structure OrderCache where
  cache : List Order
deriving DecidableEq

/-- The struct `PositionCache` (the lock left out). -/
structure PositionCache where
  cache : List Position
deriving DecidableEq

/-- The function `newOrderCache`. -/
def newOrderCache : OrderCache := { cache := [] }

/-- The function `newPositionCache`. -/
def newPositionCache : PositionCache := { cache := [] }

/-- The method `OrderCache.Clear`. -/
def OrderCache.Clear (_c : OrderCache) : OrderCache := { cache := [] }

/-- The method `PositionCache.Clear`. -/
def PositionCache.Clear (_c : PositionCache) : PositionCache := { cache := [] }

/-- The method `OrderCache.Add`. -/
def OrderCache.Add (c : OrderCache) (orders : List Order) : OrderCache :=
  { cache := c.cache ++ orders }

/-- The method `PositionCache.Add`. -/
def PositionCache.Add (c : PositionCache) (positions : List Position) : PositionCache :=
  { cache := c.cache ++ positions }

/-- The body of the inner loop of `OrderCache.Update` on the loop variable
`order`. -/
def updateOrder (order o : Order) : Order :=
  if order.Id = o.Id then
    { order with
      Quantity := o.Quantity, Price := o.Price, StopPrice := o.StopPrice,
      TotalOrderValue := o.TotalOrderValue, OrderType := o.OrderType,
      TimeType := o.TimeType, IsDeletable := o.IsDeletable,
      IsModifiable := o.IsModifiable }
  else order

/-- The method `OrderCache.Update`: for each cached order, the update orders
are applied to it in turn. -/
def OrderCache.Update (c : OrderCache) (orders : List Order) : OrderCache :=
  { cache := c.cache.map (fun order => orders.foldl updateOrder order) }

/-- The body of the inner loop of `PositionCache.Update` on the loop variable
`position`. -/
def updatePosition (position p : Position) : Position :=
  if position.ProductId = p.ProductId then { position with Size := p.Size } else position

/-- The method `PositionCache.Update`. -/
def PositionCache.Update (c : PositionCache) (positions : List Position) : PositionCache :=
  { cache := c.cache.map (fun position => positions.foldl updatePosition position) }

/-- The inner loop `for _, id := range ids` of `Remove` at index `i`: whether
some listed id equals the key of `cache[i]`, which is read once per id. -/
def matchesAny {α : Type} (key : α → String) (cache : List α) (i : Nat) :
    List String → Except Fault Bool
  | [] => pure false
  | id :: rest =>
    match cache[i]? with
    | none => throw Fault.indexOutOfRange
    | some x => if key x = id then pure true else matchesAny key cache i rest

/-- The loop `cacheloop` of `OrderCache.Remove` and `PositionCache.Remove`, with
`n = i + 1` iterations left: on a match `cache[i]` is overwritten with the
last element and the slice is shortened by one. -/
def removeLoop {α : Type} (key : α → String) (ids : List String) :
    Nat → List α → Except Fault (List α)
  | 0, cache => pure cache
  | i + 1, cache => do
    if (← matchesAny key cache i ids) then
      match cache.getLast? with
      | none => throw Fault.indexOutOfRange
      | some last => removeLoop key ids i ((cache.set i last).dropLast)
    else removeLoop key ids i cache

/-- The method `OrderCache.Remove`. -/
def OrderCache.Remove (c : OrderCache) (orderIds : List String) : Except Fault OrderCache := do
  let cache ← removeLoop Order.Id orderIds c.cache.length c.cache
  pure { cache := cache }

/-- The method `PositionCache.Remove`. -/
def PositionCache.Remove (c : PositionCache) (positionsIds : List String) :
    Except Fault PositionCache := do
  let cache ← removeLoop Position.ProductId positionsIds c.cache.length c.cache
  pure { cache := cache }

/-- The method `OrderCache.Get`. -/
def OrderCache.Get (c : OrderCache) (productId : Int) : List Order :=
  c.cache.filter (fun order => decide (order.ProductId = productId))

/-- The method `PositionCache.Get`. -/
def PositionCache.Get (c : PositionCache) (productId : String) : List Position :=
  c.cache.filter (fun position => decide (position.ProductId = productId))

/-! ## Decoding update records -/

/-- A JSON value, as `encoding/json` stores it in an `interface{}`. A number
carries the rational its literal denotes; the code receives it as the
`float64` nearest to that rational (`JsonValue.float64`). -/
inductive JsonValue where
  | null
  | bool (b : Bool)
  | number (f : ℚ)
  | string (s : String)
  | array (items : List JsonValue)
  | object (fields : List (String × JsonValue))

/-- Whether `2^k ≤ n / d`. -/
def pow2Le (k : Int) (n d : Nat) : Bool :=
  if 0 ≤ k then decide (d * 2 ^ k.toNat ≤ n) else decide (d ≤ n * 2 ^ (-k).toNat)

/-- The integer `k` with `2^k ≤ n / d < 2^(k+1)`, for positive `n` and `d`. -/
def binaryExponent (n d : Nat) : Int :=
  let k : Int := (Nat.log2 n : Int) - (Nat.log2 d : Int)
  if pow2Le k n d then k else k - 1

/-- The `float64` that `encoding/json` (through `strconv.ParseFloat`) decodes
a number to, as the rational it is: the number `m * 2^e` nearest to `q`, with
a mantissa `m` of at most 53 bits and `e ≥ -1074`, a tie going to the even
mantissa. The decoder rejects a number too large for a `float64`, so the
exponent is not bounded above here. -/
def roundFloat64 (q : ℚ) : ℚ :=
  if q.num = 0 then 0
  else
    let n : Nat := q.num.natAbs
    let d : Nat := q.den
    let e : Int := max (binaryExponent n d - 52) (-1074)
    let N : Nat := if e < 0 then n * 2 ^ (-e).toNat else n
    let D : Nat := if e < 0 then d else d * 2 ^ e.toNat
    let m0 : Nat := N / D
    let r : Nat := N % D
    let m : Nat :=
      if 2 * r < D then m0
      else if D < 2 * r then m0 + 1
      else if m0 % 2 = 0 then m0 else m0 + 1
    if e < 0 then mkRat (q.num.sign * (m : Int)) (2 ^ (-e).toNat)
    else ((q.num.sign * (m : Int) * 2 ^ e.toNat : Int) : ℚ)

/-- The type assertion `v.(float64)`; the value is the `float64` the number
was decoded to. -/
def JsonValue.float64 : JsonValue → Except Fault ℚ
  | JsonValue.number f => pure (roundFloat64 f)
  | _ => throw Fault.typeAssertion

/-- The type assertion `v.(string)`. -/
def JsonValue.str : JsonValue → Except Fault String
  | JsonValue.string s => pure s
  | _ => throw Fault.typeAssertion

/-- The type assertion `v.(bool)`. -/
def JsonValue.boolean : JsonValue → Except Fault Bool
  | JsonValue.bool b => pure b
  | _ => throw Fault.typeAssertion

/-- The conversion `int(f)` or `int64(f)` of a `float64`: truncation toward
zero, and `-2^63` (what the amd64 conversion instruction gives) when the
truncated value does not fit 64 bits. -/
def float64ToInt (f : ℚ) : Int :=
  let t := Int.tdiv f.num f.den
  if -9223372036854775808 ≤ t ∧ t < 9223372036854775808 then t
  else -9223372036854775808

/-- An element of the `Value` list of an update record. -/
structure Property where
  Name : String
  Value : JsonValue

/-- The struct `updateOrderResponse`. -/
structure updateOrderResponse where
  OrderId : String
  IsAdded : Bool
  IsRemoved : Bool
  Value : List Property

/-- The struct `updateOrdersResponse`. -/
structure updateOrdersResponse where
  LastUpdated : Int
  Value : List updateOrderResponse

/-- The struct `updatePositionResponse`. -/
structure updatePositionResponse where
  Id : String
  IsAdded : Bool
  IsRemoved : Bool
  Value : List Property

/-- The struct `updatePositionsResponse`. -/
structure updatePositionsResponse where
  LastUpdated : Int
  Positions : List updatePositionResponse

/-- The struct `updateBalanceResponse`. -/
structure updateBalanceResponse where
  LastUpdated : Int
  Value : List Property

/-- The struct `updateResponse`. -/
structure updateResponse where
  Orders : updateOrdersResponse
  Portfolio : updatePositionsResponse
  Balance : updateBalanceResponse

/-- The function `convertShortActionType`. -/
def convertShortActionType (s : String) : Except Fault String :=
  match s with
  | "B" => pure "BUY"
  | "S" => pure "SELL"
  | _ => throw (Fault.error ("unknown action type: " ++ s))

/-- The body of the loop of `ConvertToOrder` for one property. `parseDate`
stands for the two `time.Parse` attempts made for a `date` property (they
depend on the current day); it returns `none` when both fail. `NewFromFloat`
stands for `decimal.NewFromFloat` of the decimal library, from a `float64` to
the decimal it returns. -/
def convertOrderProperty (parseDate : String → Option Int)
    (NewFromFloat : ℚ → Decimal) (orderId : String)
    (order0 : Order) (property : Property) : Except Fault Order := do
  let order := { order0 with Id := orderId }
  match property.Name with
  | "productId" =>
    let f ← property.Value.float64
    pure { order with ProductId := float64ToInt f }
  | "product" =>
    let s ← property.Value.str
    pure { order with ProductName := s }
  | "buysell" =>
    let s ← property.Value.str
    match convertShortActionType s with
    | Except.ok buysell => pure { order with BuySell := buysell }
    | Except.error _ => throw (Fault.error ("parsing buysell " ++ s))
  | "size" =>
    let f ← property.Value.float64
    pure { order with Size := float64ToInt f }
  | "quantity" =>
    let f ← property.Value.float64
    pure { order with Quantity := float64ToInt f }
  | "price" =>
    let f ← property.Value.float64
    pure { order with Price := NewFromFloat f }
  | "stopPrice" =>
    let f ← property.Value.float64
    pure { order with StopPrice := NewFromFloat f }
  | "date" =>
    let s ← property.Value.str
    match parseDate s with
    | some date => pure { order with Date := date }
    | none => throw (Fault.error ("parsing date " ++ s))
  | "contractType" =>
    let f ← property.Value.float64
    pure { order with ContractType := float64ToInt f }
  | "contractSize" =>
    let f ← property.Value.float64
    pure { order with ContractSize := NewFromFloat f }
  | "currency" =>
    let s ← property.Value.str
    pure { order with Currency := s }
  | "totalOrderValue" =>
    let f ← property.Value.float64
    pure { order with TotalOrderValue := NewFromFloat f }
  | "orderTypeId" =>
    let f ← property.Value.float64
    pure { order with OrderType := float64ToInt f }
  | "orderTimeTypeId" =>
    let f ← property.Value.float64
    pure { order with TimeType := float64ToInt f }
  | "isModifiable" =>
    let b ← property.Value.boolean
    pure { order with IsModifiable := b }
  | "isDeletable" =>
    let b ← property.Value.boolean
    pure { order with IsDeletable := b }
  | _ => pure order

/-- The method `updateOrderResponse.ConvertToOrder`. A returned Go error is
`Fault.error`; the other faults are panics. -/
def updateOrderResponse.ConvertToOrder (parseDate : String → Option Int)
    (NewFromFloat : ℚ → Decimal)
    (r : updateOrderResponse) : Except Fault Order :=
  r.Value.foldlM (convertOrderProperty parseDate NewFromFloat r.OrderId) Order.zero

/-- The body of the loop of `ConvertToOrders` on `(added, updated, removed)`:
a returned error skips the record, a panic is not caught. -/
def convertOrdersStep (parseDate : String → Option Int) (NewFromFloat : ℚ → Decimal)
    (acc : List Order × List Order × List String) (order : updateOrderResponse) :
    Except Fault (List Order × List Order × List String) :=
  if order.IsRemoved then pure (acc.1, acc.2.1, acc.2.2 ++ [order.OrderId])
  else
    match order.ConvertToOrder parseDate NewFromFloat with
    | Except.error (Fault.error _) => pure acc
    | Except.error fault => throw fault
    | Except.ok newOrder =>
      if order.IsAdded then pure (acc.1 ++ [newOrder], acc.2.1, acc.2.2)
      else pure (acc.1, acc.2.1 ++ [newOrder], acc.2.2)

/-- The method `updateOrdersResponse.ConvertToOrders`. -/
def updateOrdersResponse.ConvertToOrders (parseDate : String → Option Int)
    (NewFromFloat : ℚ → Decimal)
    (r : updateOrdersResponse) : Except Fault (List Order × List Order × List String) :=
  r.Value.foldlM (convertOrdersStep parseDate NewFromFloat) ([], [], [])

/-- The body of the loop of `ConvertToPosition` for one property. -/
def convertPositionProperty (res : Position) (property : Property) : Except Fault Position :=
  match property.Name with
  | "size" => do
    let f ← property.Value.float64
    pure { res with Size := float64ToInt f }
  | _ => pure res

/-- The method `updatePositionResponse.ConvertToPosition`; it never returns a
Go error. -/
def updatePositionResponse.ConvertToPosition (r : updatePositionResponse) :
    Except Fault Position :=
  r.Value.foldlM convertPositionProperty { Position.zero with ProductId := r.Id }

/-- The body of the loop of `ConvertToPositions` on `(added, updated, removed)`. -/
def convertPositionsStep (acc : List Position × List Position × List String)
    (position : updatePositionResponse) :
    Except Fault (List Position × List Position × List String) :=
  if position.IsRemoved then pure (acc.1, acc.2.1, acc.2.2 ++ [position.Id])
  else
    match position.ConvertToPosition with
    | Except.error (Fault.error _) => pure acc
    | Except.error fault => throw fault
    | Except.ok newPosition =>
      if position.IsAdded then pure (acc.1 ++ [newPosition], acc.2.1, acc.2.2)
      else pure (acc.1, acc.2.1 ++ [newPosition], acc.2.2)

/-- The method `updatePositionsResponse.ConvertToPositions`. -/
def updatePositionsResponse.ConvertToPositions (r : updatePositionsResponse) :
    Except Fault (List Position × List Position × List String) :=
  r.Positions.foldlM convertPositionsStep ([], [], [])

/-- The method `Client.updateOrderCacheFromResponse`, on the order cache of
the client. -/
def updateOrderCacheFromResponse (parseDate : String → Option Int)
    (NewFromFloat : ℚ → Decimal) (orders : OrderCache)
    (response : updateResponse) : Except Fault OrderCache := do
  let (added, updated, removed) ← response.Orders.ConvertToOrders parseDate NewFromFloat
  ((orders.Add added).Update updated).Remove removed

/-- The method `Client.updatePositionCacheFromResponse`, on the position cache
of the client. -/
def updatePositionCacheFromResponse (positions : PositionCache)
    (response : updateResponse) : Except Fault PositionCache := do
  let (added, updated, removed) ← response.Portfolio.ConvertToPositions
  ((positions.Add added).Update updated).Remove removed

/-! ## Balance and the update cycle -/

/-- The struct `Balance`. -/
structure Balance where
  Cash : Decimal
  FreeSpaceNewInEuros : Decimal
  ReportPortfValue : Decimal
  ReportNetliq : Decimal
deriving DecidableEq

/-- The zero value `Balance{}`. -/
def Balance.zero : Balance :=
  { Cash := 0, FreeSpaceNewInEuros := 0, ReportPortfValue := 0, ReportNetliq := 0 }

/-- The struct `BalanceCache` (the lock left out). -/
structure BalanceCache where
  cache : Balance
deriving DecidableEq

/-- The function `newBalanceCache`. -/
def newBalanceCache : BalanceCache := { cache := Balance.zero }

/-- The method `BalanceCache.Set`. -/
def BalanceCache.Set (_c : BalanceCache) (balance : Balance) : BalanceCache :=
  { cache := balance }

/-- The method `BalanceCache.Get`. -/
def BalanceCache.Get (c : BalanceCache) : Balance := c.cache

/-- The type assertion `v.(map[string]interface{})`. -/
def JsonValue.asMap : JsonValue → Except Fault (List (String × JsonValue))
  | JsonValue.object fields => pure fields
  | _ => throw Fault.typeAssertion

/-- The index expression `m[key]` on a `map[string]interface{}`: the nil
interface when the key is absent. -/
def mapIndex (m : List (String × JsonValue)) (key : String) : JsonValue :=
  match m.lookup key with
  | some v => v
  | none => JsonValue.null

/-- The body of the loop of `ConvertToBalance` for one property; `NewFromFloat`
stands for `decimal.NewFromFloat`. -/
def convertBalanceProperty (NewFromFloat : ℚ → Decimal) (res : Balance)
    (property : Property) : Except Fault Balance :=
  match property.Name with
  | "cash" => do
    let f ← property.Value.float64
    pure { res with Cash := NewFromFloat f }
  | "freeSpaceNew" => do
    let m ← property.Value.asMap
    let f ← (mapIndex m "EUR").float64
    pure { res with FreeSpaceNewInEuros := NewFromFloat f }
  | "reportPortfValue" => do
    let f ← property.Value.float64
    pure { res with ReportPortfValue := NewFromFloat f }
  | "reportNetliq" => do
    let f ← property.Value.float64
    pure { res with ReportNetliq := NewFromFloat f }
  | _ => pure res

/-- The method `updateBalanceResponse.ConvertToBalance`. -/
def updateBalanceResponse.ConvertToBalance (NewFromFloat : ℚ → Decimal)
    (r : updateBalanceResponse) : Except Fault (Balance × Bool) :=
  if r.Value.length = 0 then pure (Balance.zero, false)
  else do
    let res ← r.Value.foldlM (convertBalanceProperty NewFromFloat) Balance.zero
    pure (res, true)

/-- The fields of the struct `Client` that the update cycle and the relogin
read or write. -/
structure Client where
  TryReloginOn401 : Bool
  username : String
  password : String
  sessionId : String
  ordersLastUpdate : Int
  orders : OrderCache
  portfolioLastUpdate : Int
  positions : PositionCache
  totalPortfolioLastUpdate : Int
  balance : BalanceCache
  lastLoginDate : Int
deriving DecidableEq

/-- The method `Client.update`. `received` is what the request made through
`ReceiveSuccessReloginOn401` gave: the decoded response, or `none` when it
returned an error, in which case `update` returns an error before it touches
the cursors and the caches. -/
def Client.update (parseDate : String → Option Int) (NewFromFloat : ℚ → Decimal) (c : Client)
    (received : Option updateResponse) : Except Fault Client :=
  match received with
  | none => throw (Fault.error "executing request")
  | some response => do
    let c1 := { c with ordersLastUpdate := response.Orders.LastUpdated }
    let orders ← updateOrderCacheFromResponse parseDate NewFromFloat c1.orders response
    let c2 := { c1 with orders := orders, portfolioLastUpdate := response.Portfolio.LastUpdated }
    let positions ← updatePositionCacheFromResponse c2.positions response
    let c3 := { c2 with positions := positions }
    if c3.totalPortfolioLastUpdate ≠ response.Balance.LastUpdated then do
      let c4 := { c3 with totalPortfolioLastUpdate := response.Balance.LastUpdated }
      let (b, found) ← response.Balance.ConvertToBalance NewFromFloat
      if found then pure { c4 with balance := c4.balance.Set b }
      else pure c4
    else pure c3

/-! ## Relogin on a 401 response -/

/-- The constant `time.Second`, a `time.Duration` in nanoseconds. -/
def Second : Int := 1000000000

/-- The largest `time.Duration`. -/
def maxDuration : Int := 9223372036854775807

/-- The smallest `time.Duration`. -/
def minDuration : Int := -9223372036854775808

/-- The method `time.Time.Sub` on instants counted in nanoseconds: the
difference `t - u`, replaced by the largest or the smallest duration when it
does not fit a `time.Duration`. -/
def timeSub (t u : Int) : Int :=
  if t - u > maxDuration then maxDuration
  else if t - u < minDuration then minDuration
  else t - u

/-- The part of an `http.Response` the client reads. -/
structure Response where
  StatusCode : Int
deriving DecidableEq

/-- The struct `LoginResponse`. -/
structure LoginResponse where
  IsPassCodeEnabled : Bool
  Locale : String
  RedirectUrl : String
  SessionId : String
  Status : Int
  StatusText : String
deriving DecidableEq

/-- The method `Client.login`. `received` is what the login request gave (the
transport error, or the response with the decoded body) and `now` the reading
of `time.Now()` after it; the credentials only travel in the request. The
result is the client as the call leaves it and what the call returns. -/
def Client.login (c : Client) (received : Except String (Response × LoginResponse))
    (now : Int) : Client × Except Fault LoginResponse :=
  match received with
  | Except.error err => (c, throw (Fault.error ("request: " ++ err)))
  | Except.ok (resp, loginResponse) =>
    if resp.StatusCode < 200 ∨ resp.StatusCode > 299 then
      (c, throw (Fault.error "not 2xx status code"))
    else ({ c with lastLoginDate := now }, pure loginResponse)

/-- What a call of `ReceiveSuccessReloginOn401` leaves behind: the client, the
number of calls of `login` it made, and what it returns. -/
structure ReloginOutcome where
  client : Client
  logins : Nat
  result : Except Fault Response

/-- The method `Client.ReceiveSuccessReloginOn401` (the lock left out).
`received` is what `s.ReceiveSuccess` gave, `now` the reading of `time.Now()`
in the test, and `loginReceived`, `loginNow` what a call of `login` meets. -/
def Client.ReceiveSuccessReloginOn401 (c : Client) (received : Except String Response)
    (now : Int) (loginReceived : Except String (Response × LoginResponse)) (loginNow : Int) :
    ReloginOutcome :=
  match received with
  | Except.error err => { client := c, logins := 0, result := throw (Fault.error err) }
  | Except.ok resp =>
    if resp.StatusCode = 401 ∧ c.TryReloginOn401 = true ∧
        timeSub now c.lastLoginDate ≥ 15 * Second then
      match c.login loginReceived loginNow with
      | (c1, Except.error _) =>
        { client := c1, logins := 1, result := throw (Fault.error "relogin on 401") }
      | (c1, Except.ok loginResponse) =>
        if resp.StatusCode < 200 ∨ resp.StatusCode > 299 then
          { client := { c1 with sessionId := loginResponse.SessionId }, logins := 1,
            result := throw (Fault.error "not 2xx HTTP status code") }
        else
          { client := { c1 with sessionId := loginResponse.SessionId }, logins := 1,
            result := pure resp }
    else if resp.StatusCode < 200 ∨ resp.StatusCode > 299 then
      { client := c, logins := 0, result := throw (Fault.error "not 2xx HTTP status code") }
    else { client := c, logins := 0, result := pure resp }

/-! ## Quote streaming -/

/-- The package variable `vwdDatas` of `streaming.go`. -/
def vwdDatas : List String :=
  ["BidPrice", "AskPrice", "LastPrice", "BidVolume", "AskVolume", "OpenPrice", "HighPrice",
   "LowPrice", "FullName"]

/-- The function `GetControlDataFromIssueIdList`; `fmt.Sprintf("req(%s.%s);", a, b)`
is the concatenation of its pieces. -/
def GetControlDataFromIssueIdList (issueIdList : List String) (subscribe : Bool) : String :=
  issueIdList.foldl (fun res issueId =>
    vwdDatas.foldl (fun res data =>
      if subscribe then res ++ ("req(" ++ issueId ++ "." ++ data ++ ");")
      else res ++ ("rel(" ++ issueId ++ "." ++ data ++ ");")) res) ""

/-- The struct `IndexMap` (the lock left out): a Go map is the partial
function it represents. -/
structure IndexMap where
  items : String → Option Int

/-- The struct `StringValueMap` (the lock left out). -/
structure StringValueMap where
  items : Int → Option String

/-- The struct `DecimalValueMap` (the lock left out). -/
structure DecimalValueMap where
  items : Int → Option Decimal

/-- The function `NewIndexMap`. -/
def NewIndexMap : IndexMap := { items := fun _ => none }

/-- The function `NewStringValueMap`. -/
def NewStringValueMap : StringValueMap := { items := fun _ => none }

/-- The function `NewDecimalValueMap`. -/
def NewDecimalValueMap : DecimalValueMap := { items := fun _ => none }

/-- The method `IndexMap.Set`. -/
def IndexMap.Set (m : IndexMap) (key : String) (value : Int) : IndexMap :=
  { items := fun k => if k = key then some value else m.items k }

/-- The method `IndexMap.Get`. -/
def IndexMap.Get (m : IndexMap) (key : String) : Option Int := m.items key

/-- The method `StringValueMap.Set`. -/
def StringValueMap.Set (m : StringValueMap) (key : Int) (value : String) : StringValueMap :=
  { items := fun k => if k = key then some value else m.items k }

/-- The method `StringValueMap.Get`. -/
def StringValueMap.Get (m : StringValueMap) (key : Int) : Option String := m.items key

/-- The method `DecimalValueMap.Set`. -/
def DecimalValueMap.Set (m : DecimalValueMap) (key : Int) (value : Decimal) :
    DecimalValueMap :=
  { items := fun k => if k = key then some value else m.items k }

/-- The method `DecimalValueMap.Get`. -/
def DecimalValueMap.Get (m : DecimalValueMap) (key : Int) : Option Decimal := m.items key

/-- The struct `streaming.Client`: the session id and the three maps. -/
structure StreamingClient where
  sessionId : String
  indexes : IndexMap
  stringValues : StringValueMap
  decimalValues : DecimalValueMap

/-- The function `NewStreamingClient`. -/
def NewStreamingClient : StreamingClient :=
  { sessionId := "", indexes := NewIndexMap, stringValues := NewStringValueMap,
    decimalValues := NewDecimalValueMap }

/-- The method `getQuoteStringValue`. -/
def StreamingClient.getQuoteStringValue (c : StreamingClient) (name : String) : String :=
  match c.indexes.Get name with
  | none => ""
  | some id =>
    match c.stringValues.Get id with
    | none => ""
    | some value => value

/-- The method `getQuoteDecimalValue`. -/
def StreamingClient.getQuoteDecimalValue (c : StreamingClient) (name : String) : Decimal :=
  match c.indexes.Get name with
  | none => 0
  | some id =>
    match c.decimalValues.Get id with
    | none => 0
    | some value => value

/-- The method `streaming.Client.GetQuote`; `fmt.Sprintf("%s.FullName", id)` is
`id ++ ".FullName"`. -/
def StreamingClient.GetQuote (c : StreamingClient) (issueid : String) : ProductQuote :=
  { IssueId := issueid,
    FullName := c.getQuoteStringValue (issueid ++ ".FullName"),
    AskPrice := c.getQuoteDecimalValue (issueid ++ ".AskPrice"),
    BidPrice := c.getQuoteDecimalValue (issueid ++ ".BidPrice"),
    LastPrice := c.getQuoteDecimalValue (issueid ++ ".LastPrice"),
    BidVolume := c.getQuoteDecimalValue (issueid ++ ".BidVolume"),
    AskVolume := c.getQuoteDecimalValue (issueid ++ ".AskVolume"),
    OpenPrice := c.getQuoteDecimalValue (issueid ++ ".OpenPrice"),
    HighPrice := c.getQuoteDecimalValue (issueid ++ ".HighPrice"),
    LowPrice := c.getQuoteDecimalValue (issueid ++ ".LowPrice") }

/-- The zero value `ProductQuote{}`. -/
def ProductQuote.zero : ProductQuote :=
  { IssueId := "", FullName := "", LastPrice := 0, BidPrice := 0, AskPrice := 0,
    OpenPrice := 0, LowPrice := 0, HighPrice := 0, BidVolume := 0, AskVolume := 0 }

/-- An element of the response of `getQuoteUpdates`: the anonymous struct with
the fields `Name` (json "m") and `Value` (json "v"). -/
structure QuoteRecord where
  Name : String
  Value : List JsonValue

/-- The index expression `entry.Value[i]`, which panics past the end. -/
def valueAt (v : List JsonValue) (i : Nat) : Except Fault JsonValue :=
  match v[i]? with
  | some x => pure x
  | none => throw Fault.indexOutOfRange

/-- The method `getNewSessionId`; `requested` is what `requestSession` gave,
`none` when it returned an error. -/
def StreamingClient.getNewSessionId (c : StreamingClient) (requested : Option String) :
    Except Fault StreamingClient :=
  match requested with
  | none => throw (Fault.error "requesting session id")
  | some newsessionId => pure { c with sessionId := newsessionId }

/-- The body of the loop of `getQuoteUpdates` for the entry at position `i`;
`requestSession i` is what the session request made for that entry gives. The
arguments of each `Set` are evaluated before the call, so a panic leaves the
maps as they were. -/
def quoteUpdateStep
    (NewFromFloat : ℚ → Decimal) (requestSession : Nat → Option String) (c : StreamingClient)
    (i : Nat)
    (entry : QuoteRecord) : Except Fault StreamingClient :=
  match entry.Name with
  | "a_req" => do
    let v0 ← valueAt entry.Value 0
    let name ← v0.str
    let v1 ← valueAt entry.Value 1
    let f ← v1.float64
    pure { c with indexes := c.indexes.Set name (float64ToInt f) }
  | "un" => do
    let v0 ← valueAt entry.Value 0
    let f0 ← v0.float64
    let v1 ← valueAt entry.Value 1
    let f1 ← v1.float64
    pure { c with decimalValues := c.decimalValues.Set (float64ToInt f0) (NewFromFloat f1) }
  | "us" => do
    let v0 ← valueAt entry.Value 0
    let f0 ← v0.float64
    let v1 ← valueAt entry.Value 1
    let s ← v1.str
    pure { c with stringValues := c.stringValues.Set (float64ToInt f0) s }
  | "sr" =>
    match c.getNewSessionId (requestSession i) with
    | Except.ok c' => pure c'
    | Except.error _ => throw (Fault.error "getting new sessionid")
  | _ => pure c

/-- The loop `for _, entry := range *response` of `getQuoteUpdates` from
position `i`: the client as the loop leaves it, and the error or panic that
ended it early, if any. -/
def quoteUpdateLoop (NewFromFloat : ℚ → Decimal) (requestSession : Nat → Option String) :
    StreamingClient → Nat → List QuoteRecord → StreamingClient × Option Fault
  | c, _, [] => (c, none)
  | c, i, entry :: rest =>
    match quoteUpdateStep NewFromFloat requestSession c i entry with
    | Except.error fault => (c, some fault)
    | Except.ok c' => quoteUpdateLoop NewFromFloat requestSession c' (i + 1) rest

/-- The method `getQuoteUpdates`. `received` is the decoded response of the
poll, `none` when the request failed or its status was not 2xx. -/
def StreamingClient.getQuoteUpdates
    (NewFromFloat : ℚ → Decimal) (requestSession : Nat → Option String)
    (c : StreamingClient) (received : Option (List QuoteRecord)) :
    StreamingClient × Option Fault :=
  match received with
  | none => (c, some (Fault.error "requesting quote updates"))
  | some response => quoteUpdateLoop NewFromFloat requestSession c 0 response

/-! ## Vocabulary of the statements -/

/-- The buy-side transactions of a list: those with a positive quantity. -/
def buys (ts : List Transaction) : List Transaction :=
  ts.filter (fun t => decide (0 < t.Quantity))

/-- The decimal `GetPru` returns (`GetPru_eq` shows it always returns one). -/
def pruValue (ts : List Transaction) : Decimal :=
  match GetPru ts with
  | Except.ok v => v
  | Except.error _ => 0

instance : IsTrans Transaction Transaction.notAfter :=
  ⟨fun a b c hab hbc => by unfold Transaction.notAfter at *; omega⟩

instance : IsTotal Transaction Transaction.notAfter :=
  ⟨fun a b => by unfold Transaction.notAfter; omega⟩

instance : IsTrans HistoricalPosition HistoricalPosition.notAfter :=
  ⟨fun a b c hab hbc => by unfold HistoricalPosition.notAfter at *; omega⟩

instance : IsTotal HistoricalPosition HistoricalPosition.notAfter :=
  ⟨fun a b => by unfold HistoricalPosition.notAfter; omega⟩

/-- The running sum of signed quantities of `l`, as an `int` holds it, is
non-zero after each of its first `n` transactions. -/
def openUpTo (l : List Transaction) (n : Nat) : Prop :=
  ∀ j, 0 < j → j ≤ n → wrapInt64 ((l.take j).map Transaction.Quantity).sum ≠ 0

/-- What the inner loop has built after reading `v`: `done` are the lots it
has closed, `cur` the lot still under construction. -/
structure LotInv (k : Int) (v : List Transaction) (done : List HistoricalPosition)
    (cur : HistoricalPosition) : Prop where
  flat : (done.map HistoricalPosition.transactions).flatten ++ cur.transactions = v
  curId : cur.ProductId = k
  curOpen : openUpTo cur.transactions cur.transactions.length
  doneId : ∀ p ∈ done, p.ProductId = k
  doneNe : ∀ p ∈ done, p.transactions ≠ []
  doneSize : ∀ p ∈ done, p.GetSize = 0
  doneOpen : ∀ p ∈ done, openUpTo p.transactions (p.transactions.length - 1)

/-- What the grouping loop has built after reading `l`: one entry per product
id met, holding that product's transactions in the order of `l`. -/
structure TmapInv (l : List Transaction) (m : List (Int × List Transaction)) : Prop where
  nodup : (m.map Prod.fst).Nodup
  entry : ∀ e ∈ m, e.2 = l.filter (fun t => decide (t.ProductId = e.1))
  keys : ∀ t ∈ l, t.ProductId ∈ m.map Prod.fst

/-- The non-empty lots the loops build for product `k` out of its
transactions `v`. -/
def lotsOf (k : Int) (v : List Transaction) : List HistoricalPosition :=
  (productStep [] (k, v)).filter (fun p => decide (p.GetTransactionCount > 0))

/-- The facts about the lots of one product, for its date-sorted transactions `v`. -/
structure LotsSpec (k : Int) (v : List Transaction) (lots : List HistoricalPosition) :
    Prop where
  flat : (lots.map HistoricalPosition.transactions).flatten = v
  ids : ∀ p ∈ lots, p.ProductId = k
  nonempty : ∀ p ∈ lots, p.transactions ≠ []
  running : ∀ p ∈ lots, openUpTo p.transactions (p.transactions.length - 1)
  sealed : ∀ p ∈ lots.dropLast, p.GetSize = 0
  sorted : lots.Sorted HistoricalPosition.notAfter

/-- The incoming transactions `Merge` accepts: those whose id is neither in
the ledger nor carried by an earlier transaction of the batch. -/
def acceptedOf (ledger batch : List Transaction) : List Transaction :=
  (batch.enum.filter (fun (ib : Nat × Transaction) =>
    decide (ib.2.Id ∉ ledger.map Transaction.Id) &&
    decide (∀ x ∈ batch.take ib.1, x.Id ≠ ib.2.Id))).map Prod.snd

/-- A call on an `OrderCache`. -/
inductive OrderCacheOp where
  | add (orders : List Order)
  | update (orders : List Order)
  | remove (orderIds : List String)
  | clear

/-- A call on a `PositionCache`. -/
inductive PositionCacheOp where
  | add (positions : List Position)
  | update (positions : List Position)
  | remove (positionsIds : List String)
  | clear

/-- The effect of one call on an `OrderCache`. -/
def OrderCacheOp.apply (c : OrderCache) : OrderCacheOp → Except Fault OrderCache
  | OrderCacheOp.add orders => pure (c.Add orders)
  | OrderCacheOp.update orders => pure (c.Update orders)
  | OrderCacheOp.remove orderIds => c.Remove orderIds
  | OrderCacheOp.clear => pure c.Clear

/-- The effect of one call on a `PositionCache`. -/
def PositionCacheOp.apply (c : PositionCache) : PositionCacheOp → Except Fault PositionCache
  | PositionCacheOp.add positions => pure (c.Add positions)
  | PositionCacheOp.update positions => pure (c.Update positions)
  | PositionCacheOp.remove positionsIds => c.Remove positionsIds
  | PositionCacheOp.clear => pure c.Clear

/-- A sequence of calls on an `OrderCache`, in order. -/
def runOrderOps (ops : List OrderCacheOp) (c : OrderCache) : Except Fault OrderCache :=
  ops.foldlM OrderCacheOp.apply c

/-- A sequence of calls on a `PositionCache`, in order. -/
def runPositionOps (ops : List PositionCacheOp) (c : PositionCache) :
    Except Fault PositionCache :=
  ops.foldlM PositionCacheOp.apply c

/-- Every `Add` of the sequence, run from `c`, adds orders whose ids are
pairwise distinct and differ from the ids cached when it is called. -/
def freshOrderAdds : List OrderCacheOp → OrderCache → Prop
  | [], _ => True
  | op :: rest, c =>
    (match op with
      | OrderCacheOp.add orders => ((c.cache ++ orders).map Order.Id).Nodup
      | _ => True) ∧
    ∀ c', op.apply c = Except.ok c' → freshOrderAdds rest c'

/-- Every `Add` of the sequence, run from `c`, adds positions whose product ids
are pairwise distinct and differ from the product ids cached when it is
called. -/
def freshPositionAdds : List PositionCacheOp → PositionCache → Prop
  | [], _ => True
  | op :: rest, c =>
    (match op with
      | PositionCacheOp.add positions =>
        ((c.cache ++ positions).map Position.ProductId).Nodup
      | _ => True) ∧
    ∀ c', op.apply c = Except.ok c' → freshPositionAdds rest c'

/-- The order a record decodes to, when `ConvertToOrder` returns one. -/
def decodedOrder (parseDate : String → Option Int)
    (NewFromFloat : ℚ → Decimal) (r : updateOrderResponse) : Option Order :=
  match r.ConvertToOrder parseDate NewFromFloat with
  | Except.ok o => some o
  | Except.error _ => none

/-- The position a record decodes to, when `ConvertToPosition` returns one. -/
def decodedPosition (r : updatePositionResponse) : Option Position :=
  match r.ConvertToPosition with
  | Except.ok p => some p
  | Except.error _ => none

/-- The eight fields `Update` copies from the update order `o` into `order`. -/
def patchOrder (order o : Order) : Order :=
  { Id := order.Id, Date := order.Date, ProductId := order.ProductId,
    ProductName := order.ProductName, ContractType := order.ContractType,
    ContractSize := order.ContractSize, Currency := order.Currency,
    BuySell := order.BuySell, Size := order.Size,
    Quantity := o.Quantity, Price := o.Price, StopPrice := o.StopPrice,
    TotalOrderValue := o.TotalOrderValue, OrderType := o.OrderType,
    TimeType := o.TimeType, IsModifiable := o.IsModifiable,
    IsDeletable := o.IsDeletable }

/-- The three maps of a streaming client. -/
structure QuoteMaps where
  indexes : IndexMap
  decimalValues : DecimalValueMap
  stringValues : StringValueMap

/-- The three maps of a streaming client. -/
def StreamingClient.maps (c : StreamingClient) : QuoteMaps :=
  { indexes := c.indexes, decimalValues := c.decimalValues, stringValues := c.stringValues }

/-- The effect of one opcode record on the three maps, in the words of the
specification: `a_req (name, index)` sets name to index, `un (index, v)` sets
the decimal at index, `us (index, s)` sets the string at index, and `sr` or
any other record changes nothing. An index is the number of the record as an
`int64`, a decimal is `NewFromFloat` of the number of the record. -/
def applyQuoteRecord (NewFromFloat : ℚ → Decimal) (m : QuoteMaps) (r : QuoteRecord) :
    QuoteMaps :=
  match r.Name with
  | "a_req" =>
    match r.Value with
    | JsonValue.string name :: JsonValue.number index :: _ =>
      { m with indexes := m.indexes.Set name (float64ToInt (roundFloat64 index)) }
    | _ => m
  | "un" =>
    match r.Value with
    | JsonValue.number index :: JsonValue.number v :: _ =>
      { m with
        decimalValues :=
          m.decimalValues.Set (float64ToInt (roundFloat64 index))
            (NewFromFloat (roundFloat64 v)) }
    | _ => m
  | "us" =>
    match r.Value with
    | JsonValue.number index :: JsonValue.string s :: _ =>
      { m with stringValues := m.stringValues.Set (float64ToInt (roundFloat64 index)) s }
    | _ => m
  | _ => m

/-- A record is an opcode record: `a_req` carries a string and a number, `un`
two numbers, `us` a number and a string; any other name carries anything. -/
def QuoteRecord.isOpcode (r : QuoteRecord) : Bool :=
  match r.Name with
  | "a_req" =>
    match r.Value with
    | JsonValue.string _ :: JsonValue.number _ :: _ => true
    | _ => false
  | "un" =>
    match r.Value with
    | JsonValue.number _ :: JsonValue.number _ :: _ => true
    | _ => false
  | "us" =>
    match r.Value with
    | JsonValue.number _ :: JsonValue.string _ :: _ => true
    | _ => false
  | _ => true

/-! # Theorems -/

/-! ## Decimal division -/

theorem tdiv_trunc (x : ℚ) :
    |x - ((Int.tdiv x.num x.den : Int) : ℚ)| < 1 ∧
    (0 ≤ x → ((Int.tdiv x.num x.den : Int) : ℚ) ≤ x) ∧
    (x ≤ 0 → x ≤ ((Int.tdiv x.num x.den : Int) : ℚ)) := by
  have hden : (0 : ℤ) < (x.den : ℤ) := by exact_mod_cast x.den_pos
  have hdenq : (0 : ℚ) < (x.den : ℚ) := by exact_mod_cast x.den_pos
  have hx : x = (x.num : ℚ) / (x.den : ℚ) := (Rat.num_div_den x).symm
  have hsplit : (x.den : ℤ) * Int.tdiv x.num x.den + Int.tmod x.num x.den = x.num :=
    Int.tdiv_add_tmod _ _
  have hdiff : x - ((Int.tdiv x.num x.den : Int) : ℚ) = ((Int.tmod x.num x.den : Int) : ℚ) / x.den := by
    have : (x.num : ℚ) = (x.den : ℚ) * ((Int.tdiv x.num x.den : Int) : ℚ) + ((Int.tmod x.num x.den : Int) : ℚ) := by
      exact_mod_cast hsplit.symm
    rw [eq_div_iff hdenq.ne']
    nth_rewrite 1 [hx]
    rw [sub_mul, div_mul_cancel₀ _ hdenq.ne', this]
    ring
  rcases le_or_lt 0 x.num with hn | hn
  · have h0 : 0 ≤ Int.tmod x.num x.den := Int.tmod_nonneg _ hn
    have h1 : Int.tmod x.num x.den < x.den := Int.tmod_lt_of_pos _ hden
    have h0q : (0 : ℚ) ≤ ((Int.tmod x.num x.den : Int) : ℚ) := by exact_mod_cast h0
    have h1q : ((Int.tmod x.num x.den : Int) : ℚ) < x.den := by exact_mod_cast h1
    have hfrac0 : 0 ≤ x - ((Int.tdiv x.num x.den : Int) : ℚ) := by
      rw [hdiff]; exact div_nonneg h0q hdenq.le
    have hfrac1 : x - ((Int.tdiv x.num x.den : Int) : ℚ) < 1 := by
      rw [hdiff, div_lt_one hdenq]; exact h1q
    have hx0 : 0 ≤ x := Rat.num_nonneg.mp hn
    refine ⟨by rw [abs_of_nonneg hfrac0]; exact hfrac1, fun _ => by linarith, fun hx' => ?_⟩
    have hxz : x = 0 := le_antisymm hx' hx0
    subst hxz
    simp
  · have hm : Int.tmod (-x.num) x.den = -Int.tmod x.num x.den := by
      rw [Int.tmod_def, Int.tmod_def, Int.neg_tdiv]; ring
    have h0 : 0 ≤ Int.tmod (-x.num) x.den := Int.tmod_nonneg _ (by omega)
    have h1 : Int.tmod (-x.num) x.den < x.den := Int.tmod_lt_of_pos _ hden
    rw [hm] at h0 h1
    have h0q : ((Int.tmod x.num x.den : Int) : ℚ) ≤ 0 := by
      have : Int.tmod x.num x.den ≤ 0 := by omega
      exact_mod_cast this
    have h1q : -(x.den : ℚ) < ((Int.tmod x.num x.den : Int) : ℚ) := by
      have : -(x.den : ℤ) < Int.tmod x.num x.den := by omega
      exact_mod_cast this
    have hfrac0 : x - ((Int.tdiv x.num x.den : Int) : ℚ) ≤ 0 := by
      rw [hdiff]; exact div_nonpos_of_nonpos_of_nonneg h0q hdenq.le
    have hfrac1 : -1 < x - ((Int.tdiv x.num x.den : Int) : ℚ) := by
      rw [hdiff, lt_div_iff₀ hdenq]; linarith
    have hx0 : x < 0 := Rat.num_neg.mp hn
    refine ⟨by rw [abs_of_nonpos hfrac0]; linarith, fun hx' => absurd hx' (not_le.mpr hx0),
      fun _ => by linarith⟩

theorem sign_mul_sign_neg_iff (d d2 : ℚ) (h2 : d2 ≠ 0) :
    d.num.sign * d2.num.sign < 0 ↔ d / d2 < 0 := by
  rcases lt_trichotomy d 0 with hd | hd | hd
  · rcases lt_or_gt_of_ne h2 with h | h
    · have h1 : d.num.sign = -1 := Int.sign_eq_neg_one_of_neg (Rat.num_neg.mpr hd)
      have h3 : d2.num.sign = -1 := Int.sign_eq_neg_one_of_neg (Rat.num_neg.mpr h)
      rw [h1, h3]
      have : 0 < d / d2 := div_pos_of_neg_of_neg hd h
      constructor
      · intro hh; norm_num at hh
      · intro hh; linarith
    · have h1 : d.num.sign = -1 := Int.sign_eq_neg_one_of_neg (Rat.num_neg.mpr hd)
      have h3 : d2.num.sign = 1 := Int.sign_eq_one_of_pos (Rat.num_pos.mpr h)
      rw [h1, h3]
      have : d / d2 < 0 := div_neg_of_neg_of_pos hd h
      constructor
      · intro _; exact this
      · intro _; norm_num
  · subst hd; simp
  · rcases lt_or_gt_of_ne h2 with h | h
    · have h1 : d.num.sign = 1 := Int.sign_eq_one_of_pos (Rat.num_pos.mpr hd)
      have h3 : d2.num.sign = -1 := Int.sign_eq_neg_one_of_neg (Rat.num_neg.mpr h)
      rw [h1, h3]
      have : d / d2 < 0 := div_neg_of_pos_of_neg hd h
      constructor
      · intro _; exact this
      · intro _; norm_num
    · have h1 : d.num.sign = 1 := Int.sign_eq_one_of_pos (Rat.num_pos.mpr hd)
      have h3 : d2.num.sign = 1 := Int.sign_eq_one_of_pos (Rat.num_pos.mpr h)
      rw [h1, h3]
      have : 0 < d / d2 := div_pos hd h
      constructor
      · intro hh; norm_num at hh
      · intro hh; linarith

theorem Decimal.DivRound_close (d d2 : Decimal) (precision : Nat) (h2 : d2 ≠ 0) :
    |Decimal.DivRound d d2 precision - d / d2| ≤ 1 / (2 * 10 ^ precision) := by
  have hP : (0 : ℚ) < 10 ^ precision := by positivity
  obtain ⟨habs, hpos, hneg⟩ := tdiv_trunc (d / d2 * 10 ^ precision)
  set x : ℚ := d / d2 * 10 ^ precision with hx
  set n : ℚ := ((Int.tdiv x.num x.den : Int) : ℚ) with hn
  have hd : d / d2 = x / 10 ^ precision := by rw [hx]; field_simp; ring
  have hr : d - d2 * (n / 10 ^ precision) = d2 * ((x - n) / 10 ^ precision) := by
    have : d = d2 * (d / d2) := by field_simp
    nth_rewrite 1 [this]
    rw [hd]; ring
  have hcond : (2 * |d - d2 * (n / 10 ^ precision)| * 10 ^ precision < |d2|) ↔ |x - n| < 1 / 2 := by
    rw [hr, abs_mul, abs_div, abs_of_pos hP]
    have h2' : 0 < |d2| := abs_pos.mpr h2
    have : 2 * (|d2| * (|x - n| / 10 ^ precision)) * 10 ^ precision = |d2| * (2 * |x - n|) := by
      field_simp; ring
    rw [this]
    constructor
    · intro h
      have : 2 * |x - n| < 1 := by
        by_contra hc
        push_neg at hc
        nlinarith
      linarith
    · intro h
      nlinarith
  have hgoal : ∀ m : ℚ, |m - x| ≤ 1 / 2 →
      |m / 10 ^ precision - d / d2| ≤ 1 / (2 * 10 ^ precision) := by
    intro m hm
    rw [hd, ← sub_div, abs_div, abs_of_pos hP, div_le_div_iff₀ hP (by positivity)]
    nlinarith
  unfold Decimal.DivRound Decimal.QuoRem
  simp only
  rw [← hx, ← hn]
  by_cases hc0 : 2 * |d - d2 * (n / 10 ^ precision)| * 10 ^ precision < |d2|
  · rw [if_pos hc0]
    have hc := hcond.mp hc0
    apply hgoal
    rw [abs_sub_comm]; exact hc.le
  · rw [if_neg hc0]
    have hc := hcond.not.mp hc0
    push_neg at hc
    by_cases hs : d.num.sign * d2.num.sign < 0
    · rw [if_pos hs]
      have hxneg : x < 0 := by
        have := (sign_mul_sign_neg_iff d d2 h2).mp hs
        rw [hd] at this
        exact (div_neg_iff.mp this).elim (fun h => absurd h.2 (not_lt.mpr hP.le)) (fun h => h.1)
      have hle := hneg hxneg.le
      have h1 : |x - n| = n - x := by rw [abs_of_nonpos (by linarith)]; ring
      rw [h1] at hc habs
      have : n / 10 ^ precision - 1 / 10 ^ precision = (n - 1) / 10 ^ precision := by ring
      rw [this]
      apply hgoal
      rw [abs_le]; constructor <;> linarith
    · rw [if_neg hs]
      have hxpos : 0 ≤ x := by
        have := (sign_mul_sign_neg_iff d d2 h2).not.mp hs
        rw [hd] at this
        push_neg at this
        by_contra hcon
        push_neg at hcon
        exact absurd (div_neg_of_neg_of_pos hcon hP) (not_lt.mpr this)
      have hle := hpos hxpos
      have h1 : |x - n| = x - n := abs_of_nonneg (by linarith)
      rw [h1] at hc habs
      have : n / 10 ^ precision + 1 / 10 ^ precision = (n + 1) / 10 ^ precision := by ring
      rw [this]
      apply hgoal
      rw [abs_le]; constructor <;> linarith

theorem Decimal.DivRound_exact (d d2 : Decimal) (precision : Nat) (h2 : d2 ≠ 0)
    (k : ℤ) (hk : d / d2 * 10 ^ precision = k) :
    Decimal.DivRound d d2 precision = d / d2 := by
  have hP : (0 : ℚ) < 10 ^ precision := by positivity
  have hq : (k : ℚ) / 10 ^ precision = d / d2 := by rw [← hk]; field_simp; ring
  unfold Decimal.DivRound Decimal.QuoRem
  simp only
  rw [hk]
  simp only [Rat.num_intCast, Rat.den_intCast, Nat.cast_one, Int.tdiv_one, hq]
  have : d - d2 * (d / d2) = 0 := by field_simp
  rw [this]
  simp [abs_pos.mpr h2]

/-! ## Stable sorting -/

theorem filter_orderedInsert {α : Type} (r : α → α → Prop) [DecidableRel r] [IsTrans α r]
    (p : α → Bool) (a : α) (s : List α) (hs : s.Sorted r) :
    (s.orderedInsert r a).filter p =
      if p a then (s.filter p).orderedInsert r a else s.filter p := by
  induction s with
  | nil => by_cases hp : p a <;> simp [hp]
  | cons b s ih =>
    have hs' : s.Sorted r := hs.of_cons
    have hb : ∀ c ∈ s, r b c := List.rel_of_sorted_cons hs
    rw [List.orderedInsert]
    by_cases hab : r a b
    · rw [if_pos hab]
      by_cases hp : p a
      · rw [if_pos hp, List.filter_cons_of_pos hp]
        have hall : ∀ c ∈ (b :: s).filter p, r a c := by
          intro c hc
          have hc' : c ∈ b :: s := (List.mem_filter.mp hc).1
          rcases List.mem_cons.mp hc' with h | h
          · rw [h]; exact hab
          · exact IsTrans.trans a b c hab (hb c h)
        cases hf : (b :: s).filter p with
        | nil => rfl
        | cons c l =>
          have hc : r a c := hall c (by rw [hf]; exact List.mem_cons_self _ _)
          rw [List.orderedInsert, if_pos hc]
      · rw [if_neg hp, List.filter_cons_of_neg hp]
    · rw [if_neg hab]
      by_cases hpb : p b
      · rw [List.filter_cons_of_pos hpb, ih hs', List.filter_cons_of_pos hpb]
        by_cases hp : p a
        · rw [if_pos hp, if_pos hp, List.orderedInsert, if_neg hab]
        · rw [if_neg hp, if_neg hp]
      · rw [List.filter_cons_of_neg hpb, ih hs', List.filter_cons_of_neg hpb]

theorem filter_insertionSort {α : Type} (r : α → α → Prop) [DecidableRel r] [IsTrans α r]
    [IsTotal α r] (p : α → Bool) (l : List α) :
    (l.insertionSort r).filter p = (l.filter p).insertionSort r := by
  induction l with
  | nil => rfl
  | cons a l ih =>
    rw [List.insertionSort, filter_orderedInsert r p a _ (List.sorted_insertionSort r l), ih]
    by_cases hp : p a
    · rw [if_pos hp, List.filter_cons_of_pos hp, List.insertionSort]
    · rw [if_neg hp, List.filter_cons_of_neg hp]

/-! ## Average cost -/

theorem wrapInt64_add_left (a b : Int) : wrapInt64 (wrapInt64 a + b) = wrapInt64 (a + b) := by
  unfold wrapInt64
  omega

theorem wrapInt64_of_range (x : Int) (h1 : -9223372036854775808 ≤ x)
    (h2 : x < 9223372036854775808) : wrapInt64 x = x := by
  unfold wrapInt64
  omega

theorem wrapInt64_zero : wrapInt64 0 = 0 := by decide

theorem ne_zero_of_wrapInt64_ne_zero (x : Int) (h : wrapInt64 x ≠ 0) : x ≠ 0 := by
  intro hx
  rw [hx] at h
  exact h wrapInt64_zero

theorem foldl_pruStep (ts : List Transaction) (a : Int) (price : Decimal) :
    ts.foldl pruStep (wrapInt64 a, price) =
      (wrapInt64 (a + ((buys ts).map Transaction.Quantity).sum),
       price - ((buys ts).map Transaction.TotalPlusFeeInBaseCurrency).sum) := by
  induction ts generalizing a price with
  | nil => simp [buys]
  | cons t ts ih =>
    rw [List.foldl_cons]
    by_cases h : t.Quantity ≤ 0
    · have h' : ¬ 0 < t.Quantity := not_lt.mpr h
      have hstep : pruStep (wrapInt64 a, price) t = (wrapInt64 a, price) := by
        unfold pruStep
        rw [if_pos h]
      rw [hstep, ih]
      simp [buys, h']
    · have h' : 0 < t.Quantity := not_le.mp h
      have hstep : pruStep (wrapInt64 a, price) t =
          (wrapInt64 (a + t.Quantity), price - t.TotalPlusFeeInBaseCurrency) := by
        unfold pruStep
        rw [if_neg h]
        simp only [wrapInt64_add_left]
      rw [hstep, ih]
      simp only [buys, List.filter_cons, h', decide_True, if_true, List.map_cons, List.sum_cons]
      congr 1
      · congr 1
        ring
      · ring

theorem buys_quantity_sum_pos (ts : List Transaction) (h : buys ts ≠ []) :
    0 < ((buys ts).map Transaction.Quantity).sum := by
  have hpos : ∀ t ∈ buys ts, 0 < t.Quantity := by
    intro t ht
    simpa using (List.mem_filter.mp ht).2
  generalize buys ts = l at h hpos
  induction l with
  | nil => exact absurd rfl h
  | cons a l ih =>
    simp only [List.map_cons, List.sum_cons]
    have ha := hpos a (List.mem_cons_self _ _)
    by_cases hl : l = []
    · subst hl; simpa using ha
    · have := ih hl (fun t ht => hpos t (List.mem_cons_of_mem _ ht))
      omega

theorem buys_quantity_sum_eq_zero_iff (ts : List Transaction) :
    ((buys ts).map Transaction.Quantity).sum = 0 ↔ buys ts = [] := by
  constructor
  · intro h
    by_contra hne
    have := buys_quantity_sum_pos ts hne
    omega
  · intro h
    simp [h]

theorem buys_quantity_sum_nonneg (ts : List Transaction) :
    0 ≤ ((buys ts).map Transaction.Quantity).sum := by
  by_cases h : buys ts = []
  · rw [h]; simp
  · exact (buys_quantity_sum_pos ts h).le

theorem GetPru_eq (ts : List Transaction) :
    GetPru ts =
      if wrapInt64 ((buys ts).map Transaction.Quantity).sum = 0 then Except.ok 0
      else Except.ok (Decimal.DivRound
        (-((buys ts).map Transaction.TotalPlusFeeInBaseCurrency).sum)
        ((wrapInt64 ((buys ts).map Transaction.Quantity).sum : Int) : ℚ) DivisionPrecision) := by
  unfold GetPru
  have h0 : ((0 : Int), (0 : Decimal)) = (wrapInt64 0, (0 : Decimal)) := by
    rw [wrapInt64_zero]
  rw [h0, foldl_pruStep]
  simp only [zero_add, zero_sub]
  by_cases h : wrapInt64 ((buys ts).map Transaction.Quantity).sum = 0
  · simp [h]
    rfl
  · have hq : ((wrapInt64 ((buys ts).map Transaction.Quantity).sum : Int) : ℚ) ≠ 0 := by
      exact_mod_cast h
    simp only [h, if_false, Decimal.Div, hq]
    rfl

theorem GetPru_ok (ts : List Transaction) : GetPru ts = Except.ok (pruValue ts) := by
  unfold pruValue
  rw [GetPru_eq]
  split_ifs <;> rfl

theorem GetPru_of_small {ts : List Transaction}
    (h : ((buys ts).map Transaction.Quantity).sum < 9223372036854775808) :
    GetPru ts =
      if ((buys ts).map Transaction.Quantity).sum = 0 then Except.ok 0
      else Except.ok (Decimal.DivRound
        (-((buys ts).map Transaction.TotalPlusFeeInBaseCurrency).sum)
        ((((buys ts).map Transaction.Quantity).sum : Int) : ℚ) DivisionPrecision) := by
  rw [GetPru_eq, wrapInt64_of_range _ (by have := buys_quantity_sum_nonneg ts; omega) h]

/-- C1 (as stated) fails: the quantity sum is held in an `int64`. For two buys
of 2^62 units, each with `TotalPlusFeeInBaseCurrency` -2^62, the quantity sum
is 2^63 and the quotient of the claim is 1, while `GetPru` returns -1 (the sum
is held as -2^63); for four such buys the quantity sum 2^64 is not zero, yet
`GetPru` takes the zero branch and returns 0. -/
theorem GetPru_overflow_counterexample :
    GetPru
      [{ Transaction.zero with Quantity := 4611686018427387904,
                               TotalPlusFeeInBaseCurrency := -4611686018427387904 },
       { Transaction.zero with Quantity := 4611686018427387904,
                               TotalPlusFeeInBaseCurrency := -4611686018427387904 }] =
      Except.ok (-1) ∧
    ((buys
      [{ Transaction.zero with Quantity := 4611686018427387904,
                               TotalPlusFeeInBaseCurrency := -4611686018427387904 },
       { Transaction.zero with Quantity := 4611686018427387904,
                               TotalPlusFeeInBaseCurrency := -4611686018427387904 }]).map
        Transaction.Quantity).sum = 9223372036854775808 ∧
    -((buys
      [{ Transaction.zero with Quantity := 4611686018427387904,
                               TotalPlusFeeInBaseCurrency := -4611686018427387904 },
       { Transaction.zero with Quantity := 4611686018427387904,
                               TotalPlusFeeInBaseCurrency := -4611686018427387904 }]).map
        Transaction.TotalPlusFeeInBaseCurrency).sum / ((9223372036854775808 : Int) : ℚ) = 1 ∧
    GetPru
      [{ Transaction.zero with Quantity := 4611686018427387904,
                               TotalPlusFeeInBaseCurrency := -4611686018427387904 },
       { Transaction.zero with Quantity := 4611686018427387904,
                               TotalPlusFeeInBaseCurrency := -4611686018427387904 },
       { Transaction.zero with Quantity := 4611686018427387904,
                               TotalPlusFeeInBaseCurrency := -4611686018427387904 },
       { Transaction.zero with Quantity := 4611686018427387904,
                               TotalPlusFeeInBaseCurrency := -4611686018427387904 }] =
      Except.ok 0 ∧
    ((buys
      [{ Transaction.zero with Quantity := 4611686018427387904,
                               TotalPlusFeeInBaseCurrency := -4611686018427387904 },
       { Transaction.zero with Quantity := 4611686018427387904,
                               TotalPlusFeeInBaseCurrency := -4611686018427387904 },
       { Transaction.zero with Quantity := 4611686018427387904,
                               TotalPlusFeeInBaseCurrency := -4611686018427387904 },
       { Transaction.zero with Quantity := 4611686018427387904,
                               TotalPlusFeeInBaseCurrency := -4611686018427387904 }]).map
        Transaction.Quantity).sum = 18446744073709551616 := by
  have hw2 : wrapInt64 (4611686018427387904 + (4611686018427387904 + 0)) =
      -9223372036854775808 := by decide
  have hw4 : wrapInt64 (4611686018427387904 + (4611686018427387904 +
      (4611686018427387904 + (4611686018427387904 + 0)))) = 0 := by decide
  have hd : Decimal.DivRound (9223372036854775808 : ℚ) (-9223372036854775808 : ℚ)
      DivisionPrecision = 9223372036854775808 / -9223372036854775808 :=
    Decimal.DivRound_exact _ _ DivisionPrecision (by norm_num) (-10 ^ 16)
      (by norm_num [DivisionPrecision])
  refine ⟨?_, by decide, ?_, ?_, by decide⟩
  · rw [GetPru_eq]
    simp only [buys, Transaction.zero, List.filter_cons, List.filter_nil, List.map_cons,
      List.map_nil, List.sum_cons, List.sum_nil, decide_True, if_true,
      show (0 : Int) < 4611686018427387904 by decide, hw2]
    norm_num [hd]
  · simp only [buys, Transaction.zero, List.filter_cons, List.filter_nil, List.map_cons,
      List.map_nil, List.sum_cons, List.sum_nil, decide_True, if_true,
      show (0 : Int) < 4611686018427387904 by decide]
    norm_num
  · rw [GetPru_eq]
    simp only [buys, Transaction.zero, List.filter_cons, List.filter_nil, List.map_cons,
      List.map_nil, List.sum_cons, List.sum_nil, decide_True, if_true,
      show (0 : Int) < 4611686018427387904 by decide, hw4]

/-- C1 (amended): `GetPru` returns minus the sum of `TotalPlusFeeInBaseCurrency`
over the positive-quantity transactions divided (with `Decimal.Div`, the
quotient rounded to 16 fractional digits, within half a unit of the 16th digit
of the exact quotient) by the sum of their quantities as the `int64`
`totalSize` holds it, that is the exact sum wrapped modulo 2^64, when that
`int64` is non-zero, and exactly zero when it is zero; it always returns a
value (no division by zero). When the exact sum is below 2^63 the `int64` is
the exact sum; the exact sum is zero exactly when there is no
positive-quantity transaction, and then `GetPru` returns zero. -/
theorem GetPru_spec (transactions : List Transaction) :
    GetPru transactions =
      (if wrapInt64 ((buys transactions).map Transaction.Quantity).sum = 0 then Except.ok 0
       else Decimal.Div
         (-((buys transactions).map Transaction.TotalPlusFeeInBaseCurrency).sum)
         ((wrapInt64 ((buys transactions).map Transaction.Quantity).sum : Int) : ℚ)) ∧
    (∃ v : Decimal, GetPru transactions = Except.ok v ∧
      (wrapInt64 ((buys transactions).map Transaction.Quantity).sum ≠ 0 →
        |v - (-((buys transactions).map Transaction.TotalPlusFeeInBaseCurrency).sum) /
            ((wrapInt64 ((buys transactions).map Transaction.Quantity).sum : Int) : ℚ)|
          ≤ 1 / (2 * 10 ^ 16))) ∧
    (((buys transactions).map Transaction.Quantity).sum < 9223372036854775808 →
      wrapInt64 ((buys transactions).map Transaction.Quantity).sum =
        ((buys transactions).map Transaction.Quantity).sum ∧
      GetPru transactions =
        (if ((buys transactions).map Transaction.Quantity).sum = 0 then Except.ok 0
         else Decimal.Div
           (-((buys transactions).map Transaction.TotalPlusFeeInBaseCurrency).sum)
           ((((buys transactions).map Transaction.Quantity).sum : Int) : ℚ))) ∧
    (((buys transactions).map Transaction.Quantity).sum = 0 ↔
      ∀ t ∈ transactions, t.Quantity ≤ 0) ∧
    ((∀ t ∈ transactions, t.Quantity ≤ 0) → GetPru transactions = Except.ok 0) := by
  have hmain : GetPru transactions =
      (if wrapInt64 ((buys transactions).map Transaction.Quantity).sum = 0 then Except.ok 0
       else Decimal.Div
         (-((buys transactions).map Transaction.TotalPlusFeeInBaseCurrency).sum)
         ((wrapInt64 ((buys transactions).map Transaction.Quantity).sum : Int) : ℚ)) := by
    rw [GetPru_eq]
    by_cases h : wrapInt64 ((buys transactions).map Transaction.Quantity).sum = 0
    · simp [h]
    · have hq : ((wrapInt64 ((buys transactions).map Transaction.Quantity).sum : Int) : ℚ)
          ≠ 0 := by
        exact_mod_cast h
      simp only [h, if_false, Decimal.Div, hq]
      rfl
  have hzero : ((buys transactions).map Transaction.Quantity).sum = 0 ↔
      ∀ t ∈ transactions, t.Quantity ≤ 0 := by
    rw [buys_quantity_sum_eq_zero_iff]
    unfold buys
    rw [List.filter_eq_nil_iff]
    constructor
    · intro h t ht
      have := h t ht
      simpa using this
    · intro h t ht
      have := h t ht
      simpa using this
  refine ⟨hmain, ?_, ?_, hzero, ?_⟩
  · rw [GetPru_eq]
    by_cases h : wrapInt64 ((buys transactions).map Transaction.Quantity).sum = 0
    · exact ⟨0, by simp [h], fun hne => absurd h hne⟩
    · have hq : ((wrapInt64 ((buys transactions).map Transaction.Quantity).sum : Int) : ℚ)
          ≠ 0 := by
        exact_mod_cast h
      refine ⟨_, by rw [if_neg h], fun _ => ?_⟩
      exact Decimal.DivRound_close _ _ 16 hq
  · intro hsmall
    have hw := wrapInt64_of_range _
      (by have := buys_quantity_sum_nonneg transactions; omega) hsmall
    refine ⟨hw, ?_⟩
    rw [hmain, hw]
  · intro hall
    rw [hmain, hzero.mpr hall, wrapInt64_zero, if_pos rfl]

/-! ## Realized performance -/

theorem foldlM_pastPerformanceStep (ts : List Transaction) :
    ts.foldlM pastPerformanceStep (0, []) =
      Except.ok (∑ i ∈ Finset.range ts.length,
        (ts[i]?).elim 0 (fun t =>
          if t.Quantity < 0 then
            (t.Price - pruValue (ts.take i)) * |(t.Quantity : ℚ)| + t.FeeInBaseCurrency
          else 0), ts) := by
  induction ts using List.reverseRecOn with
  | nil => rfl
  | append_singleton l a ih =>
    rw [List.foldlM_append, ih]
    have hsum : ∑ i ∈ Finset.range l.length,
        ((l ++ [a])[i]?).elim 0 (fun t =>
          if t.Quantity < 0 then
            (t.Price - pruValue ((l ++ [a]).take i)) * |(t.Quantity : ℚ)| + t.FeeInBaseCurrency
          else 0) =
        ∑ i ∈ Finset.range l.length,
        (l[i]?).elim 0 (fun t =>
          if t.Quantity < 0 then
            (t.Price - pruValue (l.take i)) * |(t.Quantity : ℚ)| + t.FeeInBaseCurrency
          else 0) := by
      apply Finset.sum_congr rfl
      intro i hi
      have hi' : i < l.length := Finset.mem_range.mp hi
      rw [List.getElem?_append_left hi', List.take_append_of_le_length hi'.le]
    have hlast : (l ++ [a])[l.length]? = some a := by simp
    have htake : (l ++ [a]).take l.length = l := by simp
    rw [List.length_append, List.length_singleton, Finset.sum_range_succ, hsum, hlast, htake]
    show (pastPerformanceStep _ a >>= fun acc => [].foldlM pastPerformanceStep acc) = _
    unfold pastPerformanceStep
    by_cases hq : a.Quantity < 0
    · simp only [hq, if_true, GetPru_ok, Option.elim]
      rfl
    · simp only [hq, if_false, Option.elim, add_zero]
      rfl

/-- C2: `GetPastPerformance` is the sum, over the sells of the lot, of
`(Price - GetPru(transactions strictly before the sell)) * |Quantity| +
FeeInBaseCurrency`, the average cost being recomputed at each sell from the
preceding transactions only. For the lot [buy 10 with totalPlusFee -1001,
sell 10 at 110 with fee 1] the average cost is 100.1 and the realized
performance is 100. -/
theorem GetPastPerformance_spec (p : HistoricalPosition) :
    (∀ i : Nat, GetPru (p.transactions.take i) = Except.ok (pruValue (p.transactions.take i))) ∧
    p.GetPastPerformance =
      Except.ok (∑ i ∈ Finset.range p.transactions.length,
        (p.transactions[i]?).elim 0 (fun t =>
          if t.Quantity < 0 then
            (t.Price - pruValue (p.transactions.take i)) * |(t.Quantity : ℚ)|
              + t.FeeInBaseCurrency
          else 0)) ∧
    (∀ (pid : Int) (b s : Transaction),
      GetPru [{ b with Quantity := 10, Price := 100, TotalPlusFeeInBaseCurrency := -1001 }]
        = Except.ok (100.1 : ℚ) ∧
      HistoricalPosition.GetPastPerformance
        { ProductId := pid,
          transactions :=
            [{ b with Quantity := 10, Price := 100, TotalPlusFeeInBaseCurrency := -1001 },
             { s with Quantity := -10, Price := 110, FeeInBaseCurrency := 1 }] }
        = Except.ok (100 : ℚ)) := by
  refine ⟨fun i => GetPru_ok _, ?_, ?_⟩
  · unfold HistoricalPosition.GetPastPerformance
    rw [foldlM_pastPerformanceStep]
    rfl
  · intro pid b s
    have hpru : GetPru
        [{ b with Quantity := 10, Price := 100, TotalPlusFeeInBaseCurrency := -1001 }]
          = Except.ok (100.1 : ℚ) := by
      rw [GetPru_eq]
      have hd : Decimal.DivRound (1001 : ℚ) (10 : ℚ) DivisionPrecision = 1001 / 10 :=
        Decimal.DivRound_exact 1001 10 DivisionPrecision (by norm_num) (1001 * 10 ^ 15)
          (by norm_num [DivisionPrecision])
      have hw : wrapInt64 10 = 10 := by decide
      simp [buys, hd, hw]
      norm_num
    refine ⟨hpru, ?_⟩
    unfold HistoricalPosition.GetPastPerformance
    simp only [List.foldlM_cons, List.foldlM_nil, pastPerformanceStep]
    norm_num [hpru]

/-! ## Unrealized performance -/

/-- C8 (as stated) fails: a lot holding a single sell of 5 units has average
cost zero, yet against the quote bid = ask = 10 its current performance is
-50, not zero. -/
theorem GetCurrentPerformance_zero_pru_counterexample :
    HistoricalPosition.GetPru
        { ProductId := 1, transactions := [{ Transaction.zero with Quantity := -5 }] }
      = Except.ok 0 ∧
    HistoricalPosition.GetCurrentPerformance
        { ProductId := 1, transactions := [{ Transaction.zero with Quantity := -5 }] }
        { IssueId := "1", FullName := "", LastPrice := 10, BidPrice := 10, AskPrice := 10,
          OpenPrice := 10, LowPrice := 10, HighPrice := 10, BidVolume := 1, AskVolume := 1 }
      = Except.ok (-50) ∧
    (Except.ok (-50) : Except Fault Decimal) ≠ Except.ok 0 := by
  have hpru : GetPru [{ Transaction.zero with Quantity := -5 }] = Except.ok 0 := by
    rw [GetPru_eq]
    simp [buys, Transaction.zero, wrapInt64_zero]
  have hd : Decimal.DivRound (20 : ℚ) (2 : ℚ) DivisionPrecision = 20 / 2 :=
    Decimal.DivRound_exact 20 2 DivisionPrecision (by norm_num) (10 ^ 17)
      (by norm_num [DivisionPrecision])
  have hw : wrapInt64 (-5) = -5 := by decide
  refine ⟨hpru, ?_, ?_⟩
  · unfold HistoricalPosition.GetCurrentPerformance
    simp only [HistoricalPosition.GetPru, hpru, Decimal.Div, HistoricalPosition.GetSize]
    norm_num [hd, Transaction.zero, hw]
  · intro h
    injection h with h
    norm_num at h

/-- C8 (amended): `GetCurrentPerformance` returns the zero decimal whenever the
bid or the ask of the quote is zero, and otherwise `((ask + bid) / 2 - GetPru)
* GetSize`, the division being `Decimal.Div`; a zero average cost does not
change the formula. -/
theorem GetCurrentPerformance_spec (p : HistoricalPosition) (quote : ProductQuote) :
    p.GetPru = Except.ok (pruValue p.transactions) ∧
    p.GetCurrentPerformance quote =
      (if quote.BidPrice = 0 ∨ quote.AskPrice = 0 then Except.ok 0
       else Except.ok
        ((Decimal.DivRound (quote.AskPrice + quote.BidPrice) 2 DivisionPrecision
            - pruValue p.transactions) * (p.GetSize : ℚ))) := by
  refine ⟨GetPru_ok _, ?_⟩
  unfold HistoricalPosition.GetCurrentPerformance
  by_cases h : quote.BidPrice = 0 ∨ quote.AskPrice = 0
  · simp only [h, if_true]
    rfl
  · simp only [h, if_false, HistoricalPosition.GetPru, GetPru_ok, Decimal.Div]
    norm_num

/-! ## Lots of one product -/

theorem sortTransactions_sorted (ts : List Transaction) :
    (sortTransactionsByDateAscending ts).Sorted Transaction.notAfter :=
  List.sorted_insertionSort _ ts

theorem sortTransactions_perm (ts : List Transaction) :
    (sortTransactionsByDateAscending ts).Perm ts :=
  List.perm_insertionSort _ ts

theorem sortTransactions_of_sorted {ts : List Transaction}
    (h : ts.Sorted Transaction.notAfter) : sortTransactionsByDateAscending ts = ts :=
  List.Sorted.insertionSort_eq h

theorem sortTransactions_filter (p : Transaction → Bool) (ts : List Transaction) :
    (sortTransactionsByDateAscending ts).filter p =
      sortTransactionsByDateAscending (ts.filter p) :=
  filter_insertionSort _ p ts

theorem foldl_add_quantity (ts : List Transaction) (a : Int) :
    ts.foldl (fun res t => wrapInt64 (res + t.Quantity)) (wrapInt64 a) =
      wrapInt64 (a + (ts.map Transaction.Quantity).sum) := by
  induction ts generalizing a with
  | nil => simp
  | cons t ts ih =>
    rw [List.foldl_cons, wrapInt64_add_left, ih]
    simp only [List.map_cons, List.sum_cons]
    congr 1
    ring

theorem GetSize_eq_sum (p : HistoricalPosition) :
    p.GetSize = wrapInt64 (p.transactions.map Transaction.Quantity).sum := by
  unfold HistoricalPosition.GetSize
  have h := foldl_add_quantity p.transactions 0
  rw [wrapInt64_zero, zero_add] at h
  exact h

theorem lotStep_inv (k : Int) (v : List Transaction) (t : Transaction)
    (hv : (v ++ [t]).Sorted Transaction.notAfter)
    (done : List HistoricalPosition) (cur : HistoricalPosition)
    (h : LotInv k v done cur) :
    LotInv k (v ++ [t]) (lotStep k (done, cur) t).1 (lotStep k (done, cur) t).2 := by
  have hsuf : (cur.transactions ++ [t]).Sorted Transaction.notAfter := by
    have : List.Sublist (cur.transactions ++ [t]) (v ++ [t]) := by
      rw [← h.flat, List.append_assoc]
      exact List.sublist_append_right _ _
    exact List.Pairwise.sublist this hv
  have hadd : (cur.AddTransaction t).transactions = cur.transactions ++ [t] := by
    unfold HistoricalPosition.AddTransaction
    exact sortTransactions_of_sorted hsuf
  have haddId : (cur.AddTransaction t).ProductId = k := h.curId
  have hprev : openUpTo (cur.transactions ++ [t]) cur.transactions.length := by
    intro j hj hjl
    rw [List.take_append_of_le_length hjl]
    exact h.curOpen j hj hjl
  unfold lotStep
  by_cases hs : (cur.AddTransaction t).GetSize ≠ 0
  · simp only [hs, ne_eq, not_false_eq_true, if_true]
    refine ⟨?_, haddId, ?_, h.doneId, h.doneNe, h.doneSize, h.doneOpen⟩
    · rw [hadd, ← List.append_assoc, h.flat]
    · rw [hadd]
      intro j hj hjl
      rw [List.length_append, List.length_singleton] at hjl
      rcases Nat.lt_or_ge j (cur.transactions.length + 1) with hlt | hge
      · exact hprev j hj (by omega)
      · have hje : j = (cur.transactions ++ [t]).length := by
          rw [List.length_append, List.length_singleton]; omega
        rw [hje, List.take_length, ← hadd, ← GetSize_eq_sum]
        exact hs
  · have hs0 : (cur.AddTransaction t).GetSize = 0 := not_not.mp hs
    simp only [hs, if_false]
    refine ⟨?_, rfl, ?_, ?_, ?_, ?_, ?_⟩
    · simp only [List.map_append, List.map_cons, List.map_nil, List.flatten_append,
        List.flatten_cons, List.flatten_nil, List.append_nil]
      rw [hadd, ← List.append_assoc, h.flat]
    · intro j hj hjl
      simp at hjl
      omega
    · intro p hp
      rcases List.mem_append.mp hp with hp | hp
      · exact h.doneId p hp
      · rw [List.mem_singleton.mp hp]; exact haddId
    · intro p hp
      rcases List.mem_append.mp hp with hp | hp
      · exact h.doneNe p hp
      · rw [List.mem_singleton.mp hp, hadd]; simp
    · intro p hp
      rcases List.mem_append.mp hp with hp | hp
      · exact h.doneSize p hp
      · rw [List.mem_singleton.mp hp]; exact hs0
    · intro p hp
      rcases List.mem_append.mp hp with hp | hp
      · exact h.doneOpen p hp
      · rw [List.mem_singleton.mp hp, hadd]
        simpa using hprev

theorem foldl_lotStep_inv (k : Int) (v : List Transaction)
    (hv : v.Sorted Transaction.notAfter) :
    LotInv k v (v.foldl (lotStep k) ([], { ProductId := k, transactions := [] })).1
      (v.foldl (lotStep k) ([], { ProductId := k, transactions := [] })).2 := by
  induction v using List.reverseRecOn with
  | nil =>
    refine ⟨rfl, rfl, ?_, ?_, ?_, ?_, ?_⟩
    · intro j hj hjl; simp at hjl; omega
    all_goals intro p hp; simp at hp
  | append_singleton l t ih =>
    have hl : l.Sorted Transaction.notAfter :=
      List.Pairwise.sublist (List.sublist_append_left l [t]) hv
    rw [List.foldl_append, List.foldl_cons, List.foldl_nil]
    exact lotStep_inv k l t hv _ _ (ih hl)

theorem foldl_lotStep_fst (k : Int) (v : List Transaction)
    (tmp0 : List HistoricalPosition) (c : HistoricalPosition) :
    v.foldl (lotStep k) (tmp0, c) =
      (tmp0 ++ (v.foldl (lotStep k) ([], c)).1, (v.foldl (lotStep k) ([], c)).2) := by
  induction v generalizing tmp0 c with
  | nil => simp
  | cons t v ih =>
    simp only [List.foldl_cons]
    by_cases hs : (c.AddTransaction t).GetSize ≠ 0
    · have h1 : ∀ x, lotStep k (x, c) t = (x, c.AddTransaction t) := by
        intro x; unfold lotStep; simp only [hs, ne_eq, not_false_eq_true, if_true]
      rw [h1, h1]
      exact ih tmp0 _
    · have h1 : ∀ x, lotStep k (x, c) t =
          (x ++ [c.AddTransaction t], { ProductId := k, transactions := [] }) := by
        intro x; unfold lotStep; simp only [hs, if_false]
      rw [h1, h1, ih (tmp0 ++ [c.AddTransaction t]), ih ([] ++ [c.AddTransaction t])]
      simp

theorem productStep_eq (tmp : List HistoricalPosition) (e : Int × List Transaction) :
    productStep tmp e = tmp ++ productStep [] e := by
  unfold productStep
  simp only
  rw [foldl_lotStep_fst]
  simp

theorem foldl_productStep (es : List (Int × List Transaction))
    (init : List HistoricalPosition) :
    es.foldl productStep init = init ++ es.flatMap (productStep []) := by
  induction es generalizing init with
  | nil => simp
  | cons e es ih =>
    rw [List.foldl_cons, ih, productStep_eq]
    simp

theorem tmapAppend_keys (m : List (Int × List Transaction)) (t : Transaction) :
    (tmapAppend m t).map Prod.fst =
      if t.ProductId ∈ m.map Prod.fst then m.map Prod.fst
      else m.map Prod.fst ++ [t.ProductId] := by
  induction m with
  | nil => simp [tmapAppend]
  | cons e m ih =>
    obtain ⟨k, l⟩ := e
    unfold tmapAppend
    by_cases hk : k = t.ProductId
    · simp [hk]
    · have hk' : ¬ t.ProductId = k := fun h => hk h.symm
      simp only [hk, if_false, List.map_cons, ih, List.mem_cons, hk', false_or]
      by_cases hm : t.ProductId ∈ m.map Prod.fst
      · simp only [hm, if_true]
      · simp only [hm, if_false, List.cons_append]

theorem mem_tmapAppend (m : List (Int × List Transaction)) (t : Transaction)
    (hnd : (m.map Prod.fst).Nodup) (e : Int × List Transaction)
    (he : e ∈ tmapAppend m t) :
    (e.1 ≠ t.ProductId ∧ e ∈ m) ∨
    (e.1 = t.ProductId ∧
      ((∃ v0, (t.ProductId, v0) ∈ m ∧ e.2 = v0 ++ [t]) ∨
       (t.ProductId ∉ m.map Prod.fst ∧ e.2 = [t]))) := by
  induction m with
  | nil =>
    simp only [tmapAppend, List.mem_singleton] at he
    subst he
    right
    exact ⟨rfl, Or.inr ⟨by simp, rfl⟩⟩
  | cons e0 m ih =>
    obtain ⟨k, l⟩ := e0
    have hnd' : (m.map Prod.fst).Nodup := (List.nodup_cons.mp hnd).2
    have hk_notin : k ∉ m.map Prod.fst := (List.nodup_cons.mp hnd).1
    unfold tmapAppend at he
    by_cases hk : k = t.ProductId
    · simp only [hk, if_true] at he
      rcases List.mem_cons.mp he with h | h
      · subst h
        right
        refine ⟨rfl, Or.inl ⟨l, ?_, rfl⟩⟩
        rw [hk]; exact List.mem_cons_self _ _
      · left
        refine ⟨?_, List.mem_cons_of_mem _ h⟩
        intro heq
        apply hk_notin
        rw [hk, ← heq]
        exact List.mem_map_of_mem Prod.fst h
    · simp only [hk, if_false] at he
      rcases List.mem_cons.mp he with h | h
      · subst h
        left
        exact ⟨hk, List.mem_cons_self _ _⟩
      · rcases ih hnd' h with ⟨h1, h2⟩ | ⟨h1, h2⟩
        · left; exact ⟨h1, List.mem_cons_of_mem _ h2⟩
        · right
          refine ⟨h1, ?_⟩
          rcases h2 with ⟨v0, hv0, hv⟩ | ⟨hn, hv⟩
          · exact Or.inl ⟨v0, List.mem_cons_of_mem _ hv0, hv⟩
          · refine Or.inr ⟨?_, hv⟩
            simp only [List.map_cons, List.mem_cons, not_or]
            exact ⟨fun h => hk h.symm, hn⟩

theorem tmapAppend_inv (l : List Transaction) (m : List (Int × List Transaction))
    (t : Transaction) (h : TmapInv l m) : TmapInv (l ++ [t]) (tmapAppend m t) := by
  refine ⟨?_, ?_, ?_⟩
  · rw [tmapAppend_keys]
    by_cases hm : t.ProductId ∈ m.map Prod.fst
    · simp only [hm, if_true]; exact h.nodup
    · simp only [hm, if_false]
      rw [List.nodup_append]
      refine ⟨h.nodup, List.nodup_singleton _, ?_⟩
      intro a ha hb
      rw [List.mem_singleton] at hb
      subst hb
      exact hm ha
  · intro e he
    rw [List.filter_append]
    rcases mem_tmapAppend m t h.nodup e he with ⟨h1, h2⟩ | ⟨h1, h2⟩
    · have : ¬ t.ProductId = e.1 := fun hh => h1 hh.symm
      rw [h.entry e h2]
      simp [this]
    · rcases h2 with ⟨v0, hv0, hv⟩ | ⟨hn, hv⟩
      · have := h.entry _ hv0
        simp only at this
        rw [hv, this, h1]
        simp
      · have hnil : l.filter (fun t' => decide (t'.ProductId = e.1)) = [] := by
          rw [List.filter_eq_nil_iff]
          intro t' ht'
          simp only [decide_eq_true_eq]
          intro heq
          apply hn
          rw [← h1, ← heq]
          exact h.keys t' ht'
        rw [hv, hnil, h1]
        simp
  · intro t' ht'
    rw [tmapAppend_keys]
    rcases List.mem_append.mp ht' with h1 | h1
    · have := h.keys t' h1
      by_cases hm : t.ProductId ∈ m.map Prod.fst
      · simp only [hm, if_true]; exact this
      · simp only [hm, if_false]; exact List.mem_append_left _ this
    · rw [List.mem_singleton] at h1
      subst h1
      by_cases hm : t'.ProductId ∈ m.map Prod.fst
      · simp only [hm, if_true]
      · simp only [hm, if_false]; simp

theorem foldl_tmapAppend_inv (l : List Transaction) :
    TmapInv l (l.foldl tmapAppend []) := by
  induction l using List.reverseRecOn with
  | nil => exact ⟨by simp, by simp, by simp⟩
  | append_singleton l t ih =>
    rw [List.foldl_append, List.foldl_cons, List.foldl_nil]
    exact tmapAppend_inv l _ t ih

theorem productStep_nil_eq (k : Int) (v : List Transaction) :
    productStep [] (k, v) =
      (v.foldl (lotStep k) ([], { ProductId := k, transactions := [] })).1 ++
      [(v.foldl (lotStep k) ([], { ProductId := k, transactions := [] })).2] := rfl

theorem productStep_productId (k : Int) (v : List Transaction)
    (hv : v.Sorted Transaction.notAfter) :
    ∀ p ∈ productStep [] (k, v), p.ProductId = k := by
  intro p hp
  have h := foldl_lotStep_inv k v hv
  rw [productStep_nil_eq] at hp
  rcases List.mem_append.mp hp with hp | hp
  · exact h.doneId p hp
  · rw [List.mem_singleton.mp hp]; exact h.curId

theorem lotsOf_nil (k : Int) : lotsOf k [] = [] := by
  simp [lotsOf, productStep, HistoricalPosition.GetTransactionCount]

/-- Selecting the lots of product `k` among those built from entries with
distinct keys gives the lots of the entry for `k`. -/
theorem filter_flatMap_productStep (k : Int) (V : Int → List Transaction)
    (hV : ∀ j, (V j).Sorted Transaction.notAfter)
    (es : List (Int × List Transaction))
    (hnd : (es.map Prod.fst).Nodup) (hes : ∀ e ∈ es, e.2 = V e.1) :
    ((es.flatMap (productStep [])).filter
        (fun p => decide (p.GetTransactionCount > 0))).filter
        (fun p => decide (p.ProductId = k)) =
      if k ∈ es.map Prod.fst then lotsOf k (V k) else [] := by
  induction es with
  | nil => simp
  | cons e es ih =>
    obtain ⟨j, v⟩ := e
    have hv : v = V j := hes (j, v) (List.mem_cons_self _ _)
    have hnd' : (es.map Prod.fst).Nodup := (List.nodup_cons.mp hnd).2
    have hj : j ∉ es.map Prod.fst := (List.nodup_cons.mp hnd).1
    have ih' := ih hnd' (fun e he => hes e (List.mem_cons_of_mem _ he))
    rw [List.flatMap_cons, List.filter_append, List.filter_append, ih']
    have hpid := productStep_productId j v (hv ▸ hV j)
    by_cases hjk : j = k
    · subst hjk
      have hfirst : ((productStep [] (j, v)).filter
          (fun p => decide (p.GetTransactionCount > 0))).filter
          (fun p => decide (p.ProductId = j)) = lotsOf j (V j) := by
        rw [List.filter_eq_self.mpr]
        · rw [hv]; rfl
        · intro p hp
          simpa using hpid p (List.mem_filter.mp hp).1
      rw [hfirst]
      simp [hj]
    · have hfirst : ((productStep [] (j, v)).filter
          (fun p => decide (p.GetTransactionCount > 0))).filter
          (fun p => decide (p.ProductId = k)) = [] := by
        rw [List.filter_eq_nil_iff]
        intro p hp
        have := hpid p (List.mem_filter.mp hp).1
        simp only [decide_eq_true_eq]
        rw [this]; exact hjk
      rw [hfirst]
      have hkj : ¬ k = j := fun h => hjk h.symm
      simp only [List.nil_append, List.map_cons, List.mem_cons, hkj, false_or]

theorem sorted_of_flatten_sorted (L : List HistoricalPosition)
    (hne : ∀ p ∈ L, p.transactions ≠ [])
    (hs : ((L.map HistoricalPosition.transactions).flatten).Sorted Transaction.notAfter) :
    L.Sorted HistoricalPosition.notAfter := by
  induction L with
  | nil => exact List.sorted_nil
  | cons p L ih =>
    simp only [List.map_cons, List.flatten_cons] at hs
    have hs' := List.pairwise_append.mp hs
    refine List.sorted_cons.mpr ⟨?_, ih (fun q hq => hne q (List.mem_cons_of_mem _ hq)) hs'.2.1⟩
    intro q hq
    have hp := hne p (List.mem_cons_self _ _)
    have hq' := hne q (List.mem_cons_of_mem _ hq)
    cases hpt : p.transactions with
    | nil => exact absurd hpt hp
    | cons t ts =>
      cases hqt : q.transactions with
      | nil => exact absurd hqt hq'
      | cons u us =>
        have hu : u ∈ (L.map HistoricalPosition.transactions).flatten := by
          rw [List.mem_flatten]
          exact ⟨q.transactions, List.mem_map_of_mem _ hq, by rw [hqt]; exact List.mem_cons_self _ _⟩
        have := hs'.2.2 t (by rw [hpt]; exact List.mem_cons_self _ _) u hu
        unfold HistoricalPosition.notAfter HistoricalPosition.GetFirstTransactionDate
        rw [hpt, hqt]
        exact this

theorem lotsOf_spec (k : Int) (v : List Transaction) (hv : v.Sorted Transaction.notAfter) :
    LotsSpec k v (lotsOf k v) := by
  have h := foldl_lotStep_inv k v hv
  set done := (v.foldl (lotStep k) ([], { ProductId := k, transactions := [] })).1 with hdone
  set cur := (v.foldl (lotStep k) ([], { ProductId := k, transactions := [] })).2 with hcur
  have hdf : done.filter (fun p => decide (p.GetTransactionCount > 0)) = done := by
    rw [List.filter_eq_self]
    intro p hp
    have := h.doneNe p hp
    simp only [HistoricalPosition.GetTransactionCount, gt_iff_lt, decide_eq_true_eq]
    exact List.length_pos.mpr this
  have hlots : lotsOf k v =
      done ++ (if cur.transactions = [] then [] else [cur]) := by
    unfold lotsOf
    rw [productStep_nil_eq, List.filter_append, hdf]
    congr 1
    by_cases hc : cur.transactions = []
    · simp [hc, HistoricalPosition.GetTransactionCount, ← hcur]
    · have : 0 < cur.transactions.length := List.length_pos.mpr hc
      simp [hc, HistoricalPosition.GetTransactionCount, ← hcur, this]
  have hflat : ((lotsOf k v).map HistoricalPosition.transactions).flatten = v := by
    rw [hlots]
    by_cases hc : cur.transactions = []
    · have := h.flat
      rw [hc, List.append_nil] at this
      simp [hc, this]
    · simp only [hc, if_false, List.map_append, List.flatten_append, List.map_cons,
        List.map_nil, List.flatten_cons, List.flatten_nil, List.append_nil]
      exact h.flat
  have hne : ∀ p ∈ lotsOf k v, p.transactions ≠ [] := by
    intro p hp
    rw [hlots] at hp
    rcases List.mem_append.mp hp with hp | hp
    · exact h.doneNe p hp
    · by_cases hc : cur.transactions = []
      · simp [hc] at hp
      · simp only [hc, if_false, List.mem_singleton] at hp
        rw [hp]; exact hc
  refine ⟨hflat, ?_, hne, ?_, ?_, ?_⟩
  · intro p hp
    exact productStep_productId k v hv p (List.mem_filter.mp hp).1
  · intro p hp
    rw [hlots] at hp
    rcases List.mem_append.mp hp with hp | hp
    · exact h.doneOpen p hp
    · by_cases hc : cur.transactions = []
      · simp [hc] at hp
      · simp only [hc, if_false, List.mem_singleton] at hp
        rw [hp]
        intro j hj hjl
        exact h.curOpen j hj (by omega)
  · intro p hp
    rw [hlots] at hp
    by_cases hc : cur.transactions = []
    · simp only [hc, if_true, List.append_nil] at hp
      exact h.doneSize p (List.mem_of_mem_dropLast hp)
    · simp only [hc, if_false, List.dropLast_concat] at hp
      exact h.doneSize p hp
  · apply sorted_of_flatten_sorted _ hne
    rw [hflat]; exact hv

theorem sortTransactions_stable (l : List Transaction) (d : Int) :
    (sortTransactionsByDateAscending l).filter (fun t => decide (t.Date = d)) =
      l.filter (fun t => decide (t.Date = d)) := by
  rw [sortTransactions_filter]
  apply sortTransactions_of_sorted
  rw [List.Sorted, List.pairwise_iff_forall_sublist]
  intro a b hab
  have ha : a ∈ l.filter (fun t => decide (t.Date = d)) := hab.subset (by simp)
  have hb : b ∈ l.filter (fun t => decide (t.Date = d)) := hab.subset (by simp)
  have ha' : a.Date = d := by simpa using (List.mem_filter.mp ha).2
  have hb' : b.Date = d := by simpa using (List.mem_filter.mp hb).2
  unfold Transaction.notAfter
  omega

/-- The lots returned for product `k` are the lots built from that product's
transactions in stable date order, whatever the map iteration order. -/
theorem getHistoricalPositions_filter (order : MapOrder) (ts : List Transaction) (k : Int) :
    (getHistoricalPositionsFromTransactions order ts).2.filter
        (fun p => decide (p.ProductId = k)) =
      lotsOf k (sortTransactionsByDateAscending
        (ts.filter (fun t => decide (t.ProductId = k)))) := by
  unfold getHistoricalPositionsFromTransactions sortHistoricalPositionByFirstTransactionDateAscending
    sliceStable
  simp only
  rw [filter_insertionSort, foldl_productStep, List.nil_append]
  have hinv := foldl_tmapAppend_inv (sortTransactionsByDateAscending ts)
  set m := (sortTransactionsByDateAscending ts).foldl tmapAppend [] with hm
  have hperm : (order.iter m).Perm m := order.perm m
  have hnd : ((order.iter m).map Prod.fst).Nodup :=
    (List.Perm.nodup_iff (hperm.map Prod.fst)).mpr hinv.nodup
  have hV : ∀ j, ((sortTransactionsByDateAscending ts).filter
      (fun t => decide (t.ProductId = j))).Sorted Transaction.notAfter :=
    fun j => List.Sorted.filter _ (sortTransactions_sorted ts)
  have hes : ∀ e ∈ order.iter m, e.2 = (sortTransactionsByDateAscending ts).filter
      (fun t => decide (t.ProductId = e.1)) :=
    fun e he => hinv.entry e (hperm.mem_iff.mp he)
  have hsel := filter_flatMap_productStep k
    (fun j => (sortTransactionsByDateAscending ts).filter (fun t => decide (t.ProductId = j)))
    hV (order.iter m) hnd hes
  simp only [sliceStable] at hsel ⊢
  rw [hsel]
  have hlots : (if k ∈ (order.iter m).map Prod.fst then
      lotsOf k ((sortTransactionsByDateAscending ts).filter (fun t => decide (t.ProductId = k)))
      else []) =
      lotsOf k ((sortTransactionsByDateAscending ts).filter
        (fun t => decide (t.ProductId = k))) := by
    by_cases hk : k ∈ (order.iter m).map Prod.fst
    · rw [if_pos hk]
    · rw [if_neg hk]
      have hnil : (sortTransactionsByDateAscending ts).filter
          (fun t => decide (t.ProductId = k)) = [] := by
        rw [List.filter_eq_nil_iff]
        intro t ht
        simp only [decide_eq_true_eq]
        intro heq
        apply hk
        rw [← heq]
        exact (hperm.map Prod.fst).mem_iff.mpr (hinv.keys t ht)
      rw [hnil, lotsOf_nil]
  rw [hlots, List.Sorted.insertionSort_eq (lotsOf_spec k _ (hV k)).sorted, sortTransactions_filter]

theorem wrapInt64_add_congr (a a' b : Int) (h : wrapInt64 a = wrapInt64 a') :
    wrapInt64 (b + a) = wrapInt64 (b + a') := by
  unfold wrapInt64 at *
  omega

theorem sum_GetSize_eq (L : List HistoricalPosition) :
    wrapInt64 (L.map HistoricalPosition.GetSize).sum =
      wrapInt64 (((L.map HistoricalPosition.transactions).flatten).map
        Transaction.Quantity).sum := by
  induction L with
  | nil => simp
  | cons p L ih =>
    simp only [List.map_cons, List.sum_cons, List.flatten_cons, List.map_append,
      List.sum_append, GetSize_eq_sum]
    rw [wrapInt64_add_left]
    exact wrapInt64_add_congr _ _ _ ih

theorem sum_sum_eq (L : List HistoricalPosition) :
    (L.map (fun p => (p.transactions.map Transaction.Quantity).sum)).sum =
      (((L.map HistoricalPosition.transactions).flatten).map Transaction.Quantity).sum := by
  induction L with
  | nil => simp
  | cons p L ih =>
    simp only [List.map_cons, List.sum_cons, List.flatten_cons, List.map_append,
      List.sum_append, ih]

theorem sum_GetSize_of_range (L : List HistoricalPosition)
    (h : ∀ p ∈ L, -9223372036854775808 ≤ (p.transactions.map Transaction.Quantity).sum ∧
      (p.transactions.map Transaction.Quantity).sum < 9223372036854775808) :
    (L.map HistoricalPosition.GetSize).sum =
      (L.map (fun p => (p.transactions.map Transaction.Quantity).sum)).sum := by
  induction L with
  | nil => simp
  | cons p L ih =>
    have hp := h p (List.mem_cons_self _ _)
    simp only [List.map_cons, List.sum_cons, GetSize_eq_sum,
      wrapInt64_of_range _ hp.1 hp.2, ih (fun q hq => h q (List.mem_cons_of_mem _ hq))]

/-- C3 (as stated) fails: the size of a lot is held in an `int`. After four
buys of 2^62 units of product 1 the exact sum of signed quantities is 2^64,
which has not returned to zero, yet the `int` is zero: the code closes the lot
and puts the next buy into a new one, so the first of the two returned lots
does not have total size zero. -/
theorem getHistoricalPositions_overflow_counterexample :
    (getHistoricalPositionsFromTransactions MapOrder.insertion
      [{ Transaction.zero with Id := 1, ProductId := 1, Date := 1,
                               Quantity := 4611686018427387904 },
       { Transaction.zero with Id := 2, ProductId := 1, Date := 2,
                               Quantity := 4611686018427387904 },
       { Transaction.zero with Id := 3, ProductId := 1, Date := 3,
                               Quantity := 4611686018427387904 },
       { Transaction.zero with Id := 4, ProductId := 1, Date := 4,
                               Quantity := 4611686018427387904 },
       { Transaction.zero with Id := 5, ProductId := 1, Date := 5, Quantity := 5 }]).2 =
      [{ ProductId := 1,
         transactions :=
          [{ Transaction.zero with Id := 1, ProductId := 1, Date := 1,
                                   Quantity := 4611686018427387904 },
           { Transaction.zero with Id := 2, ProductId := 1, Date := 2,
                                   Quantity := 4611686018427387904 },
           { Transaction.zero with Id := 3, ProductId := 1, Date := 3,
                                   Quantity := 4611686018427387904 },
           { Transaction.zero with Id := 4, ProductId := 1, Date := 4,
                                   Quantity := 4611686018427387904 }] },
       { ProductId := 1,
         transactions :=
          [{ Transaction.zero with Id := 5, ProductId := 1, Date := 5, Quantity := 5 }] }] ∧
    (([{ Transaction.zero with Id := 1, ProductId := 1, Date := 1,
                               Quantity := 4611686018427387904 },
       { Transaction.zero with Id := 2, ProductId := 1, Date := 2,
                               Quantity := 4611686018427387904 },
       { Transaction.zero with Id := 3, ProductId := 1, Date := 3,
                               Quantity := 4611686018427387904 },
       { Transaction.zero with Id := 4, ProductId := 1, Date := 4,
                               Quantity := 4611686018427387904 }] : List Transaction).map
        Transaction.Quantity).sum = 18446744073709551616 ∧
    (18446744073709551616 : Int) ≠ 0 := by
  refine ⟨by decide, by decide, by decide⟩

/-- C3 (amended): for every map iteration order, transaction list and product
id, the lots returned for that product concatenate, in output order, to that
product's transactions in stable ascending date order (the code's stable
sort of them: ascending by date, a permutation, equal dates in input order);
every lot is non-empty; inside a lot the running sum of signed quantities, as
an `int` holds it (wrapped modulo 2^64), is non-zero after every transaction
but the last, and so is the exact running sum; and every lot other than the
product's last has `GetSize` zero, `GetSize` being the wrapped sum of the lot,
so that its exact sum is zero whenever that sum lies in the range of an
`int`. -/
theorem getHistoricalPositions_lots (order : MapOrder) (transactions : List Transaction)
    (productId : Int) :
    (((getHistoricalPositionsFromTransactions order transactions).2.filter
        (fun p => decide (p.ProductId = productId))).map
        HistoricalPosition.transactions).flatten =
      sortTransactionsByDateAscending
        (transactions.filter (fun t => decide (t.ProductId = productId))) ∧
    (sortTransactionsByDateAscending
        (transactions.filter (fun t => decide (t.ProductId = productId)))).Sorted
      (fun a b => a.Date ≤ b.Date) ∧
    (sortTransactionsByDateAscending
        (transactions.filter (fun t => decide (t.ProductId = productId)))).Perm
      (transactions.filter (fun t => decide (t.ProductId = productId))) ∧
    (∀ d : Int,
      (sortTransactionsByDateAscending
        (transactions.filter (fun t => decide (t.ProductId = productId)))).filter
          (fun t => decide (t.Date = d)) =
      (transactions.filter (fun t => decide (t.ProductId = productId))).filter
          (fun t => decide (t.Date = d))) ∧
    (∀ p ∈ (getHistoricalPositionsFromTransactions order transactions).2.filter
        (fun p => decide (p.ProductId = productId)), p.transactions ≠ []) ∧
    (∀ p ∈ (getHistoricalPositionsFromTransactions order transactions).2.filter
        (fun p => decide (p.ProductId = productId)),
      ∀ j : Nat, 0 < j → j < p.transactions.length →
        wrapInt64 ((p.transactions.take j).map Transaction.Quantity).sum ≠ 0 ∧
        ((p.transactions.take j).map Transaction.Quantity).sum ≠ 0) ∧
    (∀ p ∈ ((getHistoricalPositionsFromTransactions order transactions).2.filter
        (fun p => decide (p.ProductId = productId))).dropLast,
      p.GetSize = 0 ∧
      wrapInt64 (p.transactions.map Transaction.Quantity).sum = 0 ∧
      (-9223372036854775808 ≤ (p.transactions.map Transaction.Quantity).sum →
        (p.transactions.map Transaction.Quantity).sum < 9223372036854775808 →
        (p.transactions.map Transaction.Quantity).sum = 0)) ∧
    (∀ p : HistoricalPosition,
      p.GetSize = wrapInt64 (p.transactions.map Transaction.Quantity).sum) := by
  rw [getHistoricalPositions_filter]
  have hs := sortTransactions_sorted
    (transactions.filter (fun t => decide (t.ProductId = productId)))
  have h := lotsOf_spec productId _ hs
  refine ⟨h.flat, ?_, sortTransactions_perm _, sortTransactions_stable _, h.nonempty, ?_,
    ?_, GetSize_eq_sum⟩
  · refine List.Pairwise.imp ?_ hs
    intro a b hab
    unfold Transaction.notAfter at hab
    omega
  · intro p hp j hj hjl
    have hw := h.running p hp j hj (by omega)
    exact ⟨hw, ne_zero_of_wrapInt64_ne_zero _ hw⟩
  · intro p hp
    have h0 := h.sealed p hp
    have hw : wrapInt64 (p.transactions.map Transaction.Quantity).sum = 0 := by
      rw [← GetSize_eq_sum]; exact h0
    refine ⟨h0, hw, fun h1 h2 => ?_⟩
    rw [wrapInt64_of_range _ h1 h2] at hw
    exact hw

/-- C4: for every map iteration order, transaction list and product id, the
sizes of the historical positions returned for that product add up to the sum
of the quantities of the input transactions with that product id: the exact
sums of the lots add up to the exact sum of the quantities, the `GetSize`
values added as `int`s give that sum as an `int` holds it, and the `GetSize`
values add up to the exact sum whenever the exact sum of each lot lies in the
range of an `int`. -/
theorem getHistoricalPositions_size_sum (order : MapOrder) (transactions : List Transaction)
    (productId : Int) :
    ((((getHistoricalPositionsFromTransactions order transactions).2.filter
        (fun p => decide (p.ProductId = productId))).map
        (fun p => (p.transactions.map Transaction.Quantity).sum)).sum =
      ((transactions.filter (fun t => decide (t.ProductId = productId))).map
        Transaction.Quantity).sum) ∧
    (wrapInt64 (((getHistoricalPositionsFromTransactions order transactions).2.filter
        (fun p => decide (p.ProductId = productId))).map HistoricalPosition.GetSize).sum =
      wrapInt64 ((transactions.filter (fun t => decide (t.ProductId = productId))).map
        Transaction.Quantity).sum) ∧
    ((∀ p ∈ (getHistoricalPositionsFromTransactions order transactions).2.filter
        (fun p => decide (p.ProductId = productId)),
        -9223372036854775808 ≤ (p.transactions.map Transaction.Quantity).sum ∧
        (p.transactions.map Transaction.Quantity).sum < 9223372036854775808) →
      (((getHistoricalPositionsFromTransactions order transactions).2.filter
        (fun p => decide (p.ProductId = productId))).map HistoricalPosition.GetSize).sum =
      ((transactions.filter (fun t => decide (t.ProductId = productId))).map
        Transaction.Quantity).sum) ∧
    (∀ p : HistoricalPosition,
      p.GetSize = wrapInt64 (p.transactions.map Transaction.Quantity).sum) := by
  have hs := sortTransactions_sorted
    (transactions.filter (fun t => decide (t.ProductId = productId)))
  have hflat := (lotsOf_spec productId _ hs).flat
  have hperm := ((sortTransactions_perm
    (transactions.filter (fun t => decide (t.ProductId = productId)))).map
      Transaction.Quantity).sum_eq
  have hexact : (((getHistoricalPositionsFromTransactions order transactions).2.filter
        (fun p => decide (p.ProductId = productId))).map
        (fun p => (p.transactions.map Transaction.Quantity).sum)).sum =
      ((transactions.filter (fun t => decide (t.ProductId = productId))).map
        Transaction.Quantity).sum := by
    rw [getHistoricalPositions_filter, sum_sum_eq, hflat]
    exact hperm
  refine ⟨hexact, ?_, ?_, GetSize_eq_sum⟩
  · rw [getHistoricalPositions_filter, sum_GetSize_eq, hflat, hperm]
  · intro hrange
    rw [sum_GetSize_of_range _ hrange]
    exact hexact

/-! ## Merging into the ledger -/

theorem mem_mergeStep_of_mem (L : List Transaction) (b t : Transaction) (h : t ∈ L) :
    t ∈ mergeStep L b := by
  unfold mergeStep
  split_ifs
  · exact h
  · exact List.mem_append_left _ h

theorem mem_foldl_mergeStep_of_mem (batch L : List Transaction) (t : Transaction)
    (h : t ∈ L) : t ∈ batch.foldl mergeStep L := by
  induction batch generalizing L with
  | nil => exact h
  | cons b batch ih => exact ih _ (mem_mergeStep_of_mem L b t h)

theorem id_mem_mergeStep (L : List Transaction) (b : Transaction) :
    ∃ t ∈ mergeStep L b, t.Id = b.Id := by
  unfold mergeStep
  by_cases h : L.any (fun t => decide (t.Id = b.Id)) = true
  · rw [if_pos h]
    obtain ⟨t, ht, hid⟩ := List.any_eq_true.mp h
    exact ⟨t, ht, by simpa using hid⟩
  · rw [if_neg h]
    exact ⟨b, by simp, rfl⟩

theorem id_mem_foldl_mergeStep (batch L : List Transaction) (b : Transaction)
    (hb : b ∈ batch) : ∃ t ∈ batch.foldl mergeStep L, t.Id = b.Id := by
  induction batch generalizing L with
  | nil => simp at hb
  | cons a batch ih =>
    rw [List.foldl_cons]
    rcases List.mem_cons.mp hb with h | h
    · subst h
      obtain ⟨t, ht, hid⟩ := id_mem_mergeStep L b
      exact ⟨t, mem_foldl_mergeStep_of_mem batch _ t ht, hid⟩
    · exact ih _ h

theorem foldl_mergeStep_of_present (batch L : List Transaction)
    (h : ∀ b ∈ batch, ∃ t ∈ L, t.Id = b.Id) : batch.foldl mergeStep L = L := by
  induction batch with
  | nil => rfl
  | cons b batch ih =>
    rw [List.foldl_cons]
    have hb : mergeStep L b = L := by
      unfold mergeStep
      obtain ⟨t, ht, hid⟩ := h b (List.mem_cons_self _ _)
      have : L.any (fun t => decide (t.Id = b.Id)) = true :=
        List.any_eq_true.mpr ⟨t, ht, by simpa using hid⟩
      rw [if_pos this]
    rw [hb]
    exact ih (fun b' hb' => h b' (List.mem_cons_of_mem _ hb'))

theorem getHistoricalPositions_sorted_input (order : MapOrder) (ts : List Transaction) :
    getHistoricalPositionsFromTransactions order (sortTransactionsByDateAscending ts) =
      getHistoricalPositionsFromTransactions order ts := by
  unfold getHistoricalPositionsFromTransactions
  rw [sortTransactions_of_sorted (sortTransactions_sorted ts)]

theorem getHistoricalPositions_fst (order : MapOrder) (ts : List Transaction) :
    (getHistoricalPositionsFromTransactions order ts).1 =
      sortTransactionsByDateAscending ts := rfl

theorem getHistoricalPositions_perm (o1 o2 : MapOrder) (ts : List Transaction) :
    (getHistoricalPositionsFromTransactions o2 ts).2.Perm
      (getHistoricalPositionsFromTransactions o1 ts).2 := by
  unfold getHistoricalPositionsFromTransactions
    sortHistoricalPositionByFirstTransactionDateAscending sliceStable
  simp only
  refine (List.perm_insertionSort _ _).trans (List.Perm.trans ?_ (List.perm_insertionSort _ _).symm)
  apply List.Perm.filter
  rw [foldl_productStep, foldl_productStep, List.nil_append, List.nil_append]
  apply List.Perm.flatMap_right
  exact (o2.perm _).trans (o1.perm _).symm

theorem Merge_Merge (o1 o2 : MapOrder) (c : TransactionCache) (batch : List Transaction) :
    (c.Merge o1 batch).Merge o2 batch =
      { transactions := (c.Merge o1 batch).transactions,
        positions := (getHistoricalPositionsFromTransactions o2
          (batch.foldl mergeStep c.transactions)).2 } := by
  have hkeep : batch.foldl mergeStep (c.Merge o1 batch).transactions =
      (c.Merge o1 batch).transactions := by
    apply foldl_mergeStep_of_present
    intro b hb
    obtain ⟨t, ht, hid⟩ := id_mem_foldl_mergeStep batch c.transactions b hb
    refine ⟨t, ?_, hid⟩
    show t ∈ sortTransactionsByDateAscending (batch.foldl mergeStep c.transactions)
    exact (sortTransactions_perm _).mem_iff.mpr ht
  have hsecond : (c.Merge o1 batch).Merge o2 batch =
      { transactions := (getHistoricalPositionsFromTransactions o2
          (batch.foldl mergeStep (c.Merge o1 batch).transactions)).1,
        positions := (getHistoricalPositionsFromTransactions o2
          (batch.foldl mergeStep (c.Merge o1 batch).transactions)).2 } := rfl
  rw [hsecond, hkeep]
  have hfirst : (c.Merge o1 batch).transactions =
      sortTransactionsByDateAscending (batch.foldl mergeStep c.transactions) := rfl
  rw [hfirst, getHistoricalPositions_sorted_input, getHistoricalPositions_fst]

/-- What a repeated `Merge` of the same batch preserves, whatever the two
iteration orders of the grouping map: the ledger (same transactions in the
same order), the lots of each product in their order, and the lots as a
multiset; with the same iteration order in both calls the cache is the
same. -/
theorem Merge_twice (o1 o2 : MapOrder) (c : TransactionCache) (batch : List Transaction) :
    ((c.Merge o1 batch).Merge o2 batch).transactions = (c.Merge o1 batch).transactions ∧
    ((c.Merge o1 batch).Merge o2 batch).transactions.length =
      (c.Merge o1 batch).transactions.length ∧
    (∀ k : Int,
      ((c.Merge o1 batch).Merge o2 batch).positions.filter
          (fun p => decide (p.ProductId = k)) =
        (c.Merge o1 batch).positions.filter (fun p => decide (p.ProductId = k))) ∧
    ((c.Merge o1 batch).Merge o2 batch).positions.Perm (c.Merge o1 batch).positions ∧
    (c.Merge o1 batch).Merge o1 batch = c.Merge o1 batch := by
  have hpos : (c.Merge o1 batch).positions =
      (getHistoricalPositionsFromTransactions o1 (batch.foldl mergeStep c.transactions)).2 := rfl
  refine ⟨?_, ?_, ?_, ?_, ?_⟩
  · rw [Merge_Merge]
  · rw [Merge_Merge]
  · intro k
    rw [Merge_Merge, hpos]
    simp only
    rw [getHistoricalPositions_filter, getHistoricalPositions_filter]
  · rw [Merge_Merge, hpos]
    exact getHistoricalPositions_perm o1 o2 _
  · rw [Merge_Merge]
    rfl

/-- C5 (evaluation at the failing input): starting from the empty ledger, the
batch of two buys of products 1 and 2 dated the same instant is merged twice.
When the first call ranges over the grouping map in insertion order it
derives the lot of product 1 before the lot of product 2; when the second
call ranges over it in reverse order it leaves the ledger as it is but
derives the lot of product 2 first, so the positions after the second merge
differ from those after the first. -/
theorem Merge_twice_order_dependent :
    (newTransactionCache.Merge MapOrder.insertion
        [{ Transaction.zero with Id := 1, ProductId := 1, Quantity := 1 },
         { Transaction.zero with Id := 2, ProductId := 2, Quantity := 1 }]).positions =
      [{ ProductId := 1,
         transactions := [{ Transaction.zero with Id := 1, ProductId := 1, Quantity := 1 }] },
       { ProductId := 2,
         transactions := [{ Transaction.zero with Id := 2, ProductId := 2, Quantity := 1 }] }] ∧
    ((newTransactionCache.Merge MapOrder.insertion
        [{ Transaction.zero with Id := 1, ProductId := 1, Quantity := 1 },
         { Transaction.zero with Id := 2, ProductId := 2, Quantity := 1 }]).Merge
      MapOrder.reversed
        [{ Transaction.zero with Id := 1, ProductId := 1, Quantity := 1 },
         { Transaction.zero with Id := 2, ProductId := 2, Quantity := 1 }]).positions =
      [{ ProductId := 2,
         transactions := [{ Transaction.zero with Id := 2, ProductId := 2, Quantity := 1 }] },
       { ProductId := 1,
         transactions := [{ Transaction.zero with Id := 1, ProductId := 1, Quantity := 1 }] }] ∧
    ((newTransactionCache.Merge MapOrder.insertion
        [{ Transaction.zero with Id := 1, ProductId := 1, Quantity := 1 },
         { Transaction.zero with Id := 2, ProductId := 2, Quantity := 1 }]).Merge
      MapOrder.reversed
        [{ Transaction.zero with Id := 1, ProductId := 1, Quantity := 1 },
         { Transaction.zero with Id := 2, ProductId := 2, Quantity := 1 }]).transactions =
    (newTransactionCache.Merge MapOrder.insertion
        [{ Transaction.zero with Id := 1, ProductId := 1, Quantity := 1 },
         { Transaction.zero with Id := 2, ProductId := 2, Quantity := 1 }]).transactions ∧
    ((newTransactionCache.Merge MapOrder.insertion
        [{ Transaction.zero with Id := 1, ProductId := 1, Quantity := 1 },
         { Transaction.zero with Id := 2, ProductId := 2, Quantity := 1 }]).Merge
      MapOrder.reversed
        [{ Transaction.zero with Id := 1, ProductId := 1, Quantity := 1 },
         { Transaction.zero with Id := 2, ProductId := 2, Quantity := 1 }]).positions ≠
    (newTransactionCache.Merge MapOrder.insertion
        [{ Transaction.zero with Id := 1, ProductId := 1, Quantity := 1 },
         { Transaction.zero with Id := 2, ProductId := 2, Quantity := 1 }]).positions := by
  refine ⟨by decide, by decide, by decide, by decide⟩

/-! ## Removal from a cache -/

theorem matchesAny_eq {α : Type} (key : α → String) (cache : List α) (i : Nat) (x : α)
    (hx : cache[i]? = some x) (ids : List String) :
    matchesAny key cache i ids = Except.ok (decide (key x ∈ ids)) := by
  induction ids with
  | nil => simp [matchesAny]; rfl
  | cons id rest ih =>
    unfold matchesAny
    rw [hx]
    simp only
    by_cases h : key x = id
    · simp [h]; rfl
    · rw [if_neg h, ih]
      simp [h]

theorem removeLoop_spec {α : Type} (key : α → String) (ids : List String)
    (pre : List α) : ∀ post : List α, (∀ y ∈ post, key y ∉ ids) →
    ∃ r, removeLoop key ids pre.length (pre ++ post) = Except.ok r ∧
      r.Perm (pre.filter (fun x => decide (key x ∉ ids)) ++ post) := by
  induction pre using List.reverseRecOn with
  | nil =>
    intro post _
    exact ⟨post, rfl, by simp⟩
  | append_singleton pre x ih =>
    intro post hpost
    have hget : (pre ++ [x] ++ post)[pre.length]? = some x := by
      rw [List.append_assoc, List.getElem?_append_right (le_refl _)]
      simp
    rw [List.length_append, List.length_singleton]
    unfold removeLoop
    rw [matchesAny_eq key _ _ x hget]
    by_cases hm : key x ∈ ids
    · have hfilter : (pre ++ [x]).filter (fun x => decide (key x ∉ ids)) =
          pre.filter (fun x => decide (key x ∉ ids)) := by
        rw [List.filter_append]; simp [hm]
      rcases List.eq_nil_or_concat post with hp | ⟨post', l, hp⟩
      · subst hp
        have hlast : (pre ++ [x] ++ []).getLast? = some x := by simp
        have hset : ((pre ++ [x] ++ []).set pre.length x).dropLast = pre ++ [] := by
          simp
        obtain ⟨r, hr, hperm⟩ := ih [] (by simp)
        refine ⟨r, ?_, ?_⟩
        · simp only [hm, decide_True, bind, Except.bind, if_true, hlast, hset]
          exact hr
        · rw [hfilter]; exact hperm
      · rw [List.concat_eq_append] at hp
        subst hp
        have hlast : (pre ++ [x] ++ (post' ++ [l])).getLast? = some l := by
          rw [← List.append_assoc]; exact List.getLast?_concat _
        have hset : ((pre ++ [x] ++ (post' ++ [l])).set pre.length l).dropLast =
            pre ++ (l :: post') := by
          have h1 : (pre ++ [x] ++ (post' ++ [l])).set pre.length l =
              (pre ++ (l :: post')) ++ [l] := by
            rw [List.append_assoc, List.set_append_right _ _ (le_refl _)]
            simp
          rw [h1, List.dropLast_concat]
        have hpost' : ∀ y ∈ l :: post', key y ∉ ids := by
          intro y hy
          apply hpost
          rcases List.mem_cons.mp hy with h | h
          · rw [h]; simp
          · exact List.mem_append_left _ h
        obtain ⟨r, hr, hperm⟩ := ih (l :: post') hpost'
        refine ⟨r, ?_, ?_⟩
        · simp only [hm, decide_True, bind, Except.bind, if_true, hlast, hset]
          exact hr
        · rw [hfilter]
          refine hperm.trans ?_
          apply List.Perm.append_left
          exact (List.perm_append_singleton l post').symm
    · have hfilter : (pre ++ [x]).filter (fun x => decide (key x ∉ ids)) =
          pre.filter (fun x => decide (key x ∉ ids)) ++ [x] := by
        rw [List.filter_append]; simp [hm]
      have hpost' : ∀ y ∈ x :: post, key y ∉ ids := by
        intro y hy
        rcases List.mem_cons.mp hy with h | h
        · rw [h]; exact hm
        · exact hpost y h
      obtain ⟨r, hr, hperm⟩ := ih (x :: post) hpost'
      refine ⟨r, ?_, ?_⟩
      · simp only [hm, decide_False, bind, Except.bind]
        rw [List.append_assoc]
        exact hr
      · rw [hfilter, List.append_assoc]
        exact hperm

theorem removeLoop_total {α : Type} (key : α → String) (ids : List String) (cache : List α) :
    ∃ r, removeLoop key ids cache.length cache = Except.ok r ∧
      r.Perm (cache.filter (fun x => decide (key x ∉ ids))) := by
  obtain ⟨r, hr, hperm⟩ := removeLoop_spec key ids cache [] (by simp)
  rw [List.append_nil] at hr hperm
  exact ⟨r, hr, hperm⟩

/-- The test `TestPositionCache_Remove`: after adding the positions "1" and "2"
and removing both ids, `Get("1")` is empty. -/
theorem TestPositionCache_Remove_passes :
    ∃ c : PositionCache,
      (newPositionCache.Add
        [{ ProductId := "1", Size := 10 }, { ProductId := "2", Size := 20 }]).Remove
        ["1", "2"] = Except.ok c ∧ (c.Get "1").length = 0 :=
  ⟨{ cache := [] }, rfl, rfl⟩

/-- C6: for both caches and every list of ids, `Remove` returns (no index
ever leaves the slice), and the cache it leaves holds, as a multiset, exactly
the entries held before whose id is not listed: no listed id is left, so
`Get` finds no removed entry, and no other entry is lost or duplicated. -/
theorem Remove_spec (oc : OrderCache) (pc : PositionCache) (ids : List String) :
    (∃ oc' : OrderCache, oc.Remove ids = Except.ok oc' ∧
      oc'.cache.Perm (oc.cache.filter (fun o => decide (o.Id ∉ ids))) ∧
      (∀ o ∈ oc'.cache, o.Id ∉ ids) ∧
      (∀ productId : Int, ∀ o ∈ oc'.Get productId, o.Id ∉ ids)) ∧
    (∃ pc' : PositionCache, pc.Remove ids = Except.ok pc' ∧
      pc'.cache.Perm (pc.cache.filter (fun p => decide (p.ProductId ∉ ids))) ∧
      (∀ p ∈ pc'.cache, p.ProductId ∉ ids) ∧
      (∀ id ∈ ids, pc'.Get id = [])) := by
  constructor
  · obtain ⟨r, hr, hperm⟩ := removeLoop_total Order.Id ids oc.cache
    have hmem : ∀ o ∈ r, o.Id ∉ ids := by
      intro o ho
      have := (List.mem_filter.mp (hperm.mem_iff.mp ho)).2
      simpa using this
    refine ⟨{ cache := r }, ?_, hperm, hmem, ?_⟩
    · unfold OrderCache.Remove
      rw [hr]; rfl
    · intro productId o ho
      exact hmem o (List.mem_filter.mp ho).1
  · obtain ⟨r, hr, hperm⟩ := removeLoop_total Position.ProductId ids pc.cache
    have hmem : ∀ p ∈ r, p.ProductId ∉ ids := by
      intro p hp
      have := (List.mem_filter.mp (hperm.mem_iff.mp hp)).2
      simpa using this
    refine ⟨{ cache := r }, ?_, hperm, hmem, ?_⟩
    · unfold PositionCache.Remove
      rw [hr]; rfl
    · intro id hid
      unfold PositionCache.Get
      rw [List.filter_eq_nil_iff]
      intro p hp
      simp only [decide_eq_true_eq]
      intro heq
      exact hmem p hp (heq ▸ hid)

/-- C9 (evaluation at the failing input): a record whose `productId` (orders)
or `size` (positions) carries a string makes the type assertion panic, and
the panic ends `ConvertToOrders` / `ConvertToPositions`: the well-formed
record that follows is not returned. -/
theorem Convert_type_mismatch_panics :
    updateOrdersResponse.ConvertToOrders (fun _ => none) (fun f => f)
      { LastUpdated := 1,
        Value := [
          { OrderId := "bad", IsAdded := true, IsRemoved := false,
            Value := [{ Name := "productId", Value := JsonValue.string "x" }] },
          { OrderId := "good", IsAdded := true, IsRemoved := false,
            Value := [{ Name := "productId", Value := JsonValue.number 1 }] }] }
      = Except.error Fault.typeAssertion ∧
    updatePositionsResponse.ConvertToPositions
      { LastUpdated := 1,
        Positions := [
          { Id := "bad", IsAdded := true, IsRemoved := false,
            Value := [{ Name := "size", Value := JsonValue.string "x" }] },
          { Id := "good", IsAdded := true, IsRemoved := false,
            Value := [{ Name := "size", Value := JsonValue.number 1 }] }] }
      = Except.error Fault.typeAssertion := by
  constructor <;> rfl

/-- A record whose decoding returns a Go error (unknown `buysell` code,
unparsable date) is skipped by `ConvertToOrders`. -/
theorem convertOrdersStep_error (parseDate : String → Option Int) (NewFromFloat : ℚ → Decimal)
    (acc : List Order × List Order × List String) (order : updateOrderResponse)
    (msg : String) (hr : order.IsRemoved = false)
    (h : order.ConvertToOrder parseDate NewFromFloat = Except.error (Fault.error msg)) :
    convertOrdersStep parseDate NewFromFloat acc order = Except.ok acc := by
  unfold convertOrdersStep
  rw [h]
  simp [hr]
  rfl

theorem foldlM_convertOrderProperty_frame {β : Type} (proj : Order → β) (name : String)
    (parseDate : String → Option Int) (NewFromFloat : ℚ → Decimal) (orderId : String)
    (hstep : ∀ (order : Order) (p : Property) (o' : Order), p.Name ≠ name →
      convertOrderProperty parseDate NewFromFloat orderId order p = Except.ok o' → proj o' = proj order)
    (props : List Property) (hprops : ∀ p ∈ props, p.Name ≠ name) (start o : Order)
    (h : props.foldlM (convertOrderProperty parseDate NewFromFloat orderId) start = Except.ok o) :
    proj o = proj start := by
  induction props generalizing start with
  | nil =>
    simp only [List.foldlM_nil] at h
    injection h with h
    rw [h]
  | cons p props ih =>
    rw [List.foldlM_cons] at h
    cases hs : convertOrderProperty parseDate NewFromFloat orderId start p with
    | error e => rw [hs] at h; cases h
    | ok s' =>
      rw [hs] at h
      have h1 := ih (fun q hq => hprops q (List.mem_cons_of_mem _ hq)) s' h
      rw [h1]
      exact hstep start p s' (hprops p (List.mem_cons_self _ _)) hs

theorem convertOrderProperty_frame (parseDate : String → Option Int)
    (NewFromFloat : ℚ → Decimal) (orderId : String)
    (order : Order) (p : Property) (o' : Order)
    (h : convertOrderProperty parseDate NewFromFloat orderId order p = Except.ok o') :
    (p.Name ≠ "quantity" → o'.Quantity = order.Quantity) ∧
    (p.Name ≠ "price" → o'.Price = order.Price) ∧
    (p.Name ≠ "stopPrice" → o'.StopPrice = order.StopPrice) ∧
    (p.Name ≠ "totalOrderValue" → o'.TotalOrderValue = order.TotalOrderValue) ∧
    (p.Name ≠ "orderTypeId" → o'.OrderType = order.OrderType) ∧
    (p.Name ≠ "orderTimeTypeId" → o'.TimeType = order.TimeType) ∧
    (p.Name ≠ "isDeletable" → o'.IsDeletable = order.IsDeletable) ∧
    (p.Name ≠ "isModifiable" → o'.IsModifiable = order.IsModifiable) := by
  unfold convertOrderProperty at h
  simp only [bind, Except.bind, pure, Except.pure] at h
  split at h
  all_goals try (split at h)
  all_goals try (split at h)
  all_goals first
    | (cases h; done)
    | (cases h
       refine ⟨?_, ?_, ?_, ?_, ?_, ?_, ?_, ?_⟩
       all_goals intro hne
       all_goals first
         | rfl
         | contradiction)

theorem ConvertToOrder_omitted (parseDate : String → Option Int)
    (NewFromFloat : ℚ → Decimal) (r : updateOrderResponse)
    (o : Order) (h : r.ConvertToOrder parseDate NewFromFloat = Except.ok o) :
    ((∀ p ∈ r.Value, p.Name ≠ "quantity") → o.Quantity = 0) ∧
    ((∀ p ∈ r.Value, p.Name ≠ "price") → o.Price = 0) ∧
    ((∀ p ∈ r.Value, p.Name ≠ "stopPrice") → o.StopPrice = 0) ∧
    ((∀ p ∈ r.Value, p.Name ≠ "totalOrderValue") → o.TotalOrderValue = 0) ∧
    ((∀ p ∈ r.Value, p.Name ≠ "orderTypeId") → o.OrderType = 0) ∧
    ((∀ p ∈ r.Value, p.Name ≠ "orderTimeTypeId") → o.TimeType = 0) ∧
    ((∀ p ∈ r.Value, p.Name ≠ "isDeletable") → o.IsDeletable = false) ∧
    ((∀ p ∈ r.Value, p.Name ≠ "isModifiable") → o.IsModifiable = false) := by
  unfold updateOrderResponse.ConvertToOrder at h
  refine ⟨?_, ?_, ?_, ?_, ?_, ?_, ?_, ?_⟩
  · intro hp
    exact foldlM_convertOrderProperty_frame Order.Quantity "quantity" parseDate NewFromFloat r.OrderId
      (fun order p o' hne hs => (convertOrderProperty_frame parseDate NewFromFloat _ order p o' hs).1 hne)
      r.Value hp Order.zero o h
  · intro hp
    exact foldlM_convertOrderProperty_frame Order.Price "price" parseDate NewFromFloat r.OrderId
      (fun order p o' hne hs => (convertOrderProperty_frame parseDate NewFromFloat _ order p o' hs).2.1 hne)
      r.Value hp Order.zero o h
  · intro hp
    exact foldlM_convertOrderProperty_frame Order.StopPrice "stopPrice" parseDate NewFromFloat r.OrderId
      (fun order p o' hne hs => (convertOrderProperty_frame parseDate NewFromFloat _ order p o' hs).2.2.1 hne)
      r.Value hp Order.zero o h
  · intro hp
    exact foldlM_convertOrderProperty_frame Order.TotalOrderValue "totalOrderValue" parseDate NewFromFloat
      r.OrderId
      (fun order p o' hne hs =>
        (convertOrderProperty_frame parseDate NewFromFloat _ order p o' hs).2.2.2.1 hne)
      r.Value hp Order.zero o h
  · intro hp
    exact foldlM_convertOrderProperty_frame Order.OrderType "orderTypeId" parseDate NewFromFloat r.OrderId
      (fun order p o' hne hs =>
        (convertOrderProperty_frame parseDate NewFromFloat _ order p o' hs).2.2.2.2.1 hne)
      r.Value hp Order.zero o h
  · intro hp
    exact foldlM_convertOrderProperty_frame Order.TimeType "orderTimeTypeId" parseDate NewFromFloat r.OrderId
      (fun order p o' hne hs =>
        (convertOrderProperty_frame parseDate NewFromFloat _ order p o' hs).2.2.2.2.2.1 hne)
      r.Value hp Order.zero o h
  · intro hp
    exact foldlM_convertOrderProperty_frame Order.IsDeletable "isDeletable" parseDate NewFromFloat r.OrderId
      (fun order p o' hne hs =>
        (convertOrderProperty_frame parseDate NewFromFloat _ order p o' hs).2.2.2.2.2.2.1 hne)
      r.Value hp Order.zero o h
  · intro hp
    exact foldlM_convertOrderProperty_frame Order.IsModifiable "isModifiable" parseDate NewFromFloat r.OrderId
      (fun order p o' hne hs =>
        (convertOrderProperty_frame parseDate NewFromFloat _ order p o' hs).2.2.2.2.2.2.2 hne)
      r.Value hp Order.zero o h

theorem ConvertToPosition_spec (r : updatePositionResponse) (p : Position)
    (h : r.ConvertToPosition = Except.ok p) :
    p.ProductId = r.Id ∧ ((∀ q ∈ r.Value, q.Name ≠ "size") → p.Size = 0) := by
  unfold updatePositionResponse.ConvertToPosition at h
  have key : ∀ (props : List Property) (start res : Position),
      props.foldlM convertPositionProperty start = Except.ok res →
      res.ProductId = start.ProductId ∧
      ((∀ q ∈ props, q.Name ≠ "size") → res.Size = start.Size) := by
    intro props
    induction props with
    | nil =>
      intro start res h
      simp only [List.foldlM_nil] at h
      injection h with h
      rw [h]
      exact ⟨rfl, fun _ => rfl⟩
    | cons q props ih =>
      intro start res h
      rw [List.foldlM_cons] at h
      cases hs : convertPositionProperty start q with
      | error e => rw [hs] at h; cases h
      | ok s' =>
        rw [hs] at h
        obtain ⟨h1, h2⟩ := ih s' res h
        have hstep : s'.ProductId = start.ProductId ∧ (q.Name ≠ "size" → s'.Size = start.Size) := by
          unfold convertPositionProperty at hs
          simp only [bind, Except.bind, pure, Except.pure] at hs
          split at hs
          all_goals try (split at hs)
          all_goals first
            | (cases hs; done)
            | (cases hs
               refine ⟨rfl, ?_⟩
               intro hne
               first
                 | rfl
                 | contradiction)
        refine ⟨h1.trans hstep.1, fun hall => ?_⟩
        rw [h2 (fun q' hq' => hall q' (List.mem_cons_of_mem _ hq'))]
        exact hstep.2 (hall q (List.mem_cons_self _ _))
  exact key r.Value _ p h

/-- C7 (as stated) fails: the cached order "a" has quantity 10 and price 5; the
update record for "a" carrying only a price of 6 decodes to an order whose
quantity is the zero value, and `Update` copies that zero into the cache.
Likewise a position update without a size resets the cached size 10 to 0. -/
theorem Update_partial_counterexample :
    (∃ o : Order,
      updateOrderResponse.ConvertToOrder (fun _ => none) (fun f => f)
        { OrderId := "a", IsAdded := false, IsRemoved := false,
          Value := [{ Name := "price", Value := JsonValue.number 6 }] } = Except.ok o ∧
      ((OrderCache.mk [{ Order.zero with Id := "a", Quantity := 10, Price := 5 }]).Update
          [o]).cache =
        [{ Order.zero with Id := "a", Quantity := 0, Price := 6 }]) ∧
    (∃ p : Position,
      updatePositionResponse.ConvertToPosition
        { Id := "1", IsAdded := false, IsRemoved := false, Value := [] } = Except.ok p ∧
      ((PositionCache.mk [{ ProductId := "1", Size := 10 }]).Update [p]).cache =
        [{ ProductId := "1", Size := 0 }]) := by
  refine ⟨⟨{ Order.zero with Id := "a", Price := 6 }, by decide!, by decide⟩,
    ⟨{ ProductId := "1", Size := 0 }, rfl, by decide⟩⟩

/-- C7 (amended): applying a decoded update record with `Update` leaves `Id`,
`Date`, `ProductId`, `ProductName`, `ContractType`, `ContractSize`,
`Currency`, `BuySell` and `Size` of every cached order at their prior values
and sets the eight other fields of the cached orders with the decoded id to
the decoded values, which are the zero value for a field the record omits;
a decoded position update sets the size of the cached positions with its
product id to the decoded size, which is 0 when the record has no size. -/
theorem Update_partial (parseDate : String → Option Int)
    (NewFromFloat : ℚ → Decimal) (c : OrderCache)
    (r : updateOrderResponse) (o : Order)
    (h : r.ConvertToOrder parseDate NewFromFloat = Except.ok o)
    (pc : PositionCache) (pr : updatePositionResponse) (p : Position)
    (hp : pr.ConvertToPosition = Except.ok p) :
    (c.Update [o]).cache = c.cache.map (fun order =>
      if order.Id = o.Id then
        { Id := order.Id, Date := order.Date, ProductId := order.ProductId,
          ProductName := order.ProductName, ContractType := order.ContractType,
          ContractSize := order.ContractSize, Currency := order.Currency,
          BuySell := order.BuySell, Size := order.Size,
          Quantity := o.Quantity, Price := o.Price, StopPrice := o.StopPrice,
          TotalOrderValue := o.TotalOrderValue, OrderType := o.OrderType,
          TimeType := o.TimeType, IsModifiable := o.IsModifiable,
          IsDeletable := o.IsDeletable }
      else order) ∧
    (((∀ q ∈ r.Value, q.Name ≠ "quantity") → o.Quantity = 0) ∧
     ((∀ q ∈ r.Value, q.Name ≠ "price") → o.Price = 0) ∧
     ((∀ q ∈ r.Value, q.Name ≠ "stopPrice") → o.StopPrice = 0) ∧
     ((∀ q ∈ r.Value, q.Name ≠ "totalOrderValue") → o.TotalOrderValue = 0) ∧
     ((∀ q ∈ r.Value, q.Name ≠ "orderTypeId") → o.OrderType = 0) ∧
     ((∀ q ∈ r.Value, q.Name ≠ "orderTimeTypeId") → o.TimeType = 0) ∧
     ((∀ q ∈ r.Value, q.Name ≠ "isDeletable") → o.IsDeletable = false) ∧
     ((∀ q ∈ r.Value, q.Name ≠ "isModifiable") → o.IsModifiable = false)) ∧
    (pc.Update [p]).cache = pc.cache.map (fun position =>
      if position.ProductId = pr.Id then { ProductId := position.ProductId, Size := p.Size }
      else position) ∧
    ((∀ q ∈ pr.Value, q.Name ≠ "size") → p.Size = 0) := by
  have hpos := ConvertToPosition_spec pr p hp
  refine ⟨rfl, ConvertToOrder_omitted parseDate NewFromFloat r o h, ?_, hpos.2⟩
  unfold PositionCache.Update
  simp only [List.foldl_cons, List.foldl_nil, updatePosition, hpos.1]

/-- The amended C7 at the record that carries only a price, decoded and applied
to the cached order "a", and at a position record without a size. -/
theorem Update_partial_witness :
    updateOrderResponse.ConvertToOrder (fun _ => none) (fun f => f)
        { OrderId := "a", IsAdded := false, IsRemoved := false,
          Value := [{ Name := "price", Value := JsonValue.number 6 }] } =
      Except.ok { Order.zero with Id := "a", Price := 6 } ∧
    updatePositionResponse.ConvertToPosition
        { Id := "1", IsAdded := false, IsRemoved := false, Value := [] } =
      Except.ok { ProductId := "1", Size := 0 } ∧
    ((OrderCache.mk [{ Order.zero with Id := "a", Quantity := 10, Price := 5 }]).Update
        [{ Order.zero with Id := "a", Price := 6 }]).cache =
      [{ Order.zero with Id := "a", Quantity := 10, Price := 5 }].map (fun order =>
        if order.Id = "a" then
          { Id := order.Id, Date := order.Date, ProductId := order.ProductId,
            ProductName := order.ProductName, ContractType := order.ContractType,
            ContractSize := order.ContractSize, Currency := order.Currency,
            BuySell := order.BuySell, Size := order.Size,
            Quantity := 0, Price := 6, StopPrice := 0,
            TotalOrderValue := 0, OrderType := 0,
            TimeType := 0, IsModifiable := false,
            IsDeletable := false }
        else order) ∧
    ((PositionCache.mk [{ ProductId := "1", Size := 10 }]).Update
        [{ ProductId := "1", Size := 0 }]).cache =
      [{ ProductId := "1", Size := 10 }].map (fun position =>
        if position.ProductId = "1" then { ProductId := position.ProductId, Size := 0 }
        else position) :=
  have w := Update_partial (fun _ => none) (fun f => f)
    (OrderCache.mk [{ Order.zero with Id := "a", Quantity := 10, Price := 5 }])
    { OrderId := "a", IsAdded := false, IsRemoved := false,
      Value := [{ Name := "price", Value := JsonValue.number 6 }] }
    { Order.zero with Id := "a", Price := 6 } (by decide!)
    (PositionCache.mk [{ ProductId := "1", Size := 10 }])
    { Id := "1", IsAdded := false, IsRemoved := false, Value := [] }
    { ProductId := "1", Size := 0 } rfl
  ⟨by decide!, rfl, w.1, w.2.2.1⟩

/-- C10: whenever the batch decodes, `updateOrderCacheFromResponse` returns and
no order it leaves in the cache has an id of the batch's removed list, also
when that id is in the added or updated list; the same holds for
`updatePositionCacheFromResponse` and product ids. What is left is, as a
multiset, the cache after `Add` and `Update` without the removed ids. -/
theorem updateCacheFromResponse_removed (parseDate : String → Option Int)
    (NewFromFloat : ℚ → Decimal)
    (orders : OrderCache) (positions : PositionCache) (response : updateResponse)
    (added updated : List Order) (removed : List String)
    (addedPositions updatedPositions : List Position) (removedPositions : List String)
    (h : response.Orders.ConvertToOrders parseDate NewFromFloat = Except.ok (added, updated, removed))
    (hp : response.Portfolio.ConvertToPositions =
      Except.ok (addedPositions, updatedPositions, removedPositions)) :
    (∃ c : OrderCache,
      updateOrderCacheFromResponse parseDate NewFromFloat orders response = Except.ok c ∧
      (∀ o ∈ c.cache, o.Id ∉ removed) ∧
      c.cache.Perm (((orders.Add added).Update updated).cache.filter
        (fun o => decide (o.Id ∉ removed)))) ∧
    (∃ c : PositionCache,
      updatePositionCacheFromResponse positions response = Except.ok c ∧
      (∀ p ∈ c.cache, p.ProductId ∉ removedPositions) ∧
      c.cache.Perm (((positions.Add addedPositions).Update updatedPositions).cache.filter
        (fun p => decide (p.ProductId ∉ removedPositions)))) := by
  constructor
  · obtain ⟨r, hr, hperm⟩ :=
      removeLoop_total Order.Id removed ((orders.Add added).Update updated).cache
    refine ⟨{ cache := r }, ?_, ?_, hperm⟩
    · unfold updateOrderCacheFromResponse
      rw [h]
      show OrderCache.Remove _ removed = _
      unfold OrderCache.Remove
      rw [hr]; rfl
    · intro o ho
      simpa using (List.mem_filter.mp (hperm.mem_iff.mp ho)).2
  · obtain ⟨r, hr, hperm⟩ := removeLoop_total Position.ProductId removedPositions
      ((positions.Add addedPositions).Update updatedPositions).cache
    refine ⟨{ cache := r }, ?_, ?_, hperm⟩
    · unfold updatePositionCacheFromResponse
      rw [hp]
      show PositionCache.Remove _ removedPositions = _
      unfold PositionCache.Remove
      rw [hr]; rfl
    · intro p hp'
      simpa using (List.mem_filter.mp (hperm.mem_iff.mp hp')).2

/-- C10 at a batch in which the id "a" is both added and removed, applied to a
cache that already holds "a". -/
theorem updateCacheFromResponse_removed_witness :
    updateOrdersResponse.ConvertToOrders (fun _ => none) (fun f => f)
        { LastUpdated := 1, Value := [
            { OrderId := "a", IsAdded := true, IsRemoved := false,
              Value := [{ Name := "productId", Value := JsonValue.number 1 }] },
            { OrderId := "a", IsAdded := false, IsRemoved := true, Value := [] }] } =
      Except.ok ([{ Order.zero with Id := "a", ProductId := 1 }], [], ["a"]) ∧
    updatePositionsResponse.ConvertToPositions
        { LastUpdated := 1, Positions := [
            { Id := "1", IsAdded := true, IsRemoved := false,
              Value := [{ Name := "size", Value := JsonValue.number 1 }] },
            { Id := "1", IsAdded := false, IsRemoved := true, Value := [] }] } =
      Except.ok ([{ ProductId := "1", Size := 1 }], [], ["1"]) ∧
    (∃ c : OrderCache,
      updateOrderCacheFromResponse (fun _ => none) (fun f => f)
        (OrderCache.mk [{ Order.zero with Id := "a" }, { Order.zero with Id := "b" }])
        { Orders := { LastUpdated := 1, Value := [
            { OrderId := "a", IsAdded := true, IsRemoved := false,
              Value := [{ Name := "productId", Value := JsonValue.number 1 }] },
            { OrderId := "a", IsAdded := false, IsRemoved := true, Value := [] }] },
          Portfolio := { LastUpdated := 1, Positions := [
            { Id := "1", IsAdded := true, IsRemoved := false,
              Value := [{ Name := "size", Value := JsonValue.number 1 }] },
            { Id := "1", IsAdded := false, IsRemoved := true, Value := [] }] },
          Balance := { LastUpdated := 1, Value := [] } } = Except.ok c ∧
      (∀ o ∈ c.cache, o.Id ∉ ["a"])) ∧
    (∃ c : PositionCache,
      updatePositionCacheFromResponse
        (PositionCache.mk [{ ProductId := "1", Size := 3 }, { ProductId := "2", Size := 4 }])
        { Orders := { LastUpdated := 1, Value := [
            { OrderId := "a", IsAdded := true, IsRemoved := false,
              Value := [{ Name := "productId", Value := JsonValue.number 1 }] },
            { OrderId := "a", IsAdded := false, IsRemoved := true, Value := [] }] },
          Portfolio := { LastUpdated := 1, Positions := [
            { Id := "1", IsAdded := true, IsRemoved := false,
              Value := [{ Name := "size", Value := JsonValue.number 1 }] },
            { Id := "1", IsAdded := false, IsRemoved := true, Value := [] }] },
          Balance := { LastUpdated := 1, Value := [] } } = Except.ok c ∧
      (∀ p ∈ c.cache, p.ProductId ∉ ["1"])) :=
  have w := updateCacheFromResponse_removed (fun _ => none) (fun f => f)
    (OrderCache.mk [{ Order.zero with Id := "a" }, { Order.zero with Id := "b" }])
    (PositionCache.mk [{ ProductId := "1", Size := 3 }, { ProductId := "2", Size := 4 }])
    { Orders := { LastUpdated := 1, Value := [
        { OrderId := "a", IsAdded := true, IsRemoved := false,
          Value := [{ Name := "productId", Value := JsonValue.number 1 }] },
        { OrderId := "a", IsAdded := false, IsRemoved := true, Value := [] }] },
      Portfolio := { LastUpdated := 1, Positions := [
        { Id := "1", IsAdded := true, IsRemoved := false,
          Value := [{ Name := "size", Value := JsonValue.number 1 }] },
        { Id := "1", IsAdded := false, IsRemoved := true, Value := [] }] },
      Balance := { LastUpdated := 1, Value := [] } }
    [{ Order.zero with Id := "a", ProductId := 1 }] [] ["a"]
    [{ ProductId := "1", Size := 1 }] [] ["1"] (by decide!) (by decide!)
  ⟨by decide!, by decide!, w.1.imp (fun _ hc => ⟨hc.1, hc.2.1⟩), w.2.imp (fun _ hc => ⟨hc.1, hc.2.1⟩)⟩

/-! ## Removal of absent ids -/

theorem removeLoop_absent {α : Type} (key : α → String) (ids : List String) (cache : List α)
    (h : ∀ x ∈ cache, key x ∉ ids) :
    ∀ n : Nat, n ≤ cache.length → removeLoop key ids n cache = Except.ok cache := by
  intro n
  induction n with
  | zero => intro _; rfl
  | succ i ih =>
    intro hi
    have hlt : i < cache.length := hi
    have hget : cache[i]? = some cache[i] := List.getElem?_eq_getElem hlt
    have hno : key cache[i] ∉ ids := h _ (List.getElem_mem _)
    unfold removeLoop
    rw [matchesAny_eq key cache i _ hget]
    simp only [hno, decide_False, bind, Except.bind]
    exact ih (Nat.le_of_lt hlt)

/-- C16: for both caches, `Remove` with a list of ids none of which is the id
of a cached entry returns the cache as it was: same entries, same order, same
size. -/
theorem Remove_absent (oc : OrderCache) (pc : PositionCache) (ids : List String)
    (ho : ∀ o ∈ oc.cache, o.Id ∉ ids) (hp : ∀ p ∈ pc.cache, p.ProductId ∉ ids) :
    oc.Remove ids = Except.ok oc ∧ pc.Remove ids = Except.ok pc ∧
    (∀ oc' : OrderCache, oc.Remove ids = Except.ok oc' →
      oc'.cache = oc.cache ∧ oc'.cache.length = oc.cache.length) ∧
    (∀ pc' : PositionCache, pc.Remove ids = Except.ok pc' →
      pc'.cache = pc.cache ∧ pc'.cache.length = pc.cache.length) := by
  have h1 : oc.Remove ids = Except.ok oc := by
    unfold OrderCache.Remove
    rw [removeLoop_absent Order.Id ids oc.cache ho _ (le_refl _)]
    rfl
  have h2 : pc.Remove ids = Except.ok pc := by
    unfold PositionCache.Remove
    rw [removeLoop_absent Position.ProductId ids pc.cache hp _ (le_refl _)]
    rfl
  refine ⟨h1, h2, ?_, ?_⟩
  · intro oc' h
    rw [h1] at h
    injection h with h
    subst h
    exact ⟨rfl, rfl⟩
  · intro pc' h
    rw [h2] at h
    injection h with h
    subst h
    exact ⟨rfl, rfl⟩

/-- C16 at the caches holding the orders "a", "b" and the positions "1", "2",
for the absent ids "x" and "y". -/
theorem Remove_absent_witness :
    (∀ o ∈ [{ Order.zero with Id := "a" }, { Order.zero with Id := "b" }],
      o.Id ∉ ["x", "y"]) ∧
    (∀ p ∈ [({ ProductId := "1", Size := 10 } : Position), { ProductId := "2", Size := 20 }],
      p.ProductId ∉ ["x", "y"]) ∧
    (OrderCache.mk [{ Order.zero with Id := "a" }, { Order.zero with Id := "b" }]).Remove
        ["x", "y"] =
      Except.ok (OrderCache.mk [{ Order.zero with Id := "a" }, { Order.zero with Id := "b" }]) ∧
    (PositionCache.mk [{ ProductId := "1", Size := 10 }, { ProductId := "2", Size := 20 }]).Remove
        ["x", "y"] =
      Except.ok
        (PositionCache.mk [{ ProductId := "1", Size := 10 }, { ProductId := "2", Size := 20 }]) :=
  have ho : ∀ o ∈ [{ Order.zero with Id := "a" }, { Order.zero with Id := "b" }],
      o.Id ∉ ["x", "y"] := by decide
  have hp : ∀ p ∈ [({ ProductId := "1", Size := 10 } : Position),
      { ProductId := "2", Size := 20 }], p.ProductId ∉ ["x", "y"] := by decide
  have w := Remove_absent
    (OrderCache.mk [{ Order.zero with Id := "a" }, { Order.zero with Id := "b" }])
    (PositionCache.mk [{ ProductId := "1", Size := 10 }, { ProductId := "2", Size := 20 }])
    ["x", "y"] ho hp
  ⟨ho, hp, w.1, w.2.1⟩

/-! ## The ledger after a merge -/

/-- C13: after `Merge` the stored ledger is the stable date sort of the ledger
as it stood once the batch was appended: it is ascending by `Date`, holds the
same transactions, and transactions with equal dates are in their insertion
order (for every date, and for every pair). -/
theorem Merge_sorted (order : MapOrder) (c : TransactionCache) (batch : List Transaction) :
    (c.Merge order batch).transactions =
      sortTransactionsByDateAscending (batch.foldl mergeStep c.transactions) ∧
    (c.Merge order batch).transactions.Sorted (fun a b => a.Date ≤ b.Date) ∧
    (c.Merge order batch).transactions.Perm (batch.foldl mergeStep c.transactions) ∧
    (∀ d : Int,
      (c.Merge order batch).transactions.filter (fun t => decide (t.Date = d)) =
        (batch.foldl mergeStep c.transactions).filter (fun t => decide (t.Date = d))) ∧
    (∀ a b : Transaction, a.Date = b.Date →
      List.Sublist [a, b] (batch.foldl mergeStep c.transactions) →
      List.Sublist [a, b] (c.Merge order batch).transactions) := by
  have hfirst : (c.Merge order batch).transactions =
      sortTransactionsByDateAscending (batch.foldl mergeStep c.transactions) := rfl
  rw [hfirst]
  refine ⟨rfl, ?_, sortTransactions_perm _, sortTransactions_stable _, ?_⟩
  · refine List.Pairwise.imp ?_ (sortTransactions_sorted _)
    intro a b hab
    unfold Transaction.notAfter at hab
    omega
  · intro a b hab hsub
    apply List.pair_sublist_insertionSort _ hsub
    unfold Transaction.notAfter
    omega

theorem acceptedOf_sublist (ledger batch : List Transaction) :
    List.Sublist (acceptedOf ledger batch) batch := by
  unfold acceptedOf
  have h : List.Sublist (batch.enum.filter (fun (ib : Nat × Transaction) =>
      decide (ib.2.Id ∉ ledger.map Transaction.Id) &&
      decide (∀ x ∈ batch.take ib.1, x.Id ≠ ib.2.Id))) batch.enum := List.filter_sublist _
  have h2 := h.map Prod.snd
  rwa [List.enum_map_snd] at h2

theorem acceptedOf_concat (ledger batch : List Transaction) (b : Transaction) :
    acceptedOf ledger (batch ++ [b]) =
      acceptedOf ledger batch ++
        (if b.Id ∉ ledger.map Transaction.Id ∧ ∀ x ∈ batch, x.Id ≠ b.Id then [b] else []) := by
  unfold acceptedOf
  rw [List.enum_append, List.filter_append, List.map_append]
  congr 1
  · congr 1
    apply List.filter_congr
    intro ib hib
    have hlt : ib.1 < batch.length := by
      have := List.mem_enum_iff_getElem?.mp hib
      exact (List.getElem?_eq_some_iff.mp this).1
    rw [List.take_append_of_le_length hlt.le]
  · simp only [List.enumFrom_cons, List.enumFrom_nil, List.filter_cons, List.filter_nil,
      List.take_left']
    by_cases h : b.Id ∉ ledger.map Transaction.Id ∧ ∀ x ∈ batch, x.Id ≠ b.Id
    · rw [if_pos h]
      have : (decide (b.Id ∉ ledger.map Transaction.Id) &&
          decide (∀ x ∈ batch, x.Id ≠ b.Id)) = true := by
        simp only [Bool.and_eq_true, decide_eq_true_eq]; exact h
      simp only [this, if_true, List.map_cons, List.map_nil]
    · rw [if_neg h]
      have : (decide (b.Id ∉ ledger.map Transaction.Id) &&
          decide (∀ x ∈ batch, x.Id ≠ b.Id)) = false := by
        rw [Bool.eq_false_iff]
        simp only [ne_eq, Bool.and_eq_true, decide_eq_true_eq]; exact h
      simp only [this, List.map_nil]
      rfl

theorem foldl_mergeStep_eq (ledger batch : List Transaction) :
    batch.foldl mergeStep ledger = ledger ++ acceptedOf ledger batch := by
  induction batch using List.reverseRecOn with
  | nil => simp [acceptedOf]
  | append_singleton batch b ih =>
    rw [List.foldl_append, List.foldl_cons, List.foldl_nil, ih, acceptedOf_concat]
    unfold mergeStep
    have hiff : (ledger ++ acceptedOf ledger batch).any (fun t => decide (t.Id = b.Id)) = true ↔
        ¬ (b.Id ∉ ledger.map Transaction.Id ∧ ∀ x ∈ batch, x.Id ≠ b.Id) := by
      rw [List.any_eq_true]
      constructor
      · rintro ⟨t, ht, hid⟩ ⟨h1, h2⟩
        have hid' : t.Id = b.Id := by simpa using hid
        rcases List.mem_append.mp ht with h | h
        · exact h1 (hid' ▸ List.mem_map_of_mem Transaction.Id h)
        · exact h2 t ((acceptedOf_sublist ledger batch).subset h) hid'
      · intro h
        by_cases h1 : b.Id ∈ ledger.map Transaction.Id
        · obtain ⟨t, ht, hid⟩ := List.mem_map.mp h1
          exact ⟨t, List.mem_append_left _ ht, by simpa using hid⟩
        · have h2 : ∃ x ∈ batch, x.Id = b.Id := by
            by_contra hc
            push_neg at hc
            exact h ⟨h1, hc⟩
          obtain ⟨x, hx, hxid⟩ := h2
          obtain ⟨t, ht, hid⟩ := id_mem_foldl_mergeStep batch ledger x hx
          rw [ih] at ht
          exact ⟨t, ht, by simpa using hid.trans hxid⟩
    by_cases hc : b.Id ∉ ledger.map Transaction.Id ∧ ∀ x ∈ batch, x.Id ≠ b.Id
    · have : ¬ (ledger ++ acceptedOf ledger batch).any (fun t => decide (t.Id = b.Id)) = true :=
        fun h => hiff.mp h hc
      rw [if_neg this, if_pos hc, List.append_assoc]
    · have : (ledger ++ acceptedOf ledger batch).any (fun t => decide (t.Id = b.Id)) = true :=
        hiff.mpr hc
      rw [if_pos this, if_neg hc, List.append_nil]

theorem acceptedOf_nodup (ledger batch : List Transaction) :
    ((acceptedOf ledger batch).map Transaction.Id).Nodup ∧
    ∀ t ∈ acceptedOf ledger batch, t.Id ∉ ledger.map Transaction.Id := by
  induction batch using List.reverseRecOn with
  | nil => simp [acceptedOf]
  | append_singleton batch b ih =>
    rw [acceptedOf_concat]
    by_cases hc : b.Id ∉ ledger.map Transaction.Id ∧ ∀ x ∈ batch, x.Id ≠ b.Id
    · rw [if_pos hc]
      constructor
      · rw [List.map_append, List.nodup_append]
        refine ⟨ih.1, by simp, ?_⟩
        intro i hi hb
        simp only [List.map_cons, List.map_nil, List.mem_singleton] at hb
        obtain ⟨t, ht, hid⟩ := List.mem_map.mp hi
        exact hc.2 t ((acceptedOf_sublist ledger batch).subset ht) (hid.trans hb)
      · intro t ht
        rcases List.mem_append.mp ht with h | h
        · exact ih.2 t h
        · rw [List.mem_singleton.mp h]; exact hc.1
    · rw [if_neg hc, List.append_nil]
      exact ih

/-- C12: when the ledger ids are pairwise distinct, after `Merge` they still
are. Before the final sort the ledger is the old ledger followed by the
accepted transactions, which are the incoming ones whose id is neither in the
ledger nor carried by an earlier transaction of the batch, each once and in
batch order; so the stored ledger is a permutation of the old ledger and the
accepted transactions: nothing stored is removed or changed and a
transaction with a present id is dropped whatever its content. -/
theorem Merge_ids (order : MapOrder) (c : TransactionCache) (batch : List Transaction)
    (h : (c.transactions.map Transaction.Id).Nodup) :
    ((c.Merge order batch).transactions.map Transaction.Id).Nodup ∧
    batch.foldl mergeStep c.transactions = c.transactions ++ acceptedOf c.transactions batch ∧
    (c.Merge order batch).transactions.Perm
      (c.transactions ++ acceptedOf c.transactions batch) ∧
    List.Sublist (acceptedOf c.transactions batch) batch ∧
    (∀ t ∈ c.transactions, t ∈ (c.Merge order batch).transactions) ∧
    (∀ pre post : List Transaction, ∀ b : Transaction, batch = pre ++ b :: post →
      ((b.Id ∈ c.transactions.map Transaction.Id ∨ b.Id ∈ pre.map Transaction.Id) →
        (c.Merge order (pre ++ [b])).transactions.Perm (c.Merge order pre).transactions) ∧
      ((b.Id ∉ c.transactions.map Transaction.Id ∧ b.Id ∉ pre.map Transaction.Id) →
        (c.Merge order (pre ++ [b])).transactions.Perm
          ((c.Merge order pre).transactions ++ [b]))) := by
  have hfirst : ∀ bt, (c.Merge order bt).transactions =
      sortTransactionsByDateAscending (bt.foldl mergeStep c.transactions) := fun _ => rfl
  have hperm : (c.Merge order batch).transactions.Perm
      (c.transactions ++ acceptedOf c.transactions batch) := by
    rw [hfirst, foldl_mergeStep_eq]
    exact sortTransactions_perm _
  have hacc := acceptedOf_nodup c.transactions batch
  refine ⟨?_, foldl_mergeStep_eq _ _, hperm, acceptedOf_sublist _ _, ?_, ?_⟩
  · rw [(hperm.map Transaction.Id).nodup_iff, List.map_append, List.nodup_append]
    refine ⟨h, hacc.1, ?_⟩
    intro i hi hb
    obtain ⟨t, ht, hid⟩ := List.mem_map.mp hb
    exact hacc.2 t ht (hid ▸ hi)
  · intro t ht
    exact hperm.mem_iff.mpr (List.mem_append_left _ ht)
  · intro pre post b _
    have hstep : (pre ++ [b]).foldl mergeStep c.transactions =
        pre.foldl mergeStep c.transactions ++
          (if b.Id ∉ c.transactions.map Transaction.Id ∧ ∀ x ∈ pre, x.Id ≠ b.Id then [b]
           else []) := by
      rw [foldl_mergeStep_eq, foldl_mergeStep_eq, acceptedOf_concat, List.append_assoc]
    have hmem : (∀ x ∈ pre, x.Id ≠ b.Id) ↔ b.Id ∉ pre.map Transaction.Id := by
      constructor
      · intro hx hb
        obtain ⟨t, ht, hid⟩ := List.mem_map.mp hb
        exact hx t ht hid
      · intro hb x hx hid
        exact hb (hid ▸ List.mem_map_of_mem Transaction.Id hx)
    constructor
    · intro hpres
      have hc : ¬ (b.Id ∉ c.transactions.map Transaction.Id ∧ ∀ x ∈ pre, x.Id ≠ b.Id) := by
        rintro ⟨h1, h2⟩
        rcases hpres with hp | hp
        · exact h1 hp
        · exact hmem.mp h2 hp
      rw [hfirst, hfirst, hstep, if_neg hc, List.append_nil]
    · intro hnew
      have hc : b.Id ∉ c.transactions.map Transaction.Id ∧ ∀ x ∈ pre, x.Id ≠ b.Id :=
        ⟨hnew.1, hmem.mpr hnew.2⟩
      rw [hfirst, hfirst, hstep, if_pos hc]
      refine (sortTransactions_perm _).trans ?_
      exact List.Perm.append_right _ (sortTransactions_perm _).symm

/-- C12 at the ledger holding transaction 1, merged with a batch that carries
id 1 again (other content), id 2, and id 2 once more. -/
theorem Merge_ids_witness :
    (([{ Transaction.zero with Id := 1, Quantity := 5 }] : List Transaction).map
      Transaction.Id).Nodup ∧
    (((TransactionCache.mk [{ Transaction.zero with Id := 1, Quantity := 5 }] []).Merge
      MapOrder.insertion
      [{ Transaction.zero with Id := 1, Quantity := 7 },
       { Transaction.zero with Id := 2, Quantity := 3 },
       { Transaction.zero with Id := 2, Quantity := 4 }]).transactions.map
      Transaction.Id).Nodup :=
  have h : (([{ Transaction.zero with Id := 1, Quantity := 5 }] : List Transaction).map
      Transaction.Id).Nodup := by decide
  ⟨h, (Merge_ids MapOrder.insertion
    (TransactionCache.mk [{ Transaction.zero with Id := 1, Quantity := 5 }] [])
    [{ Transaction.zero with Id := 1, Quantity := 7 },
     { Transaction.zero with Id := 2, Quantity := 3 },
     { Transaction.zero with Id := 2, Quantity := 4 }] h).1⟩

/-! ## Uniqueness of ids in a cache -/

theorem foldl_updateOrder_Id (orders : List Order) (order : Order) :
    (orders.foldl updateOrder order).Id = order.Id := by
  induction orders generalizing order with
  | nil => rfl
  | cons o orders ih =>
    rw [List.foldl_cons, ih]
    unfold updateOrder
    split_ifs <;> rfl

theorem foldl_updatePosition_ProductId (positions : List Position) (position : Position) :
    (positions.foldl updatePosition position).ProductId = position.ProductId := by
  induction positions generalizing position with
  | nil => rfl
  | cons p positions ih =>
    rw [List.foldl_cons, ih]
    unfold updatePosition
    split_ifs <;> rfl

theorem Update_ids (c : OrderCache) (orders : List Order) :
    (c.Update orders).cache.map Order.Id = c.cache.map Order.Id := by
  unfold OrderCache.Update
  simp only [List.map_map]
  apply List.map_congr_left
  intro order _
  exact foldl_updateOrder_Id orders order

theorem PositionUpdate_ids (c : PositionCache) (positions : List Position) :
    (c.Update positions).cache.map Position.ProductId = c.cache.map Position.ProductId := by
  unfold PositionCache.Update
  simp only [List.map_map]
  apply List.map_congr_left
  intro position _
  exact foldl_updatePosition_ProductId positions position

theorem removeLoop_nodup {α : Type} (key : α → String) (ids : List String) (cache r : List α)
    (hnd : (cache.map key).Nodup)
    (h : removeLoop key ids cache.length cache = Except.ok r) : (r.map key).Nodup := by
  obtain ⟨r', hr', hperm⟩ := removeLoop_total key ids cache
  rw [hr'] at h
  injection h with h
  subst h
  rw [(hperm.map key).nodup_iff]
  exact List.Nodup.sublist ((List.filter_sublist _).map key) hnd

theorem OrderCacheOp_apply_nodup (c : OrderCache) (op : OrderCacheOp)
    (hnd : (c.cache.map Order.Id).Nodup)
    (hfresh : match op with
      | OrderCacheOp.add orders => ((c.cache ++ orders).map Order.Id).Nodup
      | _ => True) :
    ∃ c', op.apply c = Except.ok c' ∧ (c'.cache.map Order.Id).Nodup := by
  cases op with
  | add orders => exact ⟨_, rfl, hfresh⟩
  | update orders => exact ⟨_, rfl, by rw [Update_ids]; exact hnd⟩
  | remove orderIds =>
    obtain ⟨r, hr, _⟩ := removeLoop_total Order.Id orderIds c.cache
    refine ⟨{ cache := r }, ?_, removeLoop_nodup Order.Id orderIds c.cache r hnd hr⟩
    show OrderCache.Remove c orderIds = _
    unfold OrderCache.Remove
    rw [hr]; rfl
  | clear => exact ⟨_, rfl, List.nodup_nil⟩

theorem PositionCacheOp_apply_nodup (c : PositionCache) (op : PositionCacheOp)
    (hnd : (c.cache.map Position.ProductId).Nodup)
    (hfresh : match op with
      | PositionCacheOp.add positions =>
        ((c.cache ++ positions).map Position.ProductId).Nodup
      | _ => True) :
    ∃ c', op.apply c = Except.ok c' ∧ (c'.cache.map Position.ProductId).Nodup := by
  cases op with
  | add positions => exact ⟨_, rfl, hfresh⟩
  | update positions => exact ⟨_, rfl, by rw [PositionUpdate_ids]; exact hnd⟩
  | remove positionsIds =>
    obtain ⟨r, hr, _⟩ := removeLoop_total Position.ProductId positionsIds c.cache
    refine ⟨{ cache := r }, ?_,
      removeLoop_nodup Position.ProductId positionsIds c.cache r hnd hr⟩
    show PositionCache.Remove c positionsIds = _
    unfold PositionCache.Remove
    rw [hr]; rfl
  | clear => exact ⟨_, rfl, List.nodup_nil⟩

theorem runOrderOps_nodup (ops : List OrderCacheOp) (c : OrderCache)
    (hnd : (c.cache.map Order.Id).Nodup) (hfresh : freshOrderAdds ops c) :
    ∃ c', runOrderOps ops c = Except.ok c' ∧ (c'.cache.map Order.Id).Nodup := by
  induction ops generalizing c with
  | nil => exact ⟨c, rfl, hnd⟩
  | cons op ops ih =>
    obtain ⟨c1, h1, hnd1⟩ := OrderCacheOp_apply_nodup c op hnd hfresh.1
    obtain ⟨c2, h2, hnd2⟩ := ih c1 hnd1 (hfresh.2 c1 h1)
    refine ⟨c2, ?_, hnd2⟩
    unfold runOrderOps at h2 ⊢
    rw [List.foldlM_cons, h1]
    exact h2

theorem runPositionOps_nodup (ops : List PositionCacheOp) (c : PositionCache)
    (hnd : (c.cache.map Position.ProductId).Nodup) (hfresh : freshPositionAdds ops c) :
    ∃ c', runPositionOps ops c = Except.ok c' ∧ (c'.cache.map Position.ProductId).Nodup := by
  induction ops generalizing c with
  | nil => exact ⟨c, rfl, hnd⟩
  | cons op ops ih =>
    obtain ⟨c1, h1, hnd1⟩ := PositionCacheOp_apply_nodup c op hnd hfresh.1
    obtain ⟨c2, h2, hnd2⟩ := ih c1 hnd1 (hfresh.2 c1 h1)
    refine ⟨c2, ?_, hnd2⟩
    unfold runPositionOps at h2 ⊢
    rw [List.foldlM_cons, h1]
    exact h2

/-- C11 (as stated) fails: `Add` appends without looking at the cache, so adding
the order "a" twice to the empty order cache, or the position "1" twice to the
empty position cache, leaves two entries with the same id. -/
theorem Add_twice_counterexample :
    runOrderOps
        [OrderCacheOp.add [{ Order.zero with Id := "a" }],
         OrderCacheOp.add [{ Order.zero with Id := "a" }]] newOrderCache =
      Except.ok { cache := [{ Order.zero with Id := "a" }, { Order.zero with Id := "a" }] } ∧
    ¬ ([{ Order.zero with Id := "a" }, { Order.zero with Id := "a" }].map Order.Id).Nodup ∧
    runPositionOps
        [PositionCacheOp.add [{ ProductId := "1", Size := 10 }],
         PositionCacheOp.add [{ ProductId := "1", Size := 10 }]] newPositionCache =
      Except.ok { cache := [{ ProductId := "1", Size := 10 }, { ProductId := "1", Size := 10 }] } ∧
    ¬ ([({ ProductId := "1", Size := 10 } : Position), { ProductId := "1", Size := 10 }].map
        Position.ProductId).Nodup := by
  refine ⟨rfl, by decide, rfl, by decide⟩

/-- C11 (amended): starting from the empty caches, after any sequence of `Add`,
`Update`, `Remove` and `Clear` calls in which every `Add` adds entries whose
ids are pairwise distinct and differ from the ids cached at that time, every
call returns and no two cached orders share an `Id` and no two cached
positions share a `ProductId`. -/
theorem cache_ids_unique (orderOps : List OrderCacheOp) (positionOps : List PositionCacheOp)
    (ho : freshOrderAdds orderOps newOrderCache)
    (hp : freshPositionAdds positionOps newPositionCache) :
    (∃ c : OrderCache, runOrderOps orderOps newOrderCache = Except.ok c ∧
      (c.cache.map Order.Id).Nodup) ∧
    (∃ c : PositionCache, runPositionOps positionOps newPositionCache = Except.ok c ∧
      (c.cache.map Position.ProductId).Nodup) :=
  ⟨runOrderOps_nodup orderOps newOrderCache List.nodup_nil ho,
   runPositionOps_nodup positionOps newPositionCache List.nodup_nil hp⟩

/-- The amended C11 at the sequences: add "a" and "b", update "a", remove "a",
add "a" again; and add "1", clear, add "1". -/
theorem cache_ids_unique_witness :
    freshOrderAdds
      [OrderCacheOp.add [{ Order.zero with Id := "a" }, { Order.zero with Id := "b" }],
       OrderCacheOp.update [{ Order.zero with Id := "a", Quantity := 3 }],
       OrderCacheOp.remove ["a"],
       OrderCacheOp.add [{ Order.zero with Id := "a" }]] newOrderCache ∧
    freshPositionAdds
      [PositionCacheOp.add [{ ProductId := "1", Size := 10 }],
       PositionCacheOp.clear,
       PositionCacheOp.add [{ ProductId := "1", Size := 20 }]] newPositionCache ∧
    (∃ c : OrderCache, runOrderOps
      [OrderCacheOp.add [{ Order.zero with Id := "a" }, { Order.zero with Id := "b" }],
       OrderCacheOp.update [{ Order.zero with Id := "a", Quantity := 3 }],
       OrderCacheOp.remove ["a"],
       OrderCacheOp.add [{ Order.zero with Id := "a" }]] newOrderCache = Except.ok c ∧
      (c.cache.map Order.Id).Nodup) ∧
    (∃ c : PositionCache, runPositionOps
      [PositionCacheOp.add [{ ProductId := "1", Size := 10 }],
       PositionCacheOp.clear,
       PositionCacheOp.add [{ ProductId := "1", Size := 20 }]] newPositionCache = Except.ok c ∧
      (c.cache.map Position.ProductId).Nodup) :=
  have ho : freshOrderAdds
      [OrderCacheOp.add [{ Order.zero with Id := "a" }, { Order.zero with Id := "b" }],
       OrderCacheOp.update [{ Order.zero with Id := "a", Quantity := 3 }],
       OrderCacheOp.remove ["a"],
       OrderCacheOp.add [{ Order.zero with Id := "a" }]] newOrderCache := by
    refine ⟨by decide, fun c1 h1 => ?_⟩
    cases h1
    refine ⟨trivial, fun c2 h2 => ?_⟩
    cases h2
    refine ⟨trivial, fun c3 h3 => ?_⟩
    have h3' : c3 = { cache := [{ Order.zero with Id := "b" }] } := by
      have hr : OrderCacheOp.apply
          (((newOrderCache.Add [{ Order.zero with Id := "a" }, { Order.zero with Id := "b" }]).Update
            [{ Order.zero with Id := "a", Quantity := 3 }])) (OrderCacheOp.remove ["a"]) =
          Except.ok { cache := [{ Order.zero with Id := "b" }] } := by rfl
      have := hr.symm.trans h3
      injection this with this
      exact this.symm
    subst h3'
    refine ⟨by decide, fun c4 _ => trivial⟩
  have hp : freshPositionAdds
      [PositionCacheOp.add [{ ProductId := "1", Size := 10 }],
       PositionCacheOp.clear,
       PositionCacheOp.add [{ ProductId := "1", Size := 20 }]] newPositionCache := by
    refine ⟨by decide, fun c1 h1 => ?_⟩
    cases h1
    refine ⟨trivial, fun c2 h2 => ?_⟩
    cases h2
    refine ⟨by decide, fun c3 _ => trivial⟩
  have w := cache_ids_unique _ _ ho hp
  ⟨ho, hp, w.1, w.2⟩

/-! ## Realized performance since a date -/

theorem foldlM_pastPerformanceSinceStep (since : Int) (ts : List Transaction) :
    ts.foldlM (pastPerformanceSinceStep since) (0, []) =
      Except.ok (∑ i ∈ Finset.range ts.length,
        (ts[i]?).elim 0 (fun t =>
          if t.Quantity < 0 ∧ since < t.Date then
            (t.Price - pruValue (ts.take i)) * |(t.Quantity : ℚ)| + t.FeeInBaseCurrency
          else 0), ts) := by
  induction ts using List.reverseRecOn with
  | nil => rfl
  | append_singleton l a ih =>
    rw [List.foldlM_append, ih]
    have hsum : ∑ i ∈ Finset.range l.length,
        ((l ++ [a])[i]?).elim 0 (fun t =>
          if t.Quantity < 0 ∧ since < t.Date then
            (t.Price - pruValue ((l ++ [a]).take i)) * |(t.Quantity : ℚ)| + t.FeeInBaseCurrency
          else 0) =
        ∑ i ∈ Finset.range l.length,
        (l[i]?).elim 0 (fun t =>
          if t.Quantity < 0 ∧ since < t.Date then
            (t.Price - pruValue (l.take i)) * |(t.Quantity : ℚ)| + t.FeeInBaseCurrency
          else 0) := by
      apply Finset.sum_congr rfl
      intro i hi
      have hi' : i < l.length := Finset.mem_range.mp hi
      rw [List.getElem?_append_left hi', List.take_append_of_le_length hi'.le]
    have hlast : (l ++ [a])[l.length]? = some a := by simp
    have htake : (l ++ [a]).take l.length = l := by simp
    rw [List.length_append, List.length_singleton, Finset.sum_range_succ, hsum, hlast, htake]
    show (pastPerformanceSinceStep since _ a >>=
      fun acc => [].foldlM (pastPerformanceSinceStep since) acc) = _
    unfold pastPerformanceSinceStep
    by_cases hq : a.Quantity < 0 ∧ since < a.Date
    · simp only [hq, and_self, if_true, GetPru_ok, Option.elim]
      rfl
    · simp only [hq, if_false, Option.elim, add_zero]
      rfl

/-- C17: `GetPastPerformanceSince(D)` is the sum of the per-sell terms of
`GetPastPerformance` (each with the average cost of all the transactions that
precede the sell in the lot) over the sells dated strictly after `D`; a sell
dated exactly `D` contributes nothing, so a lot whose sells are all dated `D`
gives zero; and when `D` is before every sell the result is that of
`GetPastPerformance`. -/
theorem GetPastPerformanceSince_spec (p : HistoricalPosition) (since : Int) :
    p.GetPastPerformanceSince since =
      Except.ok (∑ i ∈ Finset.range p.transactions.length,
        (p.transactions[i]?).elim 0 (fun t =>
          if t.Quantity < 0 ∧ since < t.Date then
            (t.Price - pruValue (p.transactions.take i)) * |(t.Quantity : ℚ)|
              + t.FeeInBaseCurrency
          else 0)) ∧
    p.GetPastPerformance =
      Except.ok (∑ i ∈ Finset.range p.transactions.length,
        (p.transactions[i]?).elim 0 (fun t =>
          if t.Quantity < 0 then
            (t.Price - pruValue (p.transactions.take i)) * |(t.Quantity : ℚ)|
              + t.FeeInBaseCurrency
          else 0)) ∧
    ((∀ t ∈ p.transactions, t.Quantity < 0 → since < t.Date) →
      p.GetPastPerformanceSince since = p.GetPastPerformance) ∧
    ((∀ t ∈ p.transactions, t.Quantity < 0 → t.Date = since) →
      p.GetPastPerformanceSince since = Except.ok 0) := by
  have hsince : p.GetPastPerformanceSince since =
      Except.ok (∑ i ∈ Finset.range p.transactions.length,
        (p.transactions[i]?).elim 0 (fun t =>
          if t.Quantity < 0 ∧ since < t.Date then
            (t.Price - pruValue (p.transactions.take i)) * |(t.Quantity : ℚ)|
              + t.FeeInBaseCurrency
          else 0)) := by
    unfold HistoricalPosition.GetPastPerformanceSince
    rw [foldlM_pastPerformanceSinceStep]
    rfl
  have hall : p.GetPastPerformance =
      Except.ok (∑ i ∈ Finset.range p.transactions.length,
        (p.transactions[i]?).elim 0 (fun t =>
          if t.Quantity < 0 then
            (t.Price - pruValue (p.transactions.take i)) * |(t.Quantity : ℚ)|
              + t.FeeInBaseCurrency
          else 0)) := by
    unfold HistoricalPosition.GetPastPerformance
    rw [foldlM_pastPerformanceStep]
    rfl
  refine ⟨hsince, hall, ?_, ?_⟩
  · intro h
    rw [hsince, hall]
    congr 1
    apply Finset.sum_congr rfl
    intro i hi
    have hi' : i < p.transactions.length := Finset.mem_range.mp hi
    rw [List.getElem?_eq_getElem hi']
    simp only [Option.elim]
    by_cases hq : p.transactions[i].Quantity < 0
    · have := h _ (List.getElem_mem hi') hq
      simp only [hq, this, and_self, if_true]
    · simp only [hq, false_and, if_false]
  · intro h
    rw [hsince]
    congr 1
    apply Finset.sum_eq_zero
    intro i hi
    have hi' : i < p.transactions.length := Finset.mem_range.mp hi
    rw [List.getElem?_eq_getElem hi']
    simp only [Option.elim]
    by_cases hq : p.transactions[i].Quantity < 0
    · have := h _ (List.getElem_mem hi') hq
      have hlt : ¬ since < p.transactions[i].Date := by omega
      simp only [hq, hlt, and_false, if_false]
    · simp only [hq, false_and, if_false]

/-! ## The opened lot of a product -/

theorem mem_dropLast_or_eq_getLast {α : Type} (L : List α) (q : α) (hq : q ∈ L) :
    q ∈ L.dropLast ∨ L.getLast? = some q := by
  rcases List.eq_nil_or_concat L with h | ⟨L', l, h⟩
  · subst h; simp at hq
  · rw [List.concat_eq_append] at h
    subst h
    rcases List.mem_append.mp hq with h1 | h1
    · left; rw [List.dropLast_concat]; exact h1
    · right
      rw [List.mem_singleton.mp h1]
      exact List.getLast?_concat _

/-- Among the lots derived for one product, a lot of non-zero size is the last. -/
theorem open_lot_unique (order : MapOrder) (ts : List Transaction) (k : Int)
    (q q' : HistoricalPosition)
    (hq : q ∈ (getHistoricalPositionsFromTransactions order ts).2) (hk : q.ProductId = k)
    (hs : q.GetSize ≠ 0)
    (hq' : q' ∈ (getHistoricalPositionsFromTransactions order ts).2) (hk' : q'.ProductId = k)
    (hs' : q'.GetSize ≠ 0) : q = q' := by
  have hmem : ∀ x, x ∈ (getHistoricalPositionsFromTransactions order ts).2 → x.ProductId = k →
      x ∈ (getHistoricalPositionsFromTransactions order ts).2.filter
        (fun p => decide (p.ProductId = k)) := by
    intro x hx hxk
    exact List.mem_filter.mpr ⟨hx, by simpa using hxk⟩
  have h1 := hmem q hq hk
  have h2 := hmem q' hq' hk'
  rw [getHistoricalPositions_filter] at h1 h2
  have hspec := lotsOf_spec k _ (sortTransactions_sorted
    (ts.filter (fun t => decide (t.ProductId = k))))
  rcases mem_dropLast_or_eq_getLast _ q h1 with ha | ha
  · exact absurd (hspec.sealed q ha) hs
  · rcases mem_dropLast_or_eq_getLast _ q' h2 with hb | hb
    · exact absurd (hspec.sealed q' hb) hs'
    · rw [ha] at hb
      injection hb

/-- C18 (as stated) fails: the ledger holding one sell of 5 units of product 1
has an open lot for that product (its size is -5), yet
`GetOpenedHistoricalPositionForProduct("1")` reports not found. -/
theorem GetOpened_short_counterexample :
    (∃ p ∈ (newTransactionCache.Merge MapOrder.insertion
        [{ Transaction.zero with Id := 1, ProductId := 1, Quantity := -5 }]).positions,
      p.ProductId = 1 ∧ p.GetSize ≠ 0) ∧
    TransactionCache.GetOpenedHistoricalPositionForProduct
      (fun s => if s = "1" then some 1 else none)
      (newTransactionCache.Merge MapOrder.insertion
        [{ Transaction.zero with Id := 1, ProductId := 1, Quantity := -5 }]) "1" =
      (HistoricalPosition.zero, false) := by
  refine ⟨⟨HistoricalPosition.mk 1
    [{ Transaction.zero with Id := 1, ProductId := 1, Quantity := -5 }],
    by decide, rfl, by decide⟩, by decide⟩

/-- C18 (amended): on the positions derived by a merge (and on the empty
cache), `GetOpenedHistoricalPositionForProduct` reports found exactly when the product
has a lot whose `GetSize` (the sum of its signed quantities, as the `int`
holds it) is positive, and then returns that lot, which is the product's only
lot of non-zero size; otherwise, and when the
product id string is not an integer, it returns the empty position and
false. -/
theorem GetOpened_spec (atoi : String → Option Int) (order : MapOrder)
    (c : TransactionCache) (batch : List Transaction) (productid : String) :
    newTransactionCache.GetOpenedHistoricalPositionForProduct atoi productid =
      (HistoricalPosition.zero, false) ∧
    (atoi productid = none →
      (c.Merge order batch).GetOpenedHistoricalPositionForProduct atoi productid =
        (HistoricalPosition.zero, false)) ∧
    (∀ k : Int, atoi productid = some k →
      (((c.Merge order batch).GetOpenedHistoricalPositionForProduct atoi productid).2 = true ↔
        ∃ p ∈ (c.Merge order batch).positions, p.ProductId = k ∧ 0 < p.GetSize) ∧
      (((c.Merge order batch).GetOpenedHistoricalPositionForProduct atoi productid).2 = true →
        ((c.Merge order batch).GetOpenedHistoricalPositionForProduct atoi productid).1 ∈
          (c.Merge order batch).positions ∧
        ((c.Merge order batch).GetOpenedHistoricalPositionForProduct atoi productid).1.ProductId
          = k ∧
        0 < ((c.Merge order batch).GetOpenedHistoricalPositionForProduct atoi
          productid).1.GetSize ∧
        ∀ q ∈ (c.Merge order batch).positions, q.ProductId = k → q.GetSize ≠ 0 →
          q = ((c.Merge order batch).GetOpenedHistoricalPositionForProduct atoi productid).1) ∧
      (((c.Merge order batch).GetOpenedHistoricalPositionForProduct atoi productid).2 = false →
        ((c.Merge order batch).GetOpenedHistoricalPositionForProduct atoi productid).1 =
          HistoricalPosition.zero)) := by
  refine ⟨?_, ?_, ?_⟩
  · unfold TransactionCache.GetOpenedHistoricalPositionForProduct
    cases atoi productid <;> rfl
  · intro h
    unfold TransactionCache.GetOpenedHistoricalPositionForProduct
    rw [h]
  · intro k hk
    have hpos : (c.Merge order batch).positions =
        (getHistoricalPositionsFromTransactions order
          (batch.foldl mergeStep c.transactions)).2 := rfl
    unfold TransactionCache.GetOpenedHistoricalPositionForProduct
    rw [hk]
    simp only
    cases hf : (c.Merge order batch).positions.find? (fun position =>
        decide (position.ProductId = k) && decide (position.GetSize > 0)) with
    | none =>
      refine ⟨?_, ?_, fun _ => rfl⟩
      · constructor
        · intro h; cases h
        · rintro ⟨p, hp, hpk, hps⟩
          have := List.find?_eq_none.mp hf p hp
          simp [hpk, hps] at this
      · intro h; cases h
    | some r =>
      have hr := List.find?_some hf
      have hrmem := List.mem_of_find?_eq_some hf
      simp only [gt_iff_lt, Bool.and_eq_true, decide_eq_true_eq] at hr
      refine ⟨?_, ?_, ?_⟩
      · constructor
        · intro _; exact ⟨r, hrmem, hr.1, hr.2⟩
        · intro _; rfl
      · intro _
        refine ⟨hrmem, hr.1, hr.2, ?_⟩
        intro q hq hqk hqs
        rw [hpos] at hq hrmem
        exact open_lot_unique order _ k q r hq hqk hqs hrmem hr.1 (by omega)
      · intro h; cases h

/-! ## Classification of the records of a batch -/

theorem foldlM_convertOrdersStep (parseDate : String → Option Int) (NewFromFloat : ℚ → Decimal)
    (records : List updateOrderResponse) :
    ∀ (acc res : List Order × List Order × List String),
    records.foldlM (convertOrdersStep parseDate NewFromFloat) acc = Except.ok res →
    res.1 = acc.1 ++ (records.filter (fun r => !r.IsRemoved && r.IsAdded)).filterMap
      (decodedOrder parseDate NewFromFloat) ∧
    res.2.1 = acc.2.1 ++ (records.filter (fun r => !r.IsRemoved && !r.IsAdded)).filterMap
      (decodedOrder parseDate NewFromFloat) ∧
    res.2.2 = acc.2.2 ++ (records.filter (fun r => r.IsRemoved)).map
      updateOrderResponse.OrderId := by
  induction records with
  | nil =>
    intro acc res h
    simp only [List.foldlM_nil] at h
    injection h with h
    subst h
    simp
  | cons r records ih =>
    intro acc res h
    rw [List.foldlM_cons] at h
    cases hs : convertOrdersStep parseDate NewFromFloat acc r with
    | error e => rw [hs] at h; cases h
    | ok acc' =>
      rw [hs] at h
      obtain ⟨h1, h2, h3⟩ := ih acc' res h
      unfold convertOrdersStep at hs
      by_cases hrem : r.IsRemoved = true
      · rw [if_pos hrem] at hs
        injection hs with hs
        subst hs
        simp only at h1 h2 h3
        rw [h1, h2, h3]
        simp [hrem]
      · have hrem' : r.IsRemoved = false := by simpa using hrem
        rw [if_neg hrem] at hs
        cases hd : r.ConvertToOrder parseDate NewFromFloat with
        | error e =>
          rw [hd] at hs
          have hdec : decodedOrder parseDate NewFromFloat r = none := by
            unfold decodedOrder; rw [hd]
          cases e with
          | error msg =>
            injection hs with hs
            subst hs
            rw [h1, h2, h3]
            by_cases hadd : r.IsAdded = true <;> simp [hrem', hadd, hdec]
          | divisionByZero => cases hs
          | typeAssertion => cases hs
          | indexOutOfRange => cases hs
        | ok o =>
          rw [hd] at hs
          have hdec : decodedOrder parseDate NewFromFloat r = some o := by
            unfold decodedOrder; rw [hd]
          by_cases hadd : r.IsAdded = true
          · simp only [hadd, if_true] at hs
            injection hs with hs
            subst hs
            simp only at h1 h2 h3
            rw [h1, h2, h3]
            simp [hrem', hadd, hdec]
          · have hadd' : r.IsAdded = false := by simpa using hadd
            simp only [hadd', Bool.false_eq_true, if_false] at hs
            injection hs with hs
            subst hs
            simp only at h1 h2 h3
            rw [h1, h2, h3]
            simp [hrem', hadd', hdec]

theorem foldlM_convertPositionsStep (records : List updatePositionResponse) :
    ∀ (acc res : List Position × List Position × List String),
    records.foldlM convertPositionsStep acc = Except.ok res →
    res.1 = acc.1 ++ (records.filter (fun r => !r.IsRemoved && r.IsAdded)).filterMap
      decodedPosition ∧
    res.2.1 = acc.2.1 ++ (records.filter (fun r => !r.IsRemoved && !r.IsAdded)).filterMap
      decodedPosition ∧
    res.2.2 = acc.2.2 ++ (records.filter (fun r => r.IsRemoved)).map
      updatePositionResponse.Id ∧
    ∀ r ∈ records, r.IsRemoved = false → ∃ p, r.ConvertToPosition = Except.ok p := by
  induction records with
  | nil =>
    intro acc res h
    simp only [List.foldlM_nil] at h
    injection h with h
    subst h
    simp
  | cons r records ih =>
    intro acc res h
    rw [List.foldlM_cons] at h
    cases hs : convertPositionsStep acc r with
    | error e => rw [hs] at h; cases h
    | ok acc' =>
      rw [hs] at h
      obtain ⟨h1, h2, h3, h4⟩ := ih acc' res h
      unfold convertPositionsStep at hs
      by_cases hrem : r.IsRemoved = true
      · rw [if_pos hrem] at hs
        injection hs with hs
        subst hs
        simp only at h1 h2 h3
        rw [h1, h2, h3]
        refine ⟨by simp [hrem], by simp [hrem], by simp [hrem], ?_⟩
        intro r' hr' hr'rem
        rcases List.mem_cons.mp hr' with hh | hh
        · subst hh; rw [hrem] at hr'rem; cases hr'rem
        · exact h4 r' hh hr'rem
      · have hrem' : r.IsRemoved = false := by simpa using hrem
        rw [if_neg hrem] at hs
        cases hd : r.ConvertToPosition with
        | error e =>
          rw [hd] at hs
          have hnever : ∀ msg, r.ConvertToPosition ≠ Except.error (Fault.error msg) := by
            intro msg hc
            unfold updatePositionResponse.ConvertToPosition at hc
            have key : ∀ (props : List Property) (start : Position),
                props.foldlM convertPositionProperty start ≠ Except.error (Fault.error msg) := by
              intro props
              induction props with
              | nil => intro start hn; cases hn
              | cons q props ihp =>
                intro start hn
                rw [List.foldlM_cons] at hn
                cases hq : convertPositionProperty start q with
                | error e' =>
                  rw [hq] at hn
                  have hn' : (Except.error e' : Except Fault Position) =
                      Except.error (Fault.error msg) := hn
                  injection hn' with hn'
                  subst hn'
                  unfold convertPositionProperty at hq
                  split at hq
                  · cases hv : q.Value.float64 with
                    | error e2 =>
                      rw [hv] at hq
                      have hq' : (Except.error e2 : Except Fault Position) =
                          Except.error (Fault.error msg) := hq
                      injection hq' with hq'
                      subst hq'
                      unfold JsonValue.float64 at hv
                      split at hv <;> cases hv
                    | ok f => rw [hv] at hq; cases hq
                  · cases hq
                | ok s' =>
                  rw [hq] at hn
                  exact ihp s' hn
            exact key _ _ hc
          cases e with
          | error msg => exact absurd hd (hnever msg)
          | divisionByZero => cases hs
          | typeAssertion => cases hs
          | indexOutOfRange => cases hs
        | ok p =>
          rw [hd] at hs
          have hdec : decodedPosition r = some p := by
            unfold decodedPosition; rw [hd]
          have hmem : ∀ r' ∈ r :: records, r'.IsRemoved = false →
              ∃ p, r'.ConvertToPosition = Except.ok p := by
            intro r' hr' hr'rem
            rcases List.mem_cons.mp hr' with hh | hh
            · subst hh; exact ⟨p, hd⟩
            · exact h4 r' hh hr'rem
          by_cases hadd : r.IsAdded = true
          · simp only [hadd, if_true] at hs
            injection hs with hs
            subst hs
            simp only at h1 h2 h3
            rw [h1, h2, h3]
            exact ⟨by simp [hrem', hadd, hdec], by simp [hrem', hadd, hdec],
              by simp [hrem', hadd, hdec], hmem⟩
          · have hadd' : r.IsAdded = false := by simpa using hadd
            simp only [hadd', Bool.false_eq_true, if_false] at hs
            injection hs with hs
            subst hs
            simp only at h1 h2 h3
            rw [h1, h2, h3]
            exact ⟨by simp [hrem', hadd', hdec], by simp [hrem', hadd', hdec],
              by simp [hrem', hadd', hdec], hmem⟩

/-- C19 (as stated) fails: the orders record "x" is not flagged removed and is
flagged added, but its `buysell` code is unknown, so `ConvertToOrder` returns an
error and the record ends in no list. -/
theorem ConvertToOrders_skipped_counterexample :
    updateOrdersResponse.ConvertToOrders (fun _ => none) (fun f => f)
      { LastUpdated := 1,
        Value := [
          { OrderId := "x", IsAdded := true, IsRemoved := false,
            Value := [{ Name := "buysell", Value := JsonValue.string "Z" }] }] }
      = Except.ok ([], [], []) := by
  rfl

/-- C19 (amended): whenever `ConvertToOrders` / `ConvertToPositions` returns,
the removed list holds the ids of the records flagged removed, whatever their
added flag and fields, and those records contribute to no other list; the
added list holds the decoded records that are not flagged removed and are
flagged added, the updated list the decoded records flagged neither; each
list is in batch order. An orders record whose decoding returns an error is in
no list; every positions record that is not flagged removed decodes. -/
theorem Convert_classification (parseDate : String → Option Int) (NewFromFloat : ℚ → Decimal)
    (orders : updateOrdersResponse) (positions : updatePositionsResponse)
    (added updated : List Order) (removed : List String)
    (addedPositions updatedPositions : List Position) (removedPositions : List String)
    (h : orders.ConvertToOrders parseDate NewFromFloat = Except.ok (added, updated, removed))
    (hp : positions.ConvertToPositions =
      Except.ok (addedPositions, updatedPositions, removedPositions)) :
    removed = (orders.Value.filter (fun r => r.IsRemoved)).map updateOrderResponse.OrderId ∧
    added = (orders.Value.filter (fun r => !r.IsRemoved && r.IsAdded)).filterMap
      (decodedOrder parseDate NewFromFloat) ∧
    updated = (orders.Value.filter (fun r => !r.IsRemoved && !r.IsAdded)).filterMap
      (decodedOrder parseDate NewFromFloat) ∧
    removedPositions =
      (positions.Positions.filter (fun r => r.IsRemoved)).map updatePositionResponse.Id ∧
    addedPositions = (positions.Positions.filter (fun r => !r.IsRemoved && r.IsAdded)).filterMap
      decodedPosition ∧
    updatedPositions =
      (positions.Positions.filter (fun r => !r.IsRemoved && !r.IsAdded)).filterMap
        decodedPosition ∧
    (∀ r ∈ positions.Positions, r.IsRemoved = false →
      ∃ p, r.ConvertToPosition = Except.ok p) := by
  have ho := foldlM_convertOrdersStep parseDate NewFromFloat orders.Value ([], [], []) _ h
  have hq := foldlM_convertPositionsStep positions.Positions ([], [], []) _ hp
  simp only [List.nil_append] at ho hq
  exact ⟨ho.2.2, ho.1, ho.2.1, hq.2.2.1, hq.1, hq.2.1, hq.2.2.2⟩

/-- The amended C19 at the orders batch [added "a", removed-and-added "b" with a
malformed field, updated "c", undecodable "x"] and the positions batch
[removed "1", added "2", updated "3"]. -/
theorem Convert_classification_witness :
    updateOrdersResponse.ConvertToOrders (fun _ => none) (fun f => f)
      { LastUpdated := 1,
        Value := [
          { OrderId := "a", IsAdded := true, IsRemoved := false,
            Value := [{ Name := "productId", Value := JsonValue.number 1 }] },
          { OrderId := "b", IsAdded := true, IsRemoved := true,
            Value := [{ Name := "productId", Value := JsonValue.string "bad" }] },
          { OrderId := "c", IsAdded := false, IsRemoved := false,
            Value := [{ Name := "quantity", Value := JsonValue.number 2 }] },
          { OrderId := "x", IsAdded := true, IsRemoved := false,
            Value := [{ Name := "buysell", Value := JsonValue.string "Z" }] }] }
      = Except.ok ([{ Order.zero with Id := "a", ProductId := 1 }],
          [{ Order.zero with Id := "c", Quantity := 2 }], ["b"]) ∧
    updatePositionsResponse.ConvertToPositions
      { LastUpdated := 1,
        Positions := [
          { Id := "1", IsAdded := true, IsRemoved := true, Value := [] },
          { Id := "2", IsAdded := true, IsRemoved := false,
            Value := [{ Name := "size", Value := JsonValue.number 4 }] },
          { Id := "3", IsAdded := false, IsRemoved := false, Value := [] }] }
      = Except.ok ([{ ProductId := "2", Size := 4 }], [{ ProductId := "3", Size := 0 }], ["1"]) ∧
    (["b"] : List String) =
      (([
          { OrderId := "a", IsAdded := true, IsRemoved := false,
            Value := [{ Name := "productId", Value := JsonValue.number 1 }] },
          { OrderId := "b", IsAdded := true, IsRemoved := true,
            Value := [{ Name := "productId", Value := JsonValue.string "bad" }] },
          { OrderId := "c", IsAdded := false, IsRemoved := false,
            Value := [{ Name := "quantity", Value := JsonValue.number 2 }] },
          { OrderId := "x", IsAdded := true, IsRemoved := false,
            Value := [{ Name := "buysell", Value := JsonValue.string "Z" }] }] :
          List updateOrderResponse).filter
        (fun r => r.IsRemoved)).map updateOrderResponse.OrderId :=
  have h : updateOrdersResponse.ConvertToOrders (fun _ => none) (fun f => f)
      { LastUpdated := 1,
        Value := [
          { OrderId := "a", IsAdded := true, IsRemoved := false,
            Value := [{ Name := "productId", Value := JsonValue.number 1 }] },
          { OrderId := "b", IsAdded := true, IsRemoved := true,
            Value := [{ Name := "productId", Value := JsonValue.string "bad" }] },
          { OrderId := "c", IsAdded := false, IsRemoved := false,
            Value := [{ Name := "quantity", Value := JsonValue.number 2 }] },
          { OrderId := "x", IsAdded := true, IsRemoved := false,
            Value := [{ Name := "buysell", Value := JsonValue.string "Z" }] }] }
      = Except.ok ([{ Order.zero with Id := "a", ProductId := 1 }],
          [{ Order.zero with Id := "c", Quantity := 2 }], ["b"]) := by decide!
  have hp : updatePositionsResponse.ConvertToPositions
      { LastUpdated := 1,
        Positions := [
          { Id := "1", IsAdded := true, IsRemoved := true, Value := [] },
          { Id := "2", IsAdded := true, IsRemoved := false,
            Value := [{ Name := "size", Value := JsonValue.number 4 }] },
          { Id := "3", IsAdded := false, IsRemoved := false, Value := [] }] }
      = Except.ok ([{ ProductId := "2", Size := 4 }], [{ ProductId := "3", Size := 0 }], ["1"]) := by
    decide!
  ⟨h, hp, (Convert_classification (fun _ => none) (fun f => f) _ _ _ _ _ _ _ _ h hp).1⟩

/-! ## Control strings -/

theorem foldl_append_flatMap {α : Type} (g : α → List String) (ids : List α) (res : String) :
    ids.foldl (fun res id => (g id).foldl (fun r s => r ++ s) res) res =
      (ids.flatMap g).foldl (fun r s => r ++ s) res := by
  induction ids generalizing res with
  | nil => rfl
  | cons id ids ih =>
    rw [List.foldl_cons, ih, List.flatMap_cons, List.foldl_append]

theorem foldl_append_eq (l : List String) (s : String) :
    l.foldl (fun r x => r ++ x) s = s ++ String.join l := by
  unfold String.join
  induction l generalizing s with
  | nil => simp
  | cons a l ih =>
    rw [List.foldl_cons, List.foldl_cons, ih, ih ("" ++ a), String.empty_append,
      String.append_assoc]

theorem String_join_append (l1 l2 : List String) :
    String.join (l1 ++ l2) = String.join l1 ++ String.join l2 := by
  have h : String.join (l1 ++ l2) = (l1 ++ l2).foldl (fun r x => r ++ x) "" := rfl
  rw [h, List.foldl_append, foldl_append_eq, foldl_append_eq, String.empty_append]

theorem String_join_flatMap {α : Type} (g : α → List String) (ids : List α) :
    String.join (ids.flatMap g) = String.join (ids.map (fun id => String.join (g id))) := by
  induction ids with
  | nil => rfl
  | cons id ids ih =>
    rw [List.flatMap_cons, String_join_append, ih, List.map_cons]
    have h : String.join (String.join (g id) :: ids.map (fun id => String.join (g id))) =
        String.join ([String.join (g id)] ++ ids.map (fun id => String.join (g id))) := rfl
    rw [h, String_join_append]
    congr 1

theorem GetControlData_eq (ids : List String) (subscribe : Bool) :
    GetControlDataFromIssueIdList ids subscribe =
      String.join (ids.flatMap (fun id => vwdDatas.map (fun field =>
        (if subscribe then "req(" else "rel(") ++ id ++ "." ++ field ++ ");"))) := by
  unfold GetControlDataFromIssueIdList
  have hinner : ∀ (res id : String),
      vwdDatas.foldl (fun res data =>
        if subscribe then res ++ ("req(" ++ id ++ "." ++ data ++ ");")
        else res ++ ("rel(" ++ id ++ "." ++ data ++ ");")) res =
      (vwdDatas.map (fun field =>
        (if subscribe then "req(" else "rel(") ++ id ++ "." ++ field ++ ");")).foldl
        (fun r s => r ++ s) res := by
    intro res id
    rw [List.foldl_map]
    congr 1
    funext r data
    cases subscribe <;> rfl
  simp only [hinner]
  rw [foldl_append_flatMap (fun id => vwdDatas.map (fun field =>
    (if subscribe then "req(" else "rel(") ++ id ++ "." ++ field ++ ");")) ids ""]
  rfl

set_option maxRecDepth 100000 in
/-- The control string of `TestSubscribeProductQuotes`. -/
theorem GetControlData_test :
    GetControlDataFromIssueIdList ["123456", "789456"] true =
      "req(123456.BidPrice);req(123456.AskPrice);req(123456.LastPrice);req(123456.BidVolume);req(123456.AskVolume);req(123456.OpenPrice);req(123456.HighPrice);req(123456.LowPrice);req(123456.FullName);req(789456.BidPrice);req(789456.AskPrice);req(789456.LastPrice);req(789456.BidVolume);req(789456.AskVolume);req(789456.OpenPrice);req(789456.HighPrice);req(789456.LowPrice);req(789456.FullName);" := by
  decide

/-- C14: `GetControlDataFromIssueIdList(ids, true)` is the concatenation, for
each id in list order and within it for each field name in the order BidPrice,
AskPrice, LastPrice, BidVolume, AskVolume, OpenPrice, HighPrice, LowPrice,
FullName, of `req(<id>.<field>);` with nothing in between; with `false` every
`req(` is `rel(`; the empty list gives the empty string; and for the ids of
`TestSubscribeProductQuotes` the string is the expected one. -/
theorem GetControlDataFromIssueIdList_spec (ids : List String) :
    GetControlDataFromIssueIdList ids true =
      String.join (ids.map (fun id => String.join
        (["BidPrice", "AskPrice", "LastPrice", "BidVolume", "AskVolume", "OpenPrice",
          "HighPrice", "LowPrice", "FullName"].map
          (fun field => "req(" ++ id ++ "." ++ field ++ ");")))) ∧
    GetControlDataFromIssueIdList ids false =
      String.join (ids.map (fun id => String.join
        (["BidPrice", "AskPrice", "LastPrice", "BidVolume", "AskVolume", "OpenPrice",
          "HighPrice", "LowPrice", "FullName"].map
          (fun field => "rel(" ++ id ++ "." ++ field ++ ");")))) ∧
    GetControlDataFromIssueIdList [] true = "" ∧
    GetControlDataFromIssueIdList [] false = "" ∧
    GetControlDataFromIssueIdList ["123456", "789456"] true =
      "req(123456.BidPrice);req(123456.AskPrice);req(123456.LastPrice);req(123456.BidVolume);req(123456.AskVolume);req(123456.OpenPrice);req(123456.HighPrice);req(123456.LowPrice);req(123456.FullName);req(789456.BidPrice);req(789456.AskPrice);req(789456.LastPrice);req(789456.BidVolume);req(789456.AskVolume);req(789456.OpenPrice);req(789456.HighPrice);req(789456.LowPrice);req(789456.FullName);" := by
  refine ⟨?_, ?_, rfl, rfl, GetControlData_test⟩
  · rw [GetControlData_eq, String_join_flatMap]
    rfl
  · rw [GetControlData_eq, String_join_flatMap]
    rfl

/-! ## Quotes of instruments that were never subscribed -/

theorem dot_field (issueid field : String) :
    issueid ++ "." ++ field = issueid ++ ("." ++ field) := String.append_assoc _ _ _

/-- C15 (as stated) fails: on a client that never received anything, the quote
of the instrument "A" has `IssueId = "A"`, which is not the zero string. -/
theorem GetQuote_IssueId_counterexample :
    (∀ field ∈ vwdDatas, NewStreamingClient.indexes.Get ("A" ++ "." ++ field) = none) ∧
    (NewStreamingClient.GetQuote "A").IssueId = "A" ∧
    NewStreamingClient.GetQuote "A" ≠ ProductQuote.zero := by
  refine ⟨fun _ _ => rfl, rfl, ?_⟩
  intro h
  have h2 : (NewStreamingClient.GetQuote "A").IssueId = ProductQuote.zero.IssueId := by rw [h]
  revert h2
  decide

/-- C15 (amended): for an instrument id none of whose field names has an entry
in the name-to-index map, `GetQuote(id)` returns the quote whose `IssueId` is
`id` and whose every other field is the zero value of its type. -/
theorem GetQuote_unsubscribed (c : StreamingClient) (issueid : String)
    (h : ∀ field ∈ vwdDatas, c.indexes.Get (issueid ++ "." ++ field) = none) :
    c.GetQuote issueid = { ProductQuote.zero with IssueId := issueid } := by
  have hs : ∀ field ∈ vwdDatas, c.getQuoteStringValue (issueid ++ ("." ++ field)) = "" := by
    intro field hf
    unfold StreamingClient.getQuoteStringValue
    rw [← dot_field, h field hf]
  have hd : ∀ field ∈ vwdDatas, c.getQuoteDecimalValue (issueid ++ ("." ++ field)) = 0 := by
    intro field hf
    unfold StreamingClient.getQuoteDecimalValue
    rw [← dot_field, h field hf]
  have h1 := hs "FullName" (by decide)
  have h2 := hd "AskPrice" (by decide)
  have h3 := hd "BidPrice" (by decide)
  have h4 := hd "LastPrice" (by decide)
  have h5 := hd "BidVolume" (by decide)
  have h6 := hd "AskVolume" (by decide)
  have h7 := hd "OpenPrice" (by decide)
  have h8 := hd "HighPrice" (by decide)
  have h9 := hd "LowPrice" (by decide)
  unfold StreamingClient.GetQuote ProductQuote.zero
  have k1 : (".FullName" : String) = "." ++ "FullName" := by decide
  have k2 : (".AskPrice" : String) = "." ++ "AskPrice" := by decide
  have k3 : (".BidPrice" : String) = "." ++ "BidPrice" := by decide
  have k4 : (".LastPrice" : String) = "." ++ "LastPrice" := by decide
  have k5 : (".BidVolume" : String) = "." ++ "BidVolume" := by decide
  have k6 : (".AskVolume" : String) = "." ++ "AskVolume" := by decide
  have k7 : (".OpenPrice" : String) = "." ++ "OpenPrice" := by decide
  have k8 : (".HighPrice" : String) = "." ++ "HighPrice" := by decide
  have k9 : (".LowPrice" : String) = "." ++ "LowPrice" := by decide
  rw [k1, k2, k3, k4, k5, k6, k7, k8, k9, h1, h2, h3, h4, h5, h6, h7, h8, h9]

/-- The amended C15 at the instrument "B" on a client that only knows the
field `A.BidPrice`. -/
theorem GetQuote_unsubscribed_witness :
    (∀ field ∈ vwdDatas,
      ({ NewStreamingClient with
          indexes := NewIndexMap.Set "A.BidPrice" 1 } : StreamingClient).indexes.Get
        ("B" ++ "." ++ field) = none) ∧
    ({ NewStreamingClient with
        indexes := NewIndexMap.Set "A.BidPrice" 1 } : StreamingClient).GetQuote "B" =
      { ProductQuote.zero with IssueId := "B" } :=
  have h : ∀ field ∈ vwdDatas,
      ({ NewStreamingClient with
          indexes := NewIndexMap.Set "A.BidPrice" 1 } : StreamingClient).indexes.Get
        ("B" ++ "." ++ field) = none := by decide
  ⟨h, GetQuote_unsubscribed _ "B" h⟩

/-! ## The balance in an update cycle -/

/-- C20: whenever an update cycle succeeds, the stored balance is the decoded
balance if the returned balance cursor differs from the last-seen one and the
returned balance field list is non-empty, and is unchanged in every other
case; the stored balance cursor is the returned cursor. -/
theorem update_balance (parseDate : String → Option Int) (NewFromFloat : ℚ → Decimal)
    (c c' : Client) (response : updateResponse)
    (h : c.update parseDate NewFromFloat (some response) = Except.ok c') :
    c'.totalPortfolioLastUpdate = response.Balance.LastUpdated ∧
    ((c.totalPortfolioLastUpdate ≠ response.Balance.LastUpdated ∧
        response.Balance.Value ≠ []) →
      ∃ b, response.Balance.ConvertToBalance NewFromFloat = Except.ok (b, true) ∧
        c'.balance.Get = b) ∧
    (¬ (c.totalPortfolioLastUpdate ≠ response.Balance.LastUpdated ∧
        response.Balance.Value ≠ []) →
      c'.balance = c.balance) := by
  unfold Client.update at h
  simp only [bind, Except.bind, pure, Except.pure] at h
  cases ho : updateOrderCacheFromResponse parseDate NewFromFloat c.orders response with
  | error e => rw [ho] at h; cases h
  | ok orders =>
    rw [ho] at h
    simp only at h
    cases hp : updatePositionCacheFromResponse c.positions response with
    | error e => rw [hp] at h; cases h
    | ok positions =>
      rw [hp] at h
      simp only at h
      by_cases hcur : c.totalPortfolioLastUpdate = response.Balance.LastUpdated
      · simp only [hcur, ne_eq, not_true_eq_false, if_false] at h
        injection h with h
        subst h
        refine ⟨rfl, ?_, fun _ => rfl⟩
        intro hc
        exact absurd hcur hc.1
      · simp only [hcur, ne_eq, not_false_eq_true, if_true] at h
        cases hb : response.Balance.ConvertToBalance NewFromFloat with
        | error e => rw [hb] at h; cases h
        | ok bf =>
          obtain ⟨b, found⟩ := bf
          rw [hb] at h
          simp only at h
          have hfound : found = true ↔ response.Balance.Value ≠ [] := by
            unfold updateBalanceResponse.ConvertToBalance at hb
            by_cases hl : response.Balance.Value.length = 0
            · rw [if_pos hl] at hb
              injection hb with hb
              injection hb with _ hb2
              rw [← hb2]
              have : response.Balance.Value = [] := List.length_eq_zero.mp hl
              simp [this]
            · rw [if_neg hl] at hb
              simp only [bind, Except.bind, pure, Except.pure] at hb
              cases hf : response.Balance.Value.foldlM (convertBalanceProperty NewFromFloat)
                  Balance.zero with
              | error e => rw [hf] at hb; cases hb
              | ok res =>
                rw [hf] at hb
                injection hb with hb
                injection hb with _ hb2
                rw [← hb2]
                have : response.Balance.Value ≠ [] := fun hn => hl (by rw [hn]; rfl)
                simp [this]
          cases found with
          | true =>
            simp only [if_true] at h
            injection h with h
            subst h
            refine ⟨rfl, fun _ => ⟨b, rfl, rfl⟩, ?_⟩
            intro hc
            exact absurd ⟨hcur, hfound.mp rfl⟩ hc
          | false =>
            simp only [Bool.false_eq_true, if_false] at h
            injection h with h
            subst h
            refine ⟨rfl, ?_, fun _ => rfl⟩
            intro hc
            have := hfound.mpr hc.2
            cases this

/-- C20 at a cycle whose balance cursor moves from 0 to 7 and whose balance
batch carries a cash amount. -/
theorem update_balance_witness :
    Client.update (fun _ => none) (fun f => f)
      { TryReloginOn401 := true, username := "", password := "", sessionId := "",
        ordersLastUpdate := 0, orders := newOrderCache, portfolioLastUpdate := 0,
        positions := newPositionCache, totalPortfolioLastUpdate := 0,
        balance := newBalanceCache, lastLoginDate := 0 }
      (some { Orders := { LastUpdated := 3, Value := [] },
              Portfolio := { LastUpdated := 5, Positions := [] },
              Balance :=
                { LastUpdated := 7,
                  Value := [{ Name := "cash", Value := JsonValue.number 12 }] } }) =
      Except.ok
        { TryReloginOn401 := true, username := "", password := "", sessionId := "",
          ordersLastUpdate := 3, orders := newOrderCache, portfolioLastUpdate := 5,
          positions := newPositionCache, totalPortfolioLastUpdate := 7,
          balance := { cache := { Balance.zero with Cash := 12 } }, lastLoginDate := 0 } ∧
    (7 : Int) = 7 ∧
    ∃ b, updateBalanceResponse.ConvertToBalance (fun f => f)
        { LastUpdated := 7, Value := [{ Name := "cash", Value := JsonValue.number 12 }] } =
      Except.ok (b, true) ∧
      BalanceCache.Get { cache := { Balance.zero with Cash := 12 } } = b :=
  have h : Client.update (fun _ => none) (fun f => f)
      { TryReloginOn401 := true, username := "", password := "", sessionId := "",
        ordersLastUpdate := 0, orders := newOrderCache, portfolioLastUpdate := 0,
        positions := newPositionCache, totalPortfolioLastUpdate := 0,
        balance := newBalanceCache, lastLoginDate := 0 }
      (some { Orders := { LastUpdated := 3, Value := [] },
              Portfolio := { LastUpdated := 5, Positions := [] },
              Balance :=
                { LastUpdated := 7,
                  Value := [{ Name := "cash", Value := JsonValue.number 12 }] } }) =
      Except.ok
        { TryReloginOn401 := true, username := "", password := "", sessionId := "",
          ordersLastUpdate := 3, orders := newOrderCache, portfolioLastUpdate := 5,
          positions := newPositionCache, totalPortfolioLastUpdate := 7,
          balance := { cache := { Balance.zero with Cash := 12 } }, lastLoginDate := 0 } := by
    decide!
  have w := update_balance (fun _ => none) (fun f => f) _ _ _ h
  ⟨h, w.1, w.2.1 ⟨by decide, by simp⟩⟩

/-! ## Order of the returned lots -/

/-- C23: for every map iteration order and every transaction list, the returned
historical positions are in non-decreasing order of first transaction date
(and each has a first transaction). -/
theorem getHistoricalPositions_sorted (order : MapOrder) (transactions : List Transaction) :
    (getHistoricalPositionsFromTransactions order transactions).2.Sorted
      (fun a b => a.GetFirstTransactionDate ≤ b.GetFirstTransactionDate) ∧
    (∀ p ∈ (getHistoricalPositionsFromTransactions order transactions).2,
      ∃ t rest, p.transactions = t :: rest ∧ p.GetFirstTransactionDate = t.Date) := by
  unfold getHistoricalPositionsFromTransactions
    sortHistoricalPositionByFirstTransactionDateAscending sliceStable
  simp only
  constructor
  · refine List.Pairwise.imp ?_ (List.sorted_insertionSort HistoricalPosition.notAfter _)
    intro a b hab
    unfold HistoricalPosition.notAfter at hab
    omega
  · intro p hp
    have hp' := (List.perm_insertionSort HistoricalPosition.notAfter _).mem_iff.mp hp
    have hne := (List.mem_filter.mp hp').2
    simp only [HistoricalPosition.GetTransactionCount, gt_iff_lt, decide_eq_true_eq] at hne
    cases hpt : p.transactions with
    | nil => rw [hpt] at hne; simp at hne
    | cons t rest =>
      refine ⟨t, rest, rfl, ?_⟩
      unfold HistoricalPosition.GetFirstTransactionDate
      rw [hpt]

/-- C24 (evaluation at the failing input): for two buys of different products
dated the same instant, ranging over the grouping map in insertion order
returns the lot of product 1 first, ranging over it in reverse order returns
the lot of product 2 first. -/
theorem getHistoricalPositions_order_dependent :
    (getHistoricalPositionsFromTransactions MapOrder.insertion
      [{ Transaction.zero with Id := 1, ProductId := 1, Quantity := 1, Date := 5 },
       { Transaction.zero with Id := 2, ProductId := 2, Quantity := 1, Date := 5 }]).2 =
      [{ ProductId := 1,
         transactions :=
          [{ Transaction.zero with Id := 1, ProductId := 1, Quantity := 1, Date := 5 }] },
       { ProductId := 2,
         transactions :=
          [{ Transaction.zero with Id := 2, ProductId := 2, Quantity := 1, Date := 5 }] }] ∧
    (getHistoricalPositionsFromTransactions MapOrder.reversed
      [{ Transaction.zero with Id := 1, ProductId := 1, Quantity := 1, Date := 5 },
       { Transaction.zero with Id := 2, ProductId := 2, Quantity := 1, Date := 5 }]).2 =
      [{ ProductId := 2,
         transactions :=
          [{ Transaction.zero with Id := 2, ProductId := 2, Quantity := 1, Date := 5 }] },
       { ProductId := 1,
         transactions :=
          [{ Transaction.zero with Id := 1, ProductId := 1, Quantity := 1, Date := 5 }] }] ∧
    (getHistoricalPositionsFromTransactions MapOrder.insertion
      [{ Transaction.zero with Id := 1, ProductId := 1, Quantity := 1, Date := 5 },
       { Transaction.zero with Id := 2, ProductId := 2, Quantity := 1, Date := 5 }]).2 ≠
    (getHistoricalPositionsFromTransactions MapOrder.reversed
      [{ Transaction.zero with Id := 1, ProductId := 1, Quantity := 1, Date := 5 },
       { Transaction.zero with Id := 2, ProductId := 2, Quantity := 1, Date := 5 }]).2 := by
  refine ⟨by decide, by decide, by decide⟩

/-! ## Adding to the position cache -/

theorem filter_key_of_nodup (items : List Position) (p : Position)
    (hnd : (items.map Position.ProductId).Nodup) (hp : p ∈ items) :
    items.filter (fun position => decide (position.ProductId = p.ProductId)) = [p] := by
  induction items with
  | nil => simp at hp
  | cons a items ih =>
    have hnd' := (List.nodup_cons.mp hnd).2
    have ha : a.ProductId ∉ items.map Position.ProductId := (List.nodup_cons.mp hnd).1
    rcases List.mem_cons.mp hp with h | h
    · subst h
      have hrest : items.filter (fun position => decide (position.ProductId = p.ProductId)) =
          [] := by
        rw [List.filter_eq_nil_iff]
        intro q hq
        simp only [decide_eq_true_eq]
        intro heq
        exact ha (heq ▸ List.mem_map_of_mem Position.ProductId hq)
      rw [List.filter_cons_of_pos (by simp), hrest]
    · have hne : ¬ a.ProductId = p.ProductId := by
        intro heq
        exact ha (heq ▸ List.mem_map_of_mem Position.ProductId h)
      rw [List.filter_cons_of_neg (by simpa using hne)]
      exact ih hnd' h

/-- C25: after `Add(items)`, `Get(k)` returns what `Get(k)` returned before
followed by the items whose `ProductId` is `k`, in order, and nothing with
another `ProductId`; adding positions with pairwise distinct product ids to the
empty cache makes `Get` return exactly the added entry for each added id, as
in `TestPositionCache_Add`. -/
theorem PositionCache_Add_Get (c : PositionCache) (items : List Position) (k : String) :
    (c.Add items).Get k =
      c.Get k ++ items.filter (fun position => decide (position.ProductId = k)) ∧
    (∀ p ∈ (c.Add items).Get k, p.ProductId = k) ∧
    ((items.map Position.ProductId).Nodup →
      ∀ p ∈ items, (newPositionCache.Add items).Get p.ProductId = [p]) ∧
    ((newPositionCache.Add
        [{ ProductId := "1", Size := 10 }, { ProductId := "2", Size := 20 }]).Get "1").length
      = 1 ∧
    ((newPositionCache.Add
        [{ ProductId := "1", Size := 10 }, { ProductId := "2", Size := 20 }]).Get "2").length
      = 1 := by
  refine ⟨?_, ?_, ?_, by decide, by decide⟩
  · unfold PositionCache.Add PositionCache.Get
    exact List.filter_append _ _
  · intro p hp
    unfold PositionCache.Get at hp
    simpa using (List.mem_filter.mp hp).2
  · intro hnd p hp
    unfold PositionCache.Add PositionCache.Get newPositionCache
    rw [List.nil_append]
    exact filter_key_of_nodup items p hnd hp

/-! ## Total buy amount and performance in percent -/

theorem foldl_buyAmount (ts : List Transaction) (acc : Decimal) :
    ts.foldl (fun res transaction =>
      if transaction.Quantity > 0 then res + (transaction.Quantity : ℚ) * transaction.Price
      else res) acc =
    acc + ((buys ts).map (fun t => (t.Quantity : ℚ) * t.Price)).sum := by
  induction ts generalizing acc with
  | nil => simp [buys]
  | cons t ts ih =>
    rw [List.foldl_cons, ih]
    by_cases h : t.Quantity > 0
    · have h' : 0 < t.Quantity := h
      simp only [h, if_true, buys, List.filter_cons, h', decide_True, List.map_cons,
        List.sum_cons]
      ring
    · have h' : ¬ 0 < t.Quantity := h
      simp only [h, if_false, buys, List.filter_cons, h', decide_False]
      rfl

/-- C26: `GetTotalBuyAmount` is the sum of `Quantity * Price` over the
transactions of the lot with a positive quantity; a lot without such a
transaction gives 0. -/
theorem GetTotalBuyAmount_spec (p : HistoricalPosition) :
    p.GetTotalBuyAmount =
      ((p.transactions.filter (fun t => decide (0 < t.Quantity))).map
        (fun t => (t.Quantity : ℚ) * t.Price)).sum ∧
    ((∀ t ∈ p.transactions, t.Quantity ≤ 0) → p.GetTotalBuyAmount = 0) := by
  have h : p.GetTotalBuyAmount =
      ((p.transactions.filter (fun t => decide (0 < t.Quantity))).map
        (fun t => (t.Quantity : ℚ) * t.Price)).sum := by
    unfold HistoricalPosition.GetTotalBuyAmount
    rw [foldl_buyAmount, zero_add]
    rfl
  refine ⟨h, ?_⟩
  intro hall
  rw [h]
  have : p.transactions.filter (fun t => decide (0 < t.Quantity)) = [] := by
    rw [List.filter_eq_nil_iff]
    intro t ht
    have := hall t ht
    simp only [decide_eq_true_eq]
    omega
  rw [this]
  rfl

theorem GetPastPerformance_ok (p : HistoricalPosition) :
    ∃ performance : Decimal, p.GetPastPerformance = Except.ok performance := by
  unfold HistoricalPosition.GetPastPerformance
  rw [foldlM_pastPerformanceStep]
  exact ⟨_, rfl⟩

/-- C28: `GetPastPerformanceInPercent` returns `GetPastPerformance * 100`
divided (with `Decimal.Div`, within half a unit of the 16th digit of the exact
quotient) by `GetTotalBuyAmount` when that amount is non-zero, and panics
with a division by zero exactly when it is zero, as for a lot that holds no
buy. -/
theorem GetPastPerformanceInPercent_spec (p : HistoricalPosition) :
    ∃ performance : Decimal, p.GetPastPerformance = Except.ok performance ∧
      p.GetPastPerformanceInPercent =
        (if p.GetTotalBuyAmount = 0 then Except.error Fault.divisionByZero
         else Except.ok
          (Decimal.DivRound (performance * 100) p.GetTotalBuyAmount DivisionPrecision)) ∧
      (p.GetTotalBuyAmount ≠ 0 →
        |Decimal.DivRound (performance * 100) p.GetTotalBuyAmount DivisionPrecision -
          100 * performance / p.GetTotalBuyAmount| ≤ 1 / (2 * 10 ^ 16)) ∧
      (p.GetPastPerformanceInPercent = Except.error Fault.divisionByZero ↔
        p.GetTotalBuyAmount = 0) ∧
      ((∀ t ∈ p.transactions, t.Quantity ≤ 0) →
        p.GetPastPerformanceInPercent = Except.error Fault.divisionByZero) := by
  obtain ⟨performance, hperf⟩ := GetPastPerformance_ok p
  have hres : p.GetPastPerformanceInPercent =
      (if p.GetTotalBuyAmount = 0 then Except.error Fault.divisionByZero
       else Except.ok
        (Decimal.DivRound (performance * 100) p.GetTotalBuyAmount DivisionPrecision)) := by
    unfold HistoricalPosition.GetPastPerformanceInPercent
    rw [hperf]
    show Decimal.Div (performance * 100) p.GetTotalBuyAmount = _
    unfold Decimal.Div
    split_ifs <;> rfl
  refine ⟨performance, hperf, hres, ?_, ?_, ?_⟩
  · intro hne
    have := Decimal.DivRound_close (performance * 100) p.GetTotalBuyAmount 16 hne
    rw [mul_comm performance 100] at this
    rw [mul_comm performance 100]
    exact this
  · rw [hres]
    constructor
    · intro h
      by_contra hne
      rw [if_neg hne] at h
      cases h
    · intro h
      rw [if_pos h]
  · intro hall
    rw [hres, if_pos]
    unfold HistoricalPosition.GetTotalBuyAmount
    rw [foldl_buyAmount, zero_add]
    have : buys p.transactions = [] := by
      unfold buys
      rw [List.filter_eq_nil_iff]
      intro t ht
      have := hall t ht
      simp only [decide_eq_true_eq]
      omega
    rw [this]
    rfl

/-! ## The id of a decoded order -/

theorem convertOrderProperty_Id (parseDate : String → Option Int)
    (NewFromFloat : ℚ → Decimal) (orderId : String)
    (order : Order) (p : Property) (o' : Order)
    (h : convertOrderProperty parseDate NewFromFloat orderId order p = Except.ok o') : o'.Id = orderId := by
  unfold convertOrderProperty at h
  simp only [bind, Except.bind, pure, Except.pure] at h
  split at h
  all_goals try (split at h)
  all_goals try (split at h)
  all_goals first
    | (cases h; done)
    | (cases h; rfl)

theorem foldlM_convertOrderProperty_Id (parseDate : String → Option Int)
    (NewFromFloat : ℚ → Decimal) (orderId : String)
    (props : List Property) :
    ∀ (start o : Order),
    props.foldlM (convertOrderProperty parseDate NewFromFloat orderId) start = Except.ok o →
    (props = [] → o.Id = start.Id) ∧ (props ≠ [] → o.Id = orderId) := by
  induction props with
  | nil =>
    intro start o h
    simp only [List.foldlM_nil] at h
    injection h with h
    subst h
    exact ⟨fun _ => rfl, fun hne => absurd rfl hne⟩
  | cons p props ih =>
    intro start o h
    rw [List.foldlM_cons] at h
    cases hs : convertOrderProperty parseDate NewFromFloat orderId start p with
    | error e => rw [hs] at h; cases h
    | ok s' =>
      rw [hs] at h
      have h1 := ih s' o h
      have h2 := convertOrderProperty_Id parseDate NewFromFloat orderId start p s' hs
      refine ⟨fun hnil => (by cases hnil), fun _ => ?_⟩
      by_cases hp : props = []
      · rw [h1.1 hp, h2]
      · exact h1.2 hp

/-- C29: when `ConvertToOrder` succeeds, the decoded order has the id of the
record if the record has at least one property and the empty id if it has
none; so `ConvertToOrders` turns an added or updated record without
properties into an order with an empty `Id`. -/
theorem ConvertToOrder_Id (parseDate : String → Option Int)
    (NewFromFloat : ℚ → Decimal) (r : updateOrderResponse)
    (o : Order) (h : r.ConvertToOrder parseDate NewFromFloat = Except.ok o) :
    (r.Value ≠ [] → o.Id = r.OrderId) ∧
    (r.Value = [] → o.Id = "") ∧
    (∀ (orderId : String) (isAdded : Bool),
      updateOrderResponse.ConvertToOrder parseDate NewFromFloat
          { OrderId := orderId, IsAdded := isAdded, IsRemoved := false, Value := [] } =
        Except.ok Order.zero ∧
      updateOrdersResponse.ConvertToOrders parseDate NewFromFloat
          { LastUpdated := 0,
            Value := [{ OrderId := orderId, IsAdded := isAdded, IsRemoved := false,
                        Value := [] }] } =
        Except.ok (if isAdded then ([Order.zero], [], []) else ([], [Order.zero], [])) ∧
      Order.zero.Id = "") := by
  unfold updateOrderResponse.ConvertToOrder at h
  have h1 := foldlM_convertOrderProperty_Id parseDate NewFromFloat r.OrderId r.Value Order.zero o h
  refine ⟨?_, ?_, ?_⟩
  · exact h1.2
  · intro he
    rw [h1.1 he]
    rfl
  · intro orderId isAdded
    refine ⟨rfl, ?_, rfl⟩
    cases isAdded <;> rfl

/-- C29 at the record "a" carrying a price, which decodes to an order with
id "a". -/
theorem ConvertToOrder_Id_witness :
    updateOrderResponse.ConvertToOrder (fun _ => none) (fun f => f)
        { OrderId := "a", IsAdded := false, IsRemoved := false,
          Value := [{ Name := "price", Value := JsonValue.number 6 }] } =
      Except.ok { Order.zero with Id := "a", Price := 6 } ∧
    ({ Order.zero with Id := "a", Price := 6 } : Order).Id = "a" :=
  have h : updateOrderResponse.ConvertToOrder (fun _ => none) (fun f => f)
        { OrderId := "a", IsAdded := false, IsRemoved := false,
          Value := [{ Name := "price", Value := JsonValue.number 6 }] } =
      Except.ok { Order.zero with Id := "a", Price := 6 } := by decide!
  ⟨h, (ConvertToOrder_Id (fun _ => none) (fun f => f) _ _ h).1 (by simp)⟩

/-! ## The frame of an order update -/

theorem updateOrder_pos (order o : Order) (h : order.Id = o.Id) :
    updateOrder order o = patchOrder order o := by
  unfold updateOrder
  rw [if_pos h]
  rfl

theorem updateOrder_neg (order o : Order) (h : order.Id ≠ o.Id) :
    updateOrder order o = order := by
  unfold updateOrder
  rw [if_neg h]

theorem foldl_updateOrder_eq (orders : List Order) (order : Order) :
    orders.foldl updateOrder order =
      match (orders.filter (fun o => decide (order.Id = o.Id))).getLast? with
      | none => order
      | some o => patchOrder order o := by
  induction orders using List.reverseRecOn with
  | nil => rfl
  | append_singleton orders o ih =>
    rw [List.foldl_append, List.foldl_cons, List.foldl_nil, List.filter_append]
    have hid : (orders.foldl updateOrder order).Id = order.Id := foldl_updateOrder_Id orders order
    by_cases hm : order.Id = o.Id
    · rw [updateOrder_pos _ _ (hid.trans hm)]
      have hf : [o].filter (fun o' => decide (order.Id = o'.Id)) = [o] := by simp [hm]
      rw [hf, List.getLast?_concat]
      simp only
      rw [ih]
      cases (orders.filter (fun o => decide (order.Id = o.Id))).getLast? <;> rfl
    · rw [updateOrder_neg _ _ (by rw [hid]; exact hm)]
      have hf : [o].filter (fun o' => decide (order.Id = o'.Id)) = [] := by simp [hm]
      rw [hf, List.append_nil]
      exact ih

/-- C30: `Update` keeps the number and the order of the cached entries: the
entry at each place is the old one if its `Id` matches no update order, and
otherwise the old one with `Id`, `Date`, `ProductId`, `ProductName`,
`ContractType`, `ContractSize`, `Currency`, `BuySell` and `Size` kept and
the other eight fields taken from the last update order with that `Id`. An
update for ids that are not cached changes nothing. -/
theorem Update_frame (c : OrderCache) (orders : List Order) :
    (c.Update orders).cache.length = c.cache.length ∧
    (c.Update orders).cache = c.cache.map (fun order =>
      match (orders.filter (fun o => decide (order.Id = o.Id))).getLast? with
      | none => order
      | some o =>
        { Id := order.Id, Date := order.Date, ProductId := order.ProductId,
          ProductName := order.ProductName, ContractType := order.ContractType,
          ContractSize := order.ContractSize, Currency := order.Currency,
          BuySell := order.BuySell, Size := order.Size,
          Quantity := o.Quantity, Price := o.Price, StopPrice := o.StopPrice,
          TotalOrderValue := o.TotalOrderValue, OrderType := o.OrderType,
          TimeType := o.TimeType, IsModifiable := o.IsModifiable,
          IsDeletable := o.IsDeletable }) ∧
    (∀ (i : Nat) (order : Order), c.cache[i]? = some order →
      (∀ o ∈ orders, o.Id ≠ order.Id) → (c.Update orders).cache[i]? = some order) ∧
    ((∀ o ∈ orders, ∀ order ∈ c.cache, o.Id ≠ order.Id) → c.Update orders = c) := by
  have hmap : (c.Update orders).cache = c.cache.map (fun order =>
      match (orders.filter (fun o => decide (order.Id = o.Id))).getLast? with
      | none => order
      | some o => patchOrder order o) := by
    unfold OrderCache.Update
    simp only
    apply List.map_congr_left
    intro order _
    exact foldl_updateOrder_eq orders order
  have hnone : ∀ order : Order, (∀ o ∈ orders, o.Id ≠ order.Id) →
      (orders.filter (fun o => decide (order.Id = o.Id))).getLast? = none := by
    intro order hno
    have : orders.filter (fun o => decide (order.Id = o.Id)) = [] := by
      rw [List.filter_eq_nil_iff]
      intro o ho
      simp only [decide_eq_true_eq]
      exact fun h => hno o ho h.symm
    rw [this]
    rfl
  refine ⟨?_, hmap, ?_, ?_⟩
  · rw [hmap, List.length_map]
  · intro i order hi hno
    rw [hmap, List.getElem?_map, hi]
    simp only [Option.map_some', hnone order hno]
  · intro hno
    have hc : (c.Update orders).cache = c.cache := by
      rw [hmap]
      conv_rhs => rw [← List.map_id c.cache]
      apply List.map_congr_left
      intro order ho
      rw [hnone order (fun o ho' => hno o ho' order ho)]
      rfl
    cases c with
    | mk cache =>
      show OrderCache.mk (OrderCache.Update (OrderCache.mk cache) orders).cache = _
      rw [hc]

/-! ## Reading a quote -/

/-- C22: each decimal field `F` of `GetQuote id` is the decimal stored at the
index that `id.F` maps to when both lookups succeed and zero otherwise, and
`FullName` is the string stored at the index of `id.FullName` or the empty
string; `GetQuote` is a function of the maps that returns a quote for every
state and every id, and it only reads the maps. -/
theorem GetQuote_spec (c : StreamingClient) (issueid : String) :
    (c.GetQuote issueid).IssueId = issueid ∧
    (c.GetQuote issueid).FullName =
      ((c.indexes.Get (issueid ++ ".FullName")).bind c.stringValues.Get).getD "" ∧
    (c.GetQuote issueid).AskPrice =
      ((c.indexes.Get (issueid ++ ".AskPrice")).bind c.decimalValues.Get).getD 0 ∧
    (c.GetQuote issueid).BidPrice =
      ((c.indexes.Get (issueid ++ ".BidPrice")).bind c.decimalValues.Get).getD 0 ∧
    (c.GetQuote issueid).LastPrice =
      ((c.indexes.Get (issueid ++ ".LastPrice")).bind c.decimalValues.Get).getD 0 ∧
    (c.GetQuote issueid).BidVolume =
      ((c.indexes.Get (issueid ++ ".BidVolume")).bind c.decimalValues.Get).getD 0 ∧
    (c.GetQuote issueid).AskVolume =
      ((c.indexes.Get (issueid ++ ".AskVolume")).bind c.decimalValues.Get).getD 0 ∧
    (c.GetQuote issueid).OpenPrice =
      ((c.indexes.Get (issueid ++ ".OpenPrice")).bind c.decimalValues.Get).getD 0 ∧
    (c.GetQuote issueid).HighPrice =
      ((c.indexes.Get (issueid ++ ".HighPrice")).bind c.decimalValues.Get).getD 0 ∧
    (c.GetQuote issueid).LowPrice =
      ((c.indexes.Get (issueid ++ ".LowPrice")).bind c.decimalValues.Get).getD 0 ∧
    (∀ (name : String) (index : Int) (value : Decimal),
      c.indexes.Get name = some index → c.decimalValues.Get index = some value →
      c.getQuoteDecimalValue name = value) ∧
    (∀ (name : String) (index : Int) (value : String),
      c.indexes.Get name = some index → c.stringValues.Get index = some value →
      c.getQuoteStringValue name = value) := by
  have hd : ∀ name : String, c.getQuoteDecimalValue name =
      ((c.indexes.Get name).bind c.decimalValues.Get).getD 0 := by
    intro name
    unfold StreamingClient.getQuoteDecimalValue
    cases h1 : c.indexes.Get name with
    | none => rfl
    | some id =>
      show (match c.decimalValues.Get id with
        | none => 0
        | some value => value) = (c.decimalValues.Get id).getD 0
      cases c.decimalValues.Get id <;> rfl
  have hs : ∀ name : String, c.getQuoteStringValue name =
      ((c.indexes.Get name).bind c.stringValues.Get).getD "" := by
    intro name
    unfold StreamingClient.getQuoteStringValue
    cases h1 : c.indexes.Get name with
    | none => rfl
    | some id =>
      show (match c.stringValues.Get id with
        | none => ""
        | some value => value) = (c.stringValues.Get id).getD ""
      cases c.stringValues.Get id <;> rfl
  refine ⟨rfl, hs _, hd _, hd _, hd _, hd _, hd _, hd _, hd _, hd _, ?_, ?_⟩
  · intro name index value h1 h2
    rw [hd, h1]
    show (c.decimalValues.Get index).getD 0 = value
    rw [h2]
    rfl
  · intro name index value h1 h2
    rw [hs, h1]
    show (c.stringValues.Get index).getD "" = value
    rw [h2]
    rfl

/-! ## Quote updates -/

theorem valueAt_nil (i : Nat) : valueAt [] i = Except.error Fault.indexOutOfRange := rfl

theorem valueAt_zero (a : JsonValue) (l : List JsonValue) :
    valueAt (a :: l) 0 = Except.ok a := by
  unfold valueAt
  rw [List.getElem?_cons_zero]
  rfl

theorem valueAt_succ (a : JsonValue) (l : List JsonValue) (i : Nat) :
    valueAt (a :: l) (i + 1) = valueAt l i := by
  unfold valueAt
  rw [List.getElem?_cons_succ]

theorem valueAt_one (a b : JsonValue) (l : List JsonValue) :
    valueAt (a :: b :: l) 1 = Except.ok b := by
  rw [valueAt_succ, valueAt_zero]

theorem valueAt_one_singleton (a : JsonValue) :
    valueAt [a] 1 = Except.error Fault.indexOutOfRange := by
  rw [valueAt_succ, valueAt_nil]

theorem quoteUpdateStep_maps
    (NewFromFloat : ℚ → Decimal) (requestSession : Nat → Option String) (c : StreamingClient)
    (i : Nat) (entry : QuoteRecord) (c' : StreamingClient)
    (h : quoteUpdateStep NewFromFloat requestSession c i entry = Except.ok c') :
    c'.maps = applyQuoteRecord NewFromFloat c.maps entry ∧ entry.isOpcode = true := by
  obtain ⟨name, value⟩ := entry
  unfold quoteUpdateStep at h
  unfold applyQuoteRecord QuoteRecord.isOpcode
  simp only at h ⊢
  split at h
  · rcases value with _ | ⟨v0, _ | ⟨v1, rest⟩⟩
    · rw [valueAt_nil] at h
      cases h
    · rw [valueAt_zero, valueAt_one_singleton] at h
      cases v0 <;> cases h
    · rw [valueAt_zero, valueAt_one] at h
      cases v0 <;> cases v1 <;> first
        | (cases h; done)
        | (cases h; exact ⟨rfl, rfl⟩)
  · rcases value with _ | ⟨v0, _ | ⟨v1, rest⟩⟩
    · rw [valueAt_nil] at h
      cases h
    · rw [valueAt_zero, valueAt_one_singleton] at h
      cases v0 <;> cases h
    · rw [valueAt_zero, valueAt_one] at h
      cases v0 <;> cases v1 <;> first
        | (cases h; done)
        | (cases h; exact ⟨rfl, rfl⟩)
  · rcases value with _ | ⟨v0, _ | ⟨v1, rest⟩⟩
    · rw [valueAt_nil] at h
      cases h
    · rw [valueAt_zero, valueAt_one_singleton] at h
      cases v0 <;> cases h
    · rw [valueAt_zero, valueAt_one] at h
      cases v0 <;> cases v1 <;> first
        | (cases h; done)
        | (cases h; exact ⟨rfl, rfl⟩)
  · cases hr : requestSession i with
    | none =>
      rw [hr] at h
      cases h
    | some s =>
      rw [hr] at h
      cases h
      exact ⟨rfl, rfl⟩
  · rename_i h1 h2 h3 h4
    cases h
    constructor
    · split
      · exact absurd rfl h1
      · exact absurd rfl h2
      · exact absurd rfl h3
      · rfl
    · split
      · exact absurd rfl h1
      · exact absurd rfl h2
      · exact absurd rfl h3
      · rfl

theorem quoteUpdateStep_total
    (NewFromFloat : ℚ → Decimal) (requestSession : Nat → Option String) (c : StreamingClient)
    (i : Nat) (entry : QuoteRecord) (ho : entry.isOpcode = true)
    (hs : entry.Name = "sr" → requestSession i ≠ none) :
    ∃ c', quoteUpdateStep NewFromFloat requestSession c i entry = Except.ok c' := by
  obtain ⟨name, value⟩ := entry
  unfold QuoteRecord.isOpcode at ho
  unfold quoteUpdateStep
  simp only at ho hs ⊢
  split
  · rcases value with _ | ⟨v0, _ | ⟨v1, rest⟩⟩
    · cases ho
    · cases v0 <;> cases ho
    · rw [valueAt_zero, valueAt_one]
      cases v0 <;> cases v1 <;> first
        | (cases ho; done)
        | exact ⟨_, rfl⟩
  · rcases value with _ | ⟨v0, _ | ⟨v1, rest⟩⟩
    · cases ho
    · cases v0 <;> cases ho
    · rw [valueAt_zero, valueAt_one]
      cases v0 <;> cases v1 <;> first
        | (cases ho; done)
        | exact ⟨_, rfl⟩
  · rcases value with _ | ⟨v0, _ | ⟨v1, rest⟩⟩
    · cases ho
    · cases v0 <;> cases ho
    · rw [valueAt_zero, valueAt_one]
      cases v0 <;> cases v1 <;> first
        | (cases ho; done)
        | exact ⟨_, rfl⟩
  · cases hr : requestSession i with
    | none => exact absurd hr (hs rfl)
    | some s => exact ⟨_, rfl⟩
  · exact ⟨_, rfl⟩

theorem quoteUpdateLoop_maps (NewFromFloat : ℚ → Decimal) (requestSession : Nat → Option String)
    (records : List QuoteRecord) :
    ∀ (c : StreamingClient) (i : Nat),
    ∃ n, n ≤ records.length ∧
      (quoteUpdateLoop NewFromFloat requestSession c i records).1.maps =
        (records.take n).foldl (applyQuoteRecord NewFromFloat) c.maps ∧
      (∀ r ∈ records.take n, r.isOpcode = true) ∧
      ((quoteUpdateLoop NewFromFloat requestSession c i records).2 = none → n = records.length) ∧
      ((quoteUpdateLoop NewFromFloat requestSession c i records).2 ≠ none → n < records.length) := by
  induction records with
  | nil =>
    intro c i
    exact ⟨0, le_refl _, rfl, fun r hr => (by simp at hr), fun _ => rfl, fun h => absurd rfl h⟩
  | cons entry rest ih =>
    intro c i
    unfold quoteUpdateLoop
    cases hstep : quoteUpdateStep NewFromFloat requestSession c i entry with
    | error fault =>
      refine ⟨0, Nat.zero_le _, rfl, fun r hr => (by simp at hr), fun h => (by cases h), fun _ => ?_⟩
      simp
    | ok c' =>
      obtain ⟨n, hn, hmaps, hop, hnone, hsome⟩ := ih c' (i + 1)
      obtain ⟨h1, h2⟩ := quoteUpdateStep_maps NewFromFloat requestSession c i entry c' hstep
      refine ⟨n + 1, by simpa using hn, ?_, ?_, ?_, ?_⟩
      · simp only [List.take_succ_cons, List.foldl_cons]
        rw [← h1]
        exact hmaps
      · intro r hr
        simp only [List.take_succ_cons, List.mem_cons] at hr
        rcases hr with hr | hr
        · rw [hr]; exact h2
        · exact hop r hr
      · intro h
        simp only [List.length_cons]
        rw [hnone h]
      · intro h
        simp only [List.length_cons]
        exact Nat.succ_lt_succ (hsome h)

theorem quoteUpdateLoop_total (NewFromFloat : ℚ → Decimal) (requestSession : Nat → Option String)
    (records : List QuoteRecord) :
    ∀ (c : StreamingClient) (i : Nat),
    (∀ r ∈ records, r.isOpcode = true) →
    (∀ j, ∀ r, records[j]? = some r → r.Name = "sr" → requestSession (i + j) ≠ none) →
    (quoteUpdateLoop NewFromFloat requestSession c i records).2 = none := by
  induction records with
  | nil => intro c i _ _; rfl
  | cons entry rest ih =>
    intro c i ho hs
    unfold quoteUpdateLoop
    obtain ⟨c', hc'⟩ := quoteUpdateStep_total NewFromFloat requestSession c i entry
      (ho entry (List.mem_cons_self _ _)) (fun hsr => hs 0 entry (by simp) hsr)
    rw [hc']
    apply ih c' (i + 1) (fun r hr => ho r (List.mem_cons_of_mem _ hr))
    intro j r hj hsr
    have := hs (j + 1) r (by simpa using hj) hsr
    rw [show i + 1 + j = i + (j + 1) by omega]
    exact this

/-- C21: when `getQuoteUpdates` has gone through the whole list (it returned
nil), the three maps are the in-order fold of the records from the maps it
started with, where `a_req (name, index)` sets name to index, `un (index, v)`
the decimal at index, `us (index, s)` the string at index, each overwriting
what was there, and `sr` or an unknown opcode changes no map. It goes through
the whole list when the records are opcode records and every session request
made for an `sr` succeeds; in every case the maps are the fold of the records
before the one that ended the call. -/
theorem getQuoteUpdates_maps (NewFromFloat : ℚ → Decimal)
    (requestSession : Nat → Option String) (c : StreamingClient)
    (records : List QuoteRecord) :
    ((c.getQuoteUpdates NewFromFloat requestSession (some records)).2 = none →
      (c.getQuoteUpdates NewFromFloat requestSession (some records)).1.maps =
        records.foldl (applyQuoteRecord NewFromFloat) c.maps) ∧
    (∃ n, n ≤ records.length ∧
      (c.getQuoteUpdates NewFromFloat requestSession (some records)).1.maps =
        (records.take n).foldl (applyQuoteRecord NewFromFloat) c.maps ∧
      ((c.getQuoteUpdates NewFromFloat requestSession (some records)).2 = none ↔ n = records.length)) ∧
    ((∀ r ∈ records, r.isOpcode = true) →
      (∀ (j : Nat) (r : QuoteRecord), records[j]? = some r → r.Name = "sr" →
        requestSession j ≠ none) →
      (c.getQuoteUpdates NewFromFloat requestSession (some records)).2 = none) ∧
    (∀ (m : QuoteMaps) (value : List JsonValue),
      applyQuoteRecord NewFromFloat m { Name := "sr", Value := value } = m) ∧
    (∀ (m : QuoteMaps) (r : QuoteRecord),
      r.Name ≠ "a_req" → r.Name ≠ "un" → r.Name ≠ "us" → applyQuoteRecord NewFromFloat m r = m) ∧
    (∀ (m : IndexMap) (key : String) (value : Int) (k : String),
      (m.Set key value).Get k = if k = key then some value else m.Get k) ∧
    (∀ (m : DecimalValueMap) (key : Int) (value : Decimal) (k : Int),
      (m.Set key value).Get k = if k = key then some value else m.Get k) ∧
    (∀ (m : StringValueMap) (key : Int) (value : String) (k : Int),
      (m.Set key value).Get k = if k = key then some value else m.Get k) := by
  obtain ⟨n, hn, hmaps, _, hnone, hsome⟩ := quoteUpdateLoop_maps NewFromFloat requestSession records c 0
  refine ⟨?_, ⟨n, hn, hmaps, hnone, ?_⟩, ?_, fun _ _ => rfl, ?_,
    fun _ _ _ _ => rfl, fun _ _ _ _ => rfl, fun _ _ _ _ => rfl⟩
  · intro h
    have h1 := hmaps
    rw [hnone h, List.take_length] at h1
    exact h1
  · intro h
    by_contra hne
    exact absurd h (Nat.ne_of_lt (hsome hne))
  · intro ho hs
    apply quoteUpdateLoop_total NewFromFloat requestSession records c 0 ho
    intro j r hj hsr
    rw [Nat.zero_add]
    exact hs j r hj hsr
  · intro m r h1 h2 h3
    obtain ⟨name, value⟩ := r
    unfold applyQuoteRecord
    simp only at h1 h2 h3 ⊢

/-- C21 at a poll that renews the session between two registrations of the
same name: the call returns nil, the session id is the new one, the name maps
to the later index, and the decimal stored at the earlier index is still
there. -/
theorem getQuoteUpdates_maps_witness :
    (NewStreamingClient.getQuoteUpdates (fun f => f) (fun _ => some "s2")
      (some [{ Name := "a_req", Value := [JsonValue.string "1.BidPrice", JsonValue.number 7] },
        { Name := "un", Value := [JsonValue.number 7, JsonValue.number 5] },
        { Name := "sr", Value := [] },
        { Name := "a_req", Value := [JsonValue.string "1.BidPrice", JsonValue.number 8] }])).2 =
      none ∧
    (NewStreamingClient.getQuoteUpdates (fun f => f) (fun _ => some "s2")
      (some [{ Name := "a_req", Value := [JsonValue.string "1.BidPrice", JsonValue.number 7] },
        { Name := "un", Value := [JsonValue.number 7, JsonValue.number 5] },
        { Name := "sr", Value := [] },
        { Name := "a_req", Value := [JsonValue.string "1.BidPrice", JsonValue.number 8] }])).1.maps =
      [{ Name := "a_req", Value := [JsonValue.string "1.BidPrice", JsonValue.number 7] },
        { Name := "un", Value := [JsonValue.number 7, JsonValue.number 5] },
        { Name := "sr", Value := [] },
        { Name := "a_req", Value := [JsonValue.string "1.BidPrice", JsonValue.number 8] }].foldl
        (applyQuoteRecord (fun f => f)) NewStreamingClient.maps ∧
    (NewStreamingClient.getQuoteUpdates (fun f => f) (fun _ => some "s2")
      (some [{ Name := "a_req", Value := [JsonValue.string "1.BidPrice", JsonValue.number 7] },
        { Name := "un", Value := [JsonValue.number 7, JsonValue.number 5] },
        { Name := "sr", Value := [] },
        { Name := "a_req", Value := [JsonValue.string "1.BidPrice", JsonValue.number 8] }])).1.sessionId =
      "s2" ∧
    (NewStreamingClient.getQuoteUpdates (fun f => f) (fun _ => some "s2")
      (some [{ Name := "a_req", Value := [JsonValue.string "1.BidPrice", JsonValue.number 7] },
        { Name := "un", Value := [JsonValue.number 7, JsonValue.number 5] },
        { Name := "sr", Value := [] },
        { Name := "a_req", Value := [JsonValue.string "1.BidPrice", JsonValue.number 8] }])).1.indexes.Get
        "1.BidPrice" = some 8 ∧
    (NewStreamingClient.getQuoteUpdates (fun f => f) (fun _ => some "s2")
      (some [{ Name := "a_req", Value := [JsonValue.string "1.BidPrice", JsonValue.number 7] },
        { Name := "un", Value := [JsonValue.number 7, JsonValue.number 5] },
        { Name := "sr", Value := [] },
        { Name := "a_req", Value := [JsonValue.string "1.BidPrice", JsonValue.number 8] }])).1.decimalValues.Get
        7 = some 5 :=
  ⟨by decide,
   (getQuoteUpdates_maps (fun f => f) (fun _ => some "s2") NewStreamingClient _).1 (by decide),
   by decide, by decide!, by decide!⟩

/-! ## Relogin on a 401 response -/

theorem timeSub_ge (t u : Int) : timeSub t u ≥ 15 * Second ↔ 15 * Second ≤ t - u := by
  unfold timeSub Second maxDuration minDuration
  split_ifs <;> omega

theorem login_cases (c : Client) (received : Except String (Response × LoginResponse))
    (now : Int) :
    (∃ fault, c.login received now = (c, Except.error fault)) ∨
    (∃ loginResponse, c.login received now =
      ({ c with lastLoginDate := now }, Except.ok loginResponse)) := by
  unfold Client.login
  rcases received with err | ⟨resp, loginResponse⟩
  · exact Or.inl ⟨_, rfl⟩
  · simp only
    split_ifs
    · exact Or.inl ⟨_, rfl⟩
    · exact Or.inr ⟨_, rfl⟩

/-- C27 (as stated) fails: with relogin enabled, a 401 response received
exactly 15 seconds after the last successful login (not more than 15 seconds)
makes `ReceiveSuccessReloginOn401` call `login`, which succeeds here and
replaces the session id. -/
theorem ReceiveSuccessReloginOn401_boundary_counterexample :
    (15 * Second : Int) - 0 = 15 * Second ∧
    ¬ ((15 * Second : Int) - 0 > 15 * Second) ∧
    (Client.ReceiveSuccessReloginOn401
      { TryReloginOn401 := true, username := "u", password := "p", sessionId := "old",
        ordersLastUpdate := 0, orders := { cache := [] }, portfolioLastUpdate := 0,
        positions := { cache := [] }, totalPortfolioLastUpdate := 0,
        balance := newBalanceCache, lastLoginDate := 0 }
      (Except.ok { StatusCode := 401 }) (15 * Second)
      (Except.ok ({ StatusCode := 200 },
        { IsPassCodeEnabled := false, Locale := "", RedirectUrl := "", SessionId := "new",
          Status := 0, StatusText := "" }))
      (15 * Second + 1)).logins = 1 ∧
    (Client.ReceiveSuccessReloginOn401
      { TryReloginOn401 := true, username := "u", password := "p", sessionId := "old",
        ordersLastUpdate := 0, orders := { cache := [] }, portfolioLastUpdate := 0,
        positions := { cache := [] }, totalPortfolioLastUpdate := 0,
        balance := newBalanceCache, lastLoginDate := 0 }
      (Except.ok { StatusCode := 401 }) (15 * Second)
      (Except.ok ({ StatusCode := 200 },
        { IsPassCodeEnabled := false, Locale := "", RedirectUrl := "", SessionId := "new",
          Status := 0, StatusText := "" }))
      (15 * Second + 1)).client.sessionId = "new" ∧
    (Client.ReceiveSuccessReloginOn401
      { TryReloginOn401 := true, username := "u", password := "p", sessionId := "old",
        ordersLastUpdate := 0, orders := { cache := [] }, portfolioLastUpdate := 0,
        positions := { cache := [] }, totalPortfolioLastUpdate := 0,
        balance := newBalanceCache, lastLoginDate := 0 }
      (Except.ok { StatusCode := 401 }) (15 * Second)
      (Except.ok ({ StatusCode := 200 },
        { IsPassCodeEnabled := false, Locale := "", RedirectUrl := "", SessionId := "new",
          Status := 0, StatusText := "" }))
      (15 * Second + 1)).client.lastLoginDate = 15 * Second + 1 := by
  refine ⟨by decide, by decide, by decide, by decide, by decide⟩

/-- C27 (amended): on a 401 response with relogin enabled,
`ReceiveSuccessReloginOn401` calls `login` (once) exactly when at least 15
seconds have elapsed since the last successful login. When less than 15
seconds have elapsed it makes no login, leaves the client as it was and
returns the failure of the call. When it does log in, a failed login is
returned as the relogin error, and a successful one sets the session id and
the login date, after which the failure of the call is still returned. -/
theorem ReceiveSuccessReloginOn401_cooldown (c : Client) (resp : Response)
    (now loginNow : Int) (loginReceived : Except String (Response × LoginResponse))
    (h401 : resp.StatusCode = 401) (hre : c.TryReloginOn401 = true) :
    ((c.ReceiveSuccessReloginOn401 (Except.ok resp) now loginReceived loginNow).logins = 1 ↔
      15 * Second ≤ now - c.lastLoginDate) ∧
    (now - c.lastLoginDate < 15 * Second →
      (c.ReceiveSuccessReloginOn401 (Except.ok resp) now loginReceived loginNow).logins = 0 ∧
      (c.ReceiveSuccessReloginOn401 (Except.ok resp) now loginReceived loginNow).client = c ∧
      (c.ReceiveSuccessReloginOn401 (Except.ok resp) now loginReceived loginNow).result =
        Except.error (Fault.error "not 2xx HTTP status code")) ∧
    (15 * Second ≤ now - c.lastLoginDate →
      (∀ loginResponse, (c.login loginReceived loginNow).2 = Except.ok loginResponse →
        (c.ReceiveSuccessReloginOn401 (Except.ok resp) now loginReceived loginNow).client =
          { c with lastLoginDate := loginNow, sessionId := loginResponse.SessionId } ∧
        (c.ReceiveSuccessReloginOn401 (Except.ok resp) now loginReceived loginNow).result =
          Except.error (Fault.error "not 2xx HTTP status code")) ∧
      (∀ fault, (c.login loginReceived loginNow).2 = Except.error fault →
        (c.ReceiveSuccessReloginOn401 (Except.ok resp) now loginReceived loginNow).client = c ∧
        (c.ReceiveSuccessReloginOn401 (Except.ok resp) now loginReceived loginNow).result =
          Except.error (Fault.error "relogin on 401"))) := by
  have hstatus : resp.StatusCode < 200 ∨ resp.StatusCode > 299 := by
    rw [h401]; decide
  have hrun : c.ReceiveSuccessReloginOn401 (Except.ok resp) now loginReceived loginNow =
      if 15 * Second ≤ now - c.lastLoginDate then
        match c.login loginReceived loginNow with
        | (c1, Except.error _) =>
          { client := c1, logins := 1, result := Except.error (Fault.error "relogin on 401") }
        | (c1, Except.ok loginResponse) =>
          { client := { c1 with sessionId := loginResponse.SessionId }, logins := 1,
            result := Except.error (Fault.error "not 2xx HTTP status code") }
      else
        { client := c, logins := 0,
          result := Except.error (Fault.error "not 2xx HTTP status code") } := by
    unfold Client.ReceiveSuccessReloginOn401
    simp only
    by_cases hel : 15 * Second ≤ now - c.lastLoginDate
    · rw [if_pos ⟨h401, hre, (timeSub_ge _ _).2 hel⟩, if_pos hel]
      rcases c.login loginReceived loginNow with ⟨c1, _ | loginResponse⟩
      · rfl
      · simp only
        rw [if_pos hstatus]
        rfl
    · rw [if_neg (fun h => hel ((timeSub_ge _ _).1 h.2.2)), if_neg hel, if_pos hstatus]
      rfl
  have hlogin := login_cases c loginReceived loginNow
  rw [hrun]
  refine ⟨?_, ?_, ?_⟩
  · by_cases hel : 15 * Second ≤ now - c.lastLoginDate
    · rw [if_pos hel]
      rcases hlogin with ⟨fault, h⟩ | ⟨loginResponse, h⟩ <;> rw [h] <;> simp [hel]
    · rw [if_neg hel]
      simp [hel]
  · intro hlt
    rw [if_neg (not_le.2 hlt)]
    exact ⟨rfl, rfl, rfl⟩
  · intro hel
    rw [if_pos hel]
    refine ⟨?_, ?_⟩
    · intro loginResponse hok
      rcases hlogin with ⟨fault, h⟩ | ⟨loginResponse1, h⟩
      · rw [h] at hok
        cases hok
      · rw [h] at hok ⊢
        injection hok with hok
        subst hok
        exact ⟨rfl, rfl⟩
    · intro fault herr
      rcases hlogin with ⟨fault1, h⟩ | ⟨loginResponse1, h⟩
      · rw [h]
        exact ⟨rfl, rfl⟩
      · rw [h] at herr
        cases herr

/-- C27 (amended) at a 401 response received 20 seconds after the last login,
which makes one login. -/
theorem ReceiveSuccessReloginOn401_cooldown_witness :
    (Client.ReceiveSuccessReloginOn401
      { TryReloginOn401 := true, username := "u", password := "p", sessionId := "old",
        ordersLastUpdate := 0, orders := { cache := [] }, portfolioLastUpdate := 0,
        positions := { cache := [] }, totalPortfolioLastUpdate := 0,
        balance := newBalanceCache, lastLoginDate := 0 }
      (Except.ok { StatusCode := 401 }) (20 * Second)
      (Except.error "timeout") (20 * Second + 1)).logins = 1 ↔
    15 * Second ≤ 20 * Second - (0 : Int) :=
  (ReceiveSuccessReloginOn401_cooldown
    { TryReloginOn401 := true, username := "u", password := "p", sessionId := "old",
      ordersLastUpdate := 0, orders := { cache := [] }, portfolioLastUpdate := 0,
      positions := { cache := [] }, totalPortfolioLastUpdate := 0,
      balance := newBalanceCache, lastLoginDate := 0 }
    { StatusCode := 401 } (20 * Second) (20 * Second + 1) (Except.error "timeout")
    rfl rfl).1

end Degiro
